import Mathlib

/-!
KV cache of the attention layers (`src/layers.cpp`).

A shallow embedding of the cache handling of `BaseAttention`
(`before_forward`, `save_to_cache`, the read views of `cross_attention`) and of
the shift blocks of `GLMSelfAttention::forward` and `GLM2SelfAttention::forward`.

Conventions of the embedding:

* tensor data lives in a memory `Mem α` of flat element buffers; a `Tensor` is
  the metadata of a `ggml_tensor`: the buffer it points into, its shape `ne`,
  its strides `nb` and the offset of its first element;
* all strides and offsets are counted in elements: every byte quantity of the
  source is a multiple of `ggml_element_size` of the tensor it applies to, and
  the embedding divides that factor out;
* elements are abstract values of a type `α`; the numeric conversion `ggml_cpy`
  performs between element types is outside the embedding;
* the graph `ctx->gf` is the list of the queued operations that change tensor
  data, in their order of execution; running it may fail (`none`) when an
  operation reads or writes outside a buffer;
* the order of the operations of a whole `BaseSelfAttention::forward` call is
  studied on a second, symbolic graph: a `Node` is the expression tree of a
  `ggml_tensor`, and `ggml_visit_parents` lists the nodes of a tree in the
  order `ggml_build_forward_expand` gives them; the virtual positional hooks
  are values of `PosOp`, one per operation the variants in the source return;
* the kernels `ggml_diag_mask_inf` and `ggml_soft_max` act on rows of scores
  that are rationals or `-INFINITY`, with `expf` a parameter;
* `build_ntk_mixed_inv_freq` is written over an arbitrary number type with the
  functions of the C library as parameters, and is studied over the reals;
* the values of the score path are tensors `Val F` given by shape and
  coordinates, with the kernels of `ggml_scale`, `ggml_permute` and
  `ggml_mul_mat`; every other kernel is a parameter (`Kernels`);
* the NTK-mixed rotary kernel works on `Val F`; its three row loops carry the
  counter `ir` of the source and take the row body as an argument, so that the
  rows a thread takes do not depend on the data; a pair outside its row and an
  index outside `inv_freq` are `none`;
* `parse_args` and `get_utf8_line` (`src/main.cpp`) work on lists of strings:
  the arguments `argv`, and the lines `std::getline` returns.
-/

namespace chatllm

/-! ## Memory and tensor metadata -/

/-- Names of the flat buffers tensor data lives in: the two caches of an attention
instance and the key and value tensors handed to `save_to_cache`. -/
inductive BufId where
  | k_cache
  | v_cache
  | k
  | v
  deriving DecidableEq, Repr

/-- Tensor memory: one flat buffer of elements per `BufId`. -/
structure Mem (α : Type) where
  k_cache : List α
  v_cache : List α
  k : List α
  v : List α
  deriving DecidableEq, Repr

/-- The buffer named `b`. -/
def Mem.get {α : Type} (m : Mem α) : BufId → List α
  | BufId.k_cache => m.k_cache
  | BufId.v_cache => m.v_cache
  | BufId.k => m.k
  | BufId.v => m.v

/-- Replace the buffer named `b`. -/
def Mem.put {α : Type} (m : Mem α) : BufId → List α → Mem α
  | BufId.k_cache, l => { m with k_cache := l }
  | BufId.v_cache, l => { m with v_cache := l }
  | BufId.k, l => { m with k := l }
  | BufId.v, l => { m with v := l }

/-- Read element `p` of buffer `b`; `none` outside the buffer. -/
def Mem.read {α : Type} (m : Mem α) (b : BufId) (p : Nat) : Option α :=
  (m.get b)[p]?

/-- Write element `p` of buffer `b`; `none` (a memory fault) outside the buffer. -/
def Mem.write {α : Type} (m : Mem α) (b : BufId) (p : Nat) (x : α) : Option (Mem α) :=
  if p < (m.get b).length then some (m.put b ((m.get b).set p x)) else none

/-- Metadata of a `ggml_tensor`: buffer, shape `ne[0..3]`, strides `nb[0..3]` and the
offset of element `(0,0,0,0)`, the last two in elements. -/
structure Tensor where
  buf : BufId
  ne0 : Nat
  ne1 : Nat
  ne2 : Nat
  ne3 : Nat
  nb0 : Nat
  nb1 : Nat
  nb2 : Nat
  nb3 : Nat
  offs : Nat
  deriving DecidableEq, Repr

/-- Number of elements, `ggml_nelements`. -/
def Tensor.nelements (t : Tensor) : Nat := t.ne0 * t.ne1 * t.ne2 * t.ne3

/-- Buffer position of the element with coordinates `(i0, i1, i2, i3)`. -/
def Tensor.index (t : Tensor) (i0 i1 i2 i3 : Nat) : Nat :=
  t.offs + i0 * t.nb0 + i1 * t.nb1 + i2 * t.nb2 + i3 * t.nb3

/-- Buffer position of the `e`-th element in logical (row-major over `ne`, dimension 0
fastest) order, the order in which `ggml_cpy` pairs source and destination elements. -/
def Tensor.addr (t : Tensor) (e : Nat) : Nat :=
  t.index (e % t.ne0) (e / t.ne0 % t.ne1) (e / (t.ne0 * t.ne1) % t.ne2)
    (e / (t.ne0 * t.ne1 * t.ne2))

/-- A freshly allocated contiguous tensor occupying buffer `b` from its start
(`ggml_new_tensor_2d`, or the result of a `ggml_mul_mat`). -/
def ggml_new_tensor_2d (b : BufId) (ne0 ne1 : Nat) : Tensor :=
  { buf := b, ne0 := ne0, ne1 := ne1, ne2 := 1, ne3 := 1,
    nb0 := 1, nb1 := ne0, nb2 := ne0 * ne1, nb3 := ne0 * ne1, offs := 0 }

/-- The one dimensional view `ggml_view_1d(a, ne0, offset)`. -/
def ggml_view_1d (a : Tensor) (ne0 offset : Nat) : Tensor :=
  { buf := a.buf, ne0 := ne0, ne1 := 1, ne2 := 1, ne3 := 1,
    nb0 := 1, nb1 := ne0, nb2 := ne0, nb3 := ne0, offs := a.offs + offset }

/-- The view `ggml_view_2d(a, ne0, ne1, nb1, offset)`. -/
def ggml_view_2d (a : Tensor) (ne0 ne1 nb1 offset : Nat) : Tensor :=
  { buf := a.buf, ne0 := ne0, ne1 := ne1, ne2 := 1, ne3 := 1,
    nb0 := 1, nb1 := nb1, nb2 := nb1 * ne1, nb3 := nb1 * ne1, offs := a.offs + offset }

/-- The view `ggml_view_3d(a, ne0, ne1, ne2, nb1, nb2, offset)`. -/
def ggml_view_3d (a : Tensor) (ne0 ne1 ne2 nb1 nb2 offset : Nat) : Tensor :=
  { buf := a.buf, ne0 := ne0, ne1 := ne1, ne2 := ne2, ne3 := 1,
    nb0 := 1, nb1 := nb1, nb2 := nb2, nb3 := nb2 * ne2, offs := a.offs + offset }

/-- The view `ggml_transpose(a)`: dimensions 0 and 1 exchanged, data untouched. -/
def ggml_transpose (a : Tensor) : Tensor :=
  { a with ne0 := a.ne1, ne1 := a.ne0, nb0 := a.nb1, nb1 := a.nb0 }

/-- Whether the elements of `a` lie in logical order without gaps, `ggml_is_contiguous`. -/
def ggml_is_contiguous (a : Tensor) : Bool :=
  a.nb0 == 1 && a.nb1 == a.nb0 * a.ne0 && a.nb2 == a.nb1 * a.ne1 && a.nb3 == a.nb2 * a.ne2

/-- The view `ggml_reshape_3d(a, ne0, ne1, ne2)`; ggml asserts that `a` is contiguous and
that the element count is kept, a failed assertion is `none`. -/
def ggml_reshape_3d (a : Tensor) (ne0 ne1 ne2 : Nat) : Option Tensor :=
  if ggml_is_contiguous a && a.nelements == ne0 * ne1 * ne2 then
    some { buf := a.buf, ne0 := ne0, ne1 := ne1, ne2 := ne2, ne3 := 1,
           nb0 := 1, nb1 := ne0, nb2 := ne0 * ne1, nb3 := ne0 * ne1 * ne2, offs := a.offs }
  else none

/-- The view `ggml_permute(a, 0, 2, 1, 3)`: dimensions 1 and 2 exchanged. -/
def ggml_permute_0213 (a : Tensor) : Tensor :=
  { a with ne1 := a.ne2, ne2 := a.ne1, nb1 := a.nb2, nb2 := a.nb1 }

/-! ## The graph and its execution -/

/-- A queued operation that changes tensor data: `ggml_cpy(src, dst)`. -/
inductive Op where
  | cpy (src dst : Tensor)
  deriving DecidableEq, Repr

/-- The part of `ForwardContext` the cache code uses: the graph `gf`, as the list of
queued operations in execution order. -/
structure ForwardContext where
  gf : List Op
  deriving DecidableEq, Repr

/-- Queue a node at the end of the graph, `ggml_build_forward_expand(ctx->gf, node)`. -/
def ggml_build_forward_expand (ctx : ForwardContext) (node : Op) : ForwardContext :=
  { ctx with gf := ctx.gf ++ [node] }

/-- One iteration of the copy loop: element `e` of `src` is read from the current memory
and stored into element `e` of `dst`. -/
def cpyStep {α : Type} (src dst : Tensor) (e : Nat) (m : Mem α) : Option (Mem α) :=
  match m.read src.buf (src.addr e) with
  | none => none
  | some x => m.write dst.buf (dst.addr e) x

/-- The copy loop over the elements `0 .. n-1`, in ascending order. -/
def cpyLoop {α : Type} (src dst : Tensor) : Nat → Mem α → Option (Mem α)
  | 0, m => some m
  | n + 1, m => (cpyLoop src dst n m).bind (cpyStep src dst n)

/-- Execution of a `ggml_cpy` node: an element by element copy in logical order, reading
from the memory as it is when the element is reached (source and destination may share a
buffer). ggml asserts that both tensors have the same number of elements. -/
def ggml_compute_forward_cpy {α : Type} (src dst : Tensor) (m : Mem α) : Option (Mem α) :=
  if src.nelements = dst.nelements then cpyLoop src dst src.nelements m else none

/-- Execution of one node. -/
def Op.compute {α : Type} : Op → Mem α → Option (Mem α)
  | Op.cpy src dst, m => ggml_compute_forward_cpy src dst m

/-- Execution of the graph: the nodes run in the order they were queued. -/
def ggml_graph_compute {α : Type} : List Op → Mem α → Option (Mem α)
  | [], m => some m
  | op :: rest, m => (op.compute m).bind (ggml_graph_compute rest)

/-! ## `BaseAttention` -/

/-- The pending shift of `BaseAttention::shift_pending` (two `int` fields). -/
structure ShiftPending where
  shift : Int
  total : Int
  deriving DecidableEq, Repr

/-- Modelled from the spec: `ShiftPending::clear()` is declared outside the given sources;
the spec says that once the shift is applied the pending discard count resets to 0. -/
def ShiftPending.clear (sp : ShiftPending) : ShiftPending :=
  { sp with shift := 0 }

/-- The position tensor `pos`: `data` is the storage behind `pos->data`, which the code
writes through a raw `int *`, and `ne0` is `pos->ne[0]`. -/
structure PosTensor where
  data : Nat → Int
  ne0 : Nat

/-- The value of an expression of the 32-bit type `int`: the mathematical value wrapped
around modulo `2^32` into the range `-2^31 .. 2^31 - 1`. -/
def int32 (x : Int) : Int :=
  (x + 2147483648) % 4294967296 - 2147483648

/-- The loop of `fill_pos_vector`: `p[i] = n_past + i` for `i = 0 .. qlen-1`, the sum
being computed in `int`. -/
def fill_pos_loop (n_past : Nat) : Nat → (Nat → Int) → (Nat → Int)
  | 0, p => p
  | i + 1, p =>
    Function.update (fill_pos_loop n_past i p) i (int32 ((n_past : Int) + (i : Int)))

/-- The function `fill_pos_vector(pos, n_past, qlen)`. -/
def fill_pos_vector (pos : PosTensor) (n_past qlen : Nat) : PosTensor :=
  { data := fill_pos_loop n_past qlen pos.data, ne0 := qlen }

/-- The members of `BaseAttention` the cache code uses. The data of the members `k_cache`
and `v_cache` are the buffers of the same name in `Mem`. -/
structure BaseAttention where
  max_length : Nat
  num_attention_heads : Nat
  num_kv_heads : Nat
  shift_pending : ShiftPending
  pos : PosTensor

/-- The member tensor `k_cache` of `BaseAttention`: the key buffer from its start. The
views built on it take only its data pointer; its own shape is not used. -/
def k_cache : Tensor :=
  { buf := BufId.k_cache, ne0 := 0, ne1 := 1, ne2 := 1, ne3 := 1,
    nb0 := 1, nb1 := 0, nb2 := 0, nb3 := 0, offs := 0 }

/-- The member tensor `v_cache` of `BaseAttention`: the value buffer from its start. The
views built on it take only its data pointer; its own shape is not used. -/
def v_cache : Tensor :=
  { buf := BufId.v_cache, ne0 := 0, ne1 := 1, ne2 := 1, ne3 := 1,
    nb0 := 1, nb1 := 0, nb2 := 0, nb3 := 0, offs := 0 }

/-- Modelled from the spec: the caches are allocated outside the given sources; the spec
gives the key buffer as `[capacity, kv_hidden_size]` and the value buffer as
`[kv_hidden_size, capacity]`. -/
def Mem.Allocated {α : Type} (m : Mem α) (max_length kv_hidden_size : Nat) : Prop :=
  m.k_cache.length = max_length * kv_hidden_size ∧
  m.v_cache.length = kv_hidden_size * max_length

/-- The method `BaseAttention::before_forward`. -/
def BaseAttention.before_forward (self : BaseAttention) (ctx : ForwardContext)
    (kv_hidden_size n_past qlen : Nat) : BaseAttention × ForwardContext :=
  let self := { self with pos := fill_pos_vector self.pos n_past qlen }
  if 0 < self.shift_pending.shift then
    let remain := self.shift_pending.total - self.shift_pending.shift
    let ctx :=
      if 0 < remain then
        let k_cache_remain := ggml_view_1d k_cache (remain.toNat * kv_hidden_size)
          (kv_hidden_size * self.shift_pending.shift.toNat)
        let k_cache_1d := ggml_view_1d k_cache (remain.toNat * kv_hidden_size) 0
        let v_cache_remain := ggml_view_2d v_cache remain.toNat kv_hidden_size
          self.max_length self.shift_pending.shift.toNat
        let v_cache_2d := ggml_view_2d v_cache remain.toNat kv_hidden_size
          self.max_length 0
        let ctx := ggml_build_forward_expand ctx (Op.cpy k_cache_remain k_cache_1d)
        ggml_build_forward_expand ctx (Op.cpy v_cache_remain v_cache_2d)
      else ctx
    ({ self with shift_pending := self.shift_pending.clear }, ctx)
  else (self, ctx)

/-- The method `BaseAttention::save_to_cache`. -/
def BaseAttention.save_to_cache (self : BaseAttention) (ctx : ForwardContext)
    (kv_hidden_size n_past qlen : Nat) (k v : Tensor) : ForwardContext :=
  let Vcur := ggml_transpose v
  let k_cache_view := ggml_view_1d k_cache (qlen * kv_hidden_size) (kv_hidden_size * n_past)
  let v_cache_view := ggml_view_2d v_cache qlen kv_hidden_size self.max_length n_past
  let k_view := ggml_view_1d k (qlen * kv_hidden_size) 0
  let ctx := ggml_build_forward_expand ctx (Op.cpy k_view k_cache_view)
  ggml_build_forward_expand ctx (Op.cpy Vcur v_cache_view)

/-- Integer division of the source; dividing by zero is undefined there and fails here. -/
def idiv (a b : Nat) : Option Nat :=
  if b = 0 then none else some (a / b)

/-- The tensor `key_layer` that `BaseAttention::cross_attention` reads the keys through
(the view of `k_cache` handed to `calc_attn_scores`). -/
def BaseAttention.cross_attention_key_layer (self : BaseAttention)
    (hidden_size n_past qlen : Nat) : Option Tensor := do
  let head_size ← idiv hidden_size self.num_attention_heads
  let «repeat» ← idiv self.num_attention_heads self.num_kv_heads
  let kv_hidden_size ← idiv hidden_size «repeat»
  let key_layer := ggml_view_1d k_cache ((n_past + qlen) * kv_hidden_size) 0
  let key_layer ← ggml_reshape_3d key_layer head_size self.num_kv_heads (n_past + qlen)
  pure (ggml_permute_0213 key_layer)

/-- The tensor `value_layer` that `BaseAttention::cross_attention` reads the values
through (the view of `v_cache` handed to `calc_attn_scores`). -/
def BaseAttention.cross_attention_value_layer (self : BaseAttention)
    (hidden_size n_past qlen : Nat) : Option Tensor := do
  let head_size ← idiv hidden_size self.num_attention_heads
  pure (ggml_view_3d v_cache (n_past + qlen) head_size self.num_kv_heads
    self.max_length (self.max_length * head_size) 0)

/-- The positions a tensor reads: the buffer positions of its elements. -/
def Tensor.addrs (t : Tensor) : List Nat :=
  (List.range t.nelements).map t.addr

/-! ## The shift blocks of the GLM attention layers -/

/-- The members of `GLMSelfAttention` its shift block uses. -/
structure GLMSelfAttention where
  num_attention_heads : Nat
  k_cache : Tensor
  v_cache : Tensor
  shift_pending : ShiftPending
  pos : PosTensor

/-- The start of `GLMSelfAttention::forward`, up to the end of its shift block. -/
def GLMSelfAttention.forward_shift (self : GLMSelfAttention) (ctx : ForwardContext)
    (hidden_size n_past qlen : Nat) : Option (GLMSelfAttention × ForwardContext) := do
  let head_size ← idiv hidden_size self.num_attention_heads
  let self := { self with pos := fill_pos_vector self.pos n_past qlen }
  if 0 < self.shift_pending.shift then
    let remain := self.shift_pending.total - self.shift_pending.shift
    let ctx :=
      if 0 < remain then
        let k_cache_remain := ggml_view_3d self.k_cache head_size remain.toNat
          self.num_attention_heads self.k_cache.nb1 self.k_cache.nb2
          (self.shift_pending.shift.toNat * head_size)
        let k_cache_dst := ggml_view_3d self.k_cache head_size remain.toNat
          self.num_attention_heads self.k_cache.nb1 self.k_cache.nb2 0
        let v_cache_remain := ggml_view_3d self.v_cache remain.toNat head_size
          self.num_attention_heads self.v_cache.nb1 self.v_cache.nb2
          self.shift_pending.shift.toNat
        let v_cache_dst := ggml_view_3d self.v_cache remain.toNat head_size
          self.num_attention_heads self.v_cache.nb1 self.v_cache.nb2 0
        let ctx := ggml_build_forward_expand ctx (Op.cpy k_cache_remain k_cache_dst)
        ggml_build_forward_expand ctx (Op.cpy v_cache_remain v_cache_dst)
      else ctx
    pure ({ self with shift_pending := self.shift_pending.clear }, ctx)
  else pure (self, ctx)

/-- The members of `GLM2SelfAttention` its shift block uses. -/
structure GLM2SelfAttention where
  num_attention_heads : Nat
  num_kv_heads : Nat
  k_cache : Tensor
  v_cache : Tensor
  shift_pending : ShiftPending
  pos : PosTensor

/-- The start of `GLM2SelfAttention::forward`, up to the end of its shift block. -/
def GLM2SelfAttention.forward_shift (self : GLM2SelfAttention) (ctx : ForwardContext)
    (hidden_size n_past qlen : Nat) : Option (GLM2SelfAttention × ForwardContext) := do
  let head_size ← idiv hidden_size self.num_attention_heads
  let _mqa_scale ← idiv self.num_attention_heads self.num_kv_heads
  let self := { self with pos := fill_pos_vector self.pos n_past qlen }
  if 0 < self.shift_pending.shift then
    let remain := self.shift_pending.total - self.shift_pending.shift
    let ctx :=
      if 0 < remain then
        let k_cache_remain := ggml_view_3d self.k_cache head_size remain.toNat
          self.num_kv_heads self.k_cache.nb1 self.k_cache.nb2
          (self.shift_pending.shift.toNat * head_size)
        let k_cache_dst := ggml_view_3d self.k_cache head_size remain.toNat
          self.num_kv_heads self.k_cache.nb1 self.k_cache.nb2 0
        let v_cache_remain := ggml_view_3d self.v_cache remain.toNat head_size
          self.num_kv_heads self.v_cache.nb1 self.v_cache.nb2
          self.shift_pending.shift.toNat
        let v_cache_dst := ggml_view_3d self.v_cache remain.toNat head_size
          self.num_kv_heads self.v_cache.nb1 self.v_cache.nb2 0
        let ctx := ggml_build_forward_expand ctx (Op.cpy k_cache_remain k_cache_dst)
        ggml_build_forward_expand ctx (Op.cpy v_cache_remain v_cache_dst)
      else ctx
    pure ({ self with shift_pending := self.shift_pending.clear }, ctx)
  else pure (self, ctx)

/-! ## Inputs of one call and the running example -/

/-- The memory once the projections of a forward call are computed: `k` holds the
(position-encoded) key rows and `v` the value rows handed to `save_to_cache`, one row of
`kv_hidden_size` elements per token. -/
def Mem.withInput {α : Type} (m : Mem α) (k v : List α) : Mem α :=
  { m with k := k, v := v }

/-- The attention instance of the end-to-end scenario of the spec: capacity 8, two heads,
one kv head (head size 4, so `hidden_size = 8` and `kv_hidden_size = 4`). -/
def scenario : BaseAttention :=
  { max_length := 8, num_attention_heads := 2, num_kv_heads := 1,
    shift_pending := { shift := 0, total := 0 },
    pos := { data := fun _ => 0, ne0 := 0 } }

/-- A memory for `scenario`: cache element `p` holds `1000 + p` resp. `2000 + p`, and the
inputs are three key rows and three value rows. -/
def scenarioMem : Mem Nat :=
  { k_cache := (List.range 32).map (fun p => 1000 + p),
    v_cache := (List.range 32).map (fun p => 2000 + p),
    k := (List.range 12).map (fun p => 100 + p),
    v := (List.range 12).map (fun p => 200 + p) }

/-- The memory of `scenario` whose caches hold five tokens, with one new key row and one
new value row as inputs. -/
def shiftMem : Mem Nat :=
  { k_cache := (List.range 32).map (fun p => 1000 + p),
    v_cache := (List.range 32).map (fun p => 2000 + p),
    k := [100, 101, 102, 103],
    v := [200, 201, 202, 203] }

/-- A `GLMSelfAttention` instance with a pending shift: two heads of size 4, caches of
shape `[head_size, max_length, heads]` with capacity 8, shift of 2 out of 5 tokens. -/
def glmScenario : GLMSelfAttention :=
  { num_attention_heads := 2,
    k_cache := { buf := BufId.k_cache, ne0 := 4, ne1 := 8, ne2 := 2, ne3 := 1,
                 nb0 := 1, nb1 := 4, nb2 := 32, nb3 := 64, offs := 0 },
    v_cache := { buf := BufId.v_cache, ne0 := 8, ne1 := 4, ne2 := 2, ne3 := 1,
                 nb0 := 1, nb1 := 8, nb2 := 32, nb3 := 64, offs := 0 },
    shift_pending := { shift := 2, total := 5 },
    pos := { data := fun _ => 0, ne0 := 0 } }

/-- A `GLM2SelfAttention` instance with a pending shift: two heads of size 4 sharing one
kv head, caches with capacity 8, shift of 2 out of 5 tokens. -/
def glm2Scenario : GLM2SelfAttention :=
  { num_attention_heads := 2, num_kv_heads := 1,
    k_cache := { buf := BufId.k_cache, ne0 := 4, ne1 := 8, ne2 := 1, ne3 := 1,
                 nb0 := 1, nb1 := 4, nb2 := 32, nb3 := 32, offs := 0 },
    v_cache := { buf := BufId.v_cache, ne0 := 8, ne1 := 4, ne2 := 1, ne3 := 1,
                 nb0 := 1, nb1 := 8, nb2 := 32, nb3 := 32, offs := 0 },
    shift_pending := { shift := 2, total := 5 },
    pos := { data := fun _ => 0, ne0 := 0 } }

/-- The key rows 2, 3, 4 held by the key cache of `shiftMem`, one after the other. -/
def shiftRowsK : List Nat :=
  (List.range 12).map (fun e => 1008 + e)

/-- The value rows 2, 3, 4 held by the value cache of `shiftMem`, one after the other:
element `f` of row `i` is the cache element `(f, i + 2)`. -/
def shiftRowsV : List Nat :=
  (List.range 12).map (fun e => 2000 + (e % 4) * 8 + (e / 4 + 2))

/-- A memory for `scenario` whose caches never held a token. -/
def freshMem : Mem Nat :=
  { k_cache := List.replicate 32 0, v_cache := List.replicate 32 0, k := [], v := [] }

/-! ## The graph of one forward call, symbolically -/

/-- The precision tag of a matrix product, `enum ggml_prec`. -/
inductive ggml_prec where
  | GGML_PREC_DEFAULT
  | GGML_PREC_F32
  deriving DecidableEq, Repr

/-- The linear layers of an attention block. -/
inductive LinearId where
  | q_proj
  | k_proj
  | v_proj
  | o_proj
  deriving DecidableEq, Repr

/-- Tensors that hold data before the graph runs. -/
inductive Leaf where
  | hidden_states
  | k_cache
  | v_cache
  | pos
  | weight (l : LinearId)
  | bias (l : LinearId)
  | inf
  deriving DecidableEq, Repr

/-- The factor of a `ggml_scale`: `1.f / std::sqrt(head_size)`, kept as the integer it is
computed from. -/
inductive ScaleFactor where
  | inv_sqrt (head_size : Nat)
  deriving DecidableEq, Repr

/-- Operations with one tensor operand, with their integer arguments; the `float` argument
`bias_max` of `ggml_alibi` is kept as the whole number it is written as in the sources. -/
inductive UnOp where
  | view_1d (ne0 offset : Nat)
  | view_2d (ne0 ne1 nb1 offset : Nat)
  | view_3d (ne0 ne1 ne2 nb1 nb2 offset : Nat)
  | reshape_2d (ne0 ne1 : Nat)
  | reshape_3d (ne0 ne1 ne2 : Nat)
  | permute (axis0 axis1 axis2 axis3 : Nat)
  | transpose
  | cont
  | scale (s : ScaleFactor)
  | scale_inplace (s : ScaleFactor)
  | diag_mask_inf_inplace (n_past : Nat)
  | soft_max_inplace
  | alibi (n_past n_head : Nat) (bias_max : Nat)
  deriving DecidableEq, Repr

/-- Operations with two tensor operands. `rope_custom_inplace` keeps its integer arguments
`n_dims` and `mode`; `map_custom2` is the call with the NTK-mixed rotary kernel. -/
inductive BinOp where
  | mul_mat (prec : ggml_prec)
  | add_inplace
  | cpy
  | rope_custom_inplace (n_dims mode : Nat)
  | map_custom2
  deriving DecidableEq, Repr

/-- A `ggml_tensor *` as the graph builder sees it: a leaf, or the result of an operation
on its operands `src[0]`, `src[1]`. -/
inductive Node where
  | leaf (l : Leaf)
  | un (op : UnOp) (a : Node)
  | bin (op : BinOp) (a b : Node)
  deriving DecidableEq, Repr

/-- The graph `ctx->gf` with all its nodes, in execution order. -/
structure GraphContext where
  gf : List Node
  deriving DecidableEq, Repr

/-- The recursion `ggml_visit_parents` of `ggml_build_forward_expand`: a node already in
the graph is skipped, otherwise its operands are visited in order and the node is
appended; leaves are not nodes of the graph. -/
def ggml_visit_parents : Node → List Node → List Node
  | Node.leaf _, gf => gf
  | Node.un op a, gf =>
    if Node.un op a ∈ gf then gf else ggml_visit_parents a gf ++ [Node.un op a]
  | Node.bin op a b, gf =>
    if Node.bin op a b ∈ gf then gf
    else ggml_visit_parents b (ggml_visit_parents a gf) ++ [Node.bin op a b]

/-- Queue a tensor and everything it depends on,
`ggml_build_forward_expand(ctx->gf, tensor)`. -/
def GraphContext.build_forward_expand (ctx : GraphContext) (tensor : Node) : GraphContext :=
  { ctx with gf := ggml_visit_parents tensor ctx.gf }

/-- The call `ggml_mul_mat(a, b)`: a product tagged with the default precision. -/
def Node.ggml_mul_mat (a b : Node) : Node :=
  Node.bin (BinOp.mul_mat ggml_prec.GGML_PREC_DEFAULT) a b

/-- The call `ggml_mul_mat_set_prec(a, prec)`: the precision tag of the product `a` is
overwritten; the parameters of other operations are not part of the embedding. -/
def ggml_mul_mat_set_prec (a : Node) (prec : ggml_prec) : Node :=
  match a with
  | Node.bin (BinOp.mul_mat _) x y => Node.bin (BinOp.mul_mat prec) x y
  | other => other

/-- The members of `Linear` the graph depends on. -/
structure Linear where
  id : LinearId
  has_bias : Bool
  prec : ggml_prec
  deriving DecidableEq, Repr

/-- The method `Linear::forward`. -/
def Linear.forward (self : Linear) (input : Node) : Node :=
  let output := Node.ggml_mul_mat (Node.leaf (Leaf.weight self.id)) input
  let output := ggml_mul_mat_set_prec output self.prec
  if self.has_bias then
    Node.bin BinOp.add_inplace output (Node.leaf (Leaf.bias self.id))
  else output
/-- What a positional method of an attention variant does with its tensor: every variant
of the sources either returns it unchanged or applies one operation to it (and the
position tensor). -/
inductive PosOp where
  | identity
  | rope_custom_inplace (n_dims mode : Nat)
  | map_custom2
  | alibi (n_past n_head : Nat) (bias_max : Nat)
  deriving DecidableEq, Repr

/-- The tensor a positional method returns for the tensor `x` and the positions `past`. -/
def PosOp.apply : PosOp → Node → Node → Node
  | PosOp.identity, x, _ => x
  | PosOp.rope_custom_inplace n_dims mode, x, past =>
    Node.bin (BinOp.rope_custom_inplace n_dims mode) x past
  | PosOp.map_custom2, x, past => Node.bin BinOp.map_custom2 x past
  | PosOp.alibi n_past n_head bias_max, x, _ =>
    Node.un (UnOp.alibi n_past n_head bias_max) x

/-- The virtual methods `apply_pos_embedding_k`, `apply_pos_embedding_q` and
`apply_pos_embedding_kq` of an attention variant, each as the operation it applies for
given `hidden_size` and `qlen`. -/
structure PosEmbedding where
  apply_pos_embedding_k : Nat → Nat → PosOp
  apply_pos_embedding_q : Nat → Nat → PosOp
  apply_pos_embedding_kq : Nat → Nat → PosOp

/-- The members of `BaseSelfAttention` its graph depends on: those of `BaseAttention`, the
four linear layers, the precision `prec`, the flag `attn_scaling` and the variant's
positional methods. -/
structure BaseSelfAttention extends BaseAttention where
  q_proj : Linear
  k_proj : Linear
  v_proj : Linear
  o_proj : Linear
  prec : ggml_prec
  attn_scaling : Bool
  hooks : PosEmbedding

/-- The method `BaseAttention::before_forward`, building the full graph. -/
def BaseSelfAttention.before_forward (self : BaseSelfAttention) (ctx : GraphContext)
    (kv_hidden_size n_past qlen : Nat) : BaseSelfAttention × GraphContext :=
  let self := { self with pos := fill_pos_vector self.pos n_past qlen }
  if 0 < self.shift_pending.shift then
    let remain := self.shift_pending.total - self.shift_pending.shift
    let ctx :=
      if 0 < remain then
        let k_cache_remain := Node.un (UnOp.view_1d (remain.toNat * kv_hidden_size)
          (kv_hidden_size * self.shift_pending.shift.toNat)) (Node.leaf Leaf.k_cache)
        let k_cache_1d := Node.un (UnOp.view_1d (remain.toNat * kv_hidden_size) 0)
          (Node.leaf Leaf.k_cache)
        let v_cache_remain := Node.un (UnOp.view_2d remain.toNat kv_hidden_size
          self.max_length self.shift_pending.shift.toNat) (Node.leaf Leaf.v_cache)
        let v_cache_2d := Node.un (UnOp.view_2d remain.toNat kv_hidden_size
          self.max_length 0) (Node.leaf Leaf.v_cache)
        let ctx := ctx.build_forward_expand (Node.bin BinOp.cpy k_cache_remain k_cache_1d)
        ctx.build_forward_expand (Node.bin BinOp.cpy v_cache_remain v_cache_2d)
      else ctx
    ({ self with shift_pending := self.shift_pending.clear }, ctx)
  else (self, ctx)

/-- The method `BaseAttention::save_to_cache`, building the full graph. -/
def BaseSelfAttention.save_to_cache (self : BaseSelfAttention) (ctx : GraphContext)
    (kv_hidden_size n_past qlen : Nat) (k v : Node) : GraphContext :=
  let Vcur := Node.un UnOp.transpose v
  let k_cache_view := Node.un (UnOp.view_1d (qlen * kv_hidden_size)
    (kv_hidden_size * n_past)) (Node.leaf Leaf.k_cache)
  let v_cache_view := Node.un (UnOp.view_2d qlen kv_hidden_size self.max_length n_past)
    (Node.leaf Leaf.v_cache)
  let k_view := Node.un (UnOp.view_1d (qlen * kv_hidden_size) 0) k
  let ctx := ctx.build_forward_expand (Node.bin BinOp.cpy k_view k_cache_view)
  ctx.build_forward_expand (Node.bin BinOp.cpy Vcur v_cache_view)

/-- The matrix product `attn_scores` of `BaseAttention::calc_attn_scores`, tagged with the
precision of the instance. -/
def BaseSelfAttention.attn_scores_mul_mat (self : BaseSelfAttention)
    (key_layer query_layer : Node) : Node :=
  ggml_mul_mat_set_prec (Node.ggml_mul_mat key_layer query_layer) self.prec

/-- The scores handed to `ggml_diag_mask_inf_inplace` in `BaseAttention::calc_attn_scores`:
the product, scaled when `attn_scaling` is set, after `apply_pos_embedding_kq`. -/
def BaseSelfAttention.scores_before_mask (self : BaseSelfAttention)
    (hidden_size qlen : Nat) (key_layer query_layer : Node) : Option Node := do
  let head_size ← idiv hidden_size self.num_attention_heads
  let attn_scores := self.attn_scores_mul_mat key_layer query_layer
  let attn_scores :=
    if self.attn_scaling then
      Node.un (UnOp.scale_inplace (ScaleFactor.inv_sqrt head_size)) attn_scores
    else attn_scores
  pure ((self.hooks.apply_pos_embedding_kq hidden_size qlen).apply attn_scores
    (Node.leaf Leaf.pos))

/-- The method `BaseAttention::calc_attn_scores`. -/
def BaseSelfAttention.calc_attn_scores (self : BaseSelfAttention)
    (hidden_size n_past qlen : Nat) (key_layer query_layer value_layer : Node) :
    Option Node := do
  let attn_scores ← self.scores_before_mask hidden_size qlen key_layer query_layer
  let attn_masked := Node.un (UnOp.diag_mask_inf_inplace n_past) attn_scores
  let attn_probs := Node.un UnOp.soft_max_inplace attn_masked
  let context_layer := Node.ggml_mul_mat value_layer attn_probs
  let context_layer := Node.un (UnOp.reshape_2d hidden_size qlen)
    (Node.un UnOp.cont (Node.un (UnOp.permute 0 2 1 3) context_layer))
  pure context_layer

/-- The tensor `key_layer` that `BaseAttention::cross_attention` hands to `save_to_cache`:
the reshaped key after `apply_pos_embedding_k`. -/
def BaseSelfAttention.key_layer_saved (self : BaseSelfAttention)
    (hidden_size qlen head_size : Nat) (k : Node) : Node :=
  let key_layer := Node.un (UnOp.reshape_3d head_size self.num_kv_heads qlen) k
  (self.hooks.apply_pos_embedding_k hidden_size qlen).apply key_layer (Node.leaf Leaf.pos)

/-- The tensor `query_layer` of `BaseAttention::cross_attention` before it is permuted:
the reshaped query after `apply_pos_embedding_q`, scaled when `attn_scaling` is not set. -/
def BaseSelfAttention.query_layer_encoded (self : BaseSelfAttention)
    (hidden_size qlen head_size : Nat) (q : Node) : Node :=
  let query_layer := Node.un (UnOp.reshape_3d head_size self.num_attention_heads qlen) q
  let query_layer :=
    (self.hooks.apply_pos_embedding_q hidden_size qlen).apply query_layer (Node.leaf Leaf.pos)
  if !self.attn_scaling then
    Node.un (UnOp.scale (ScaleFactor.inv_sqrt head_size)) query_layer
  else query_layer

/-- The tensor `key_layer` that `BaseAttention::cross_attention` reads the keys through. -/
def BaseSelfAttention.key_layer_read (self : BaseSelfAttention)
    (n_past qlen head_size kv_hidden_size : Nat) : Node :=
  let key_layer := Node.un (UnOp.view_1d ((n_past + qlen) * kv_hidden_size) 0)
    (Node.leaf Leaf.k_cache)
  let key_layer := Node.un (UnOp.reshape_3d head_size self.num_kv_heads (n_past + qlen))
    key_layer
  Node.un (UnOp.permute 0 2 1 3) key_layer

/-- The tensor `value_layer` that `BaseAttention::cross_attention` reads the values
through. -/
def BaseSelfAttention.value_layer_read (self : BaseSelfAttention)
    (n_past qlen head_size : Nat) : Node :=
  Node.un (UnOp.view_3d (n_past + qlen) head_size self.num_kv_heads self.max_length
    (self.max_length * head_size) 0) (Node.leaf Leaf.v_cache)

/-- The method `BaseAttention::cross_attention`. -/
def BaseSelfAttention.cross_attention (self : BaseSelfAttention) (ctx : GraphContext)
    (hidden_size n_past qlen : Nat) (q k v : Node) : Option (GraphContext × Node) := do
  let head_size ← idiv hidden_size self.num_attention_heads
  let «repeat» ← idiv self.num_attention_heads self.num_kv_heads
  let kv_hidden_size ← idiv hidden_size «repeat»
  let key_layer := self.key_layer_saved hidden_size qlen head_size k
  let query_layer := self.query_layer_encoded hidden_size qlen head_size q
  let ctx := self.save_to_cache ctx kv_hidden_size n_past qlen key_layer v
  let query_layer := Node.un (UnOp.permute 0 2 1 3) query_layer
  let key_layer := self.key_layer_read n_past qlen head_size kv_hidden_size
  let value_layer := self.value_layer_read n_past qlen head_size
  let attn_scores ←
    self.calc_attn_scores hidden_size n_past qlen key_layer query_layer value_layer
  pure (ctx, attn_scores)

/-- The method `BaseSelfAttention::forward` for `hidden_states` of shape
`[hidden_size, qlen]`: the instance with its shift state updated, the graph, and the
returned tensor `attn_output`. -/
def BaseSelfAttention.forward (self : BaseSelfAttention) (ctx : GraphContext)
    (hidden_size qlen n_past : Nat) :
    Option (BaseSelfAttention × GraphContext × Node) := do
  let hidden_states := Node.leaf Leaf.hidden_states
  let «repeat» ← idiv self.num_attention_heads self.num_kv_heads
  let kv_hidden_size ← idiv hidden_size «repeat»
  let (self, ctx) := self.before_forward ctx kv_hidden_size n_past qlen
  let tmpq := self.q_proj.forward hidden_states
  let tmpk := self.k_proj.forward hidden_states
  let tmpv := self.v_proj.forward hidden_states
  let tmpk := ggml_mul_mat_set_prec tmpk self.prec
  let tmpq := ggml_mul_mat_set_prec tmpq self.prec
  let tmpv := ggml_mul_mat_set_prec tmpv self.prec
  let (ctx, attn) ← self.cross_attention ctx hidden_size n_past qlen tmpq tmpk tmpv
  let attn_output := self.o_proj.forward attn
  pure (self, ctx, attn_output)

/-- One attention call from an empty graph with the returned tensor queued, as the
enclosing block does (`ggml_build_forward_expand(ctx->gf, attn_output)` in
`GLMBlock::forward`): the complete graph of the call. -/
def BaseSelfAttention.forward_graph (self : BaseSelfAttention)
    (hidden_size qlen n_past : Nat) : Option (List Node) := do
  let (_, ctx, attn_output) ← self.forward ⟨[]⟩ hidden_size qlen n_past
  pure (ctx.build_forward_expand attn_output).gf

/-- Whether `x` is queued before `y` in the graph `gf`. -/
def Precedes (gf : List Node) (x y : Node) : Prop :=
  x ∈ gf ∧ y ∈ gf ∧ gf.indexOf x < gf.indexOf y

instance (gf : List Node) (x y : Node) : Decidable (Precedes gf x y) := by
  unfold Precedes; infer_instance

/-- The operations a tensor depends on, itself included (leaves are not operations). -/
def Node.subnodes : Node → List Node
  | Node.leaf _ => []
  | Node.un op a => Node.un op a :: a.subnodes
  | Node.bin op a b => Node.bin op a b :: (a.subnodes ++ b.subnodes)

/-- A graph that holds, with every node, the operations the node depends on. -/
def Closed (gf : List Node) : Prop :=
  ∀ n, n ∈ gf → ∀ y, y ∈ n.subnodes → y ∈ gf

/-- Whether a tensor is a view taken directly on one of the two caches. -/
def Node.isCacheView : Node → Bool
  | Node.un (UnOp.view_1d _ _) (Node.leaf Leaf.k_cache) => true
  | Node.un (UnOp.view_2d _ _ _ _) (Node.leaf Leaf.v_cache) => true
  | Node.un (UnOp.view_3d _ _ _ _ _ _) (Node.leaf Leaf.v_cache) => true
  | _ => false

/-- Whether a tensor is cache data seen through views, reshapes and permutations only. -/
def Node.readsCache : Node → Bool
  | Node.leaf Leaf.k_cache => true
  | Node.leaf Leaf.v_cache => true
  | Node.un (UnOp.view_1d _ _) a => a.readsCache
  | Node.un (UnOp.view_2d _ _ _ _) a => a.readsCache
  | Node.un (UnOp.view_3d _ _ _ _ _ _) a => a.readsCache
  | Node.un (UnOp.reshape_3d _ _ _) a => a.readsCache
  | Node.un (UnOp.permute _ _ _ _) a => a.readsCache
  | _ => false

/-- A compaction copy: a copy from one view of a cache into another. -/
def Node.isCompaction : Node → Bool
  | Node.bin BinOp.cpy a b => a.isCacheView && b.isCacheView
  | _ => false

/-- A cache write: a copy of computed data into a view of a cache. -/
def Node.isCacheWrite : Node → Bool
  | Node.bin BinOp.cpy a b => !a.readsCache && b.isCacheView
  | _ => false

/-- A product that reads a cache: the score product reads the keys and the weighted-sum
product reads the values through its first operand. -/
def Node.isCacheProduct : Node → Bool
  | Node.bin (BinOp.mul_mat _) a _ => a.readsCache
  | _ => false

/-- Whether every operation a tensor depends on satisfies `P`. -/
def Node.all (P : Node → Bool) : Node → Bool
  | Node.leaf _ => true
  | Node.un op a => P (Node.un op a) && a.all P
  | Node.bin op a b => P (Node.bin op a b) && a.all P && b.all P

/-- Whether a node is a `ggml_cpy`. -/
def Node.isCopy : Node → Bool
  | Node.bin BinOp.cpy _ _ => true
  | _ => false

/-- Whether a node is not a copy. -/
def Node.noCopy (x : Node) : Bool := !x.isCopy

/-- Whether a node is neither a compaction copy nor a product that reads a cache. -/
def Node.noShiftNoProduct (x : Node) : Bool := !x.isCompaction && !x.isCacheProduct

/-- A projection of `BaseSelfAttention::forward` (`tmpq`, `tmpk`, `tmpv`): the linear
layer applied to `hidden_states`, its product tagged with the precision of the attention
instance. -/
def BaseSelfAttention.projection (self : BaseSelfAttention) (l : Linear) : Node :=
  ggml_mul_mat_set_prec (l.forward (Node.leaf Leaf.hidden_states)) self.prec

/-- The copy that writes the new keys, as `save_to_cache` queues it during `forward`. -/
def BaseSelfAttention.key_write (self : BaseSelfAttention)
    (hidden_size qlen n_past head_size kv_hidden_size : Nat) : Node :=
  Node.bin BinOp.cpy
    (Node.un (UnOp.view_1d (qlen * kv_hidden_size) 0)
      (self.key_layer_saved hidden_size qlen head_size (self.projection self.k_proj)))
    (Node.un (UnOp.view_1d (qlen * kv_hidden_size) (kv_hidden_size * n_past))
      (Node.leaf Leaf.k_cache))

/-- The copy that writes the new values, as `save_to_cache` queues it during `forward`. -/
def BaseSelfAttention.value_write (self : BaseSelfAttention)
    (qlen n_past kv_hidden_size : Nat) : Node :=
  Node.bin BinOp.cpy (Node.un UnOp.transpose (self.projection self.v_proj))
    (Node.un (UnOp.view_2d qlen kv_hidden_size self.max_length n_past)
      (Node.leaf Leaf.v_cache))

/-- The score product of `forward`: the keys read from the cache times the encoded
query. -/
def BaseSelfAttention.score_product (self : BaseSelfAttention)
    (hidden_size qlen n_past head_size kv_hidden_size : Nat) : Node :=
  self.attn_scores_mul_mat (self.key_layer_read n_past qlen head_size kv_hidden_size)
    (Node.un (UnOp.permute 0 2 1 3)
      (self.query_layer_encoded hidden_size qlen head_size (self.projection self.q_proj)))

/-- The scores of `forward` as they enter the mask: the score product, scaled when
`attn_scaling` is set, after `apply_pos_embedding_kq`. -/
def BaseSelfAttention.scores_to_mask (self : BaseSelfAttention)
    (hidden_size qlen n_past head_size kv_hidden_size : Nat) : Node :=
  let attn_scores := self.score_product hidden_size qlen n_past head_size kv_hidden_size
  let attn_scores :=
    if self.attn_scaling then
      Node.un (UnOp.scale_inplace (ScaleFactor.inv_sqrt head_size)) attn_scores
    else attn_scores
  (self.hooks.apply_pos_embedding_kq hidden_size qlen).apply attn_scores (Node.leaf Leaf.pos)

/-- The weighted-sum product of `forward`: the values read from the cache times the
softmax of the masked scores. -/
def BaseSelfAttention.weighted_sum_product (self : BaseSelfAttention)
    (hidden_size qlen n_past head_size kv_hidden_size : Nat) : Node :=
  Node.ggml_mul_mat (self.value_layer_read n_past qlen head_size)
    (Node.un UnOp.soft_max_inplace (Node.un (UnOp.diag_mask_inf_inplace n_past)
      (self.scores_to_mask hidden_size qlen n_past head_size kv_hidden_size)))

/-- The tensor `attn_output` that `forward` returns. -/
def BaseSelfAttention.attn_output (self : BaseSelfAttention)
    (hidden_size qlen n_past head_size kv_hidden_size : Nat) : Node :=
  self.o_proj.forward (Node.un (UnOp.reshape_2d hidden_size qlen)
    (Node.un UnOp.cont (Node.un (UnOp.permute 0 2 1 3)
      (self.weighted_sum_product hidden_size qlen n_past head_size kv_hidden_size))))

/-- The attention layer of the scenario with its linear layers (no bias), rotary
positional methods for query and key, score scaling, products forced to `GGML_PREC_F32`,
and the shift `(2, 5)` pending. -/
def scenarioLayer : BaseSelfAttention :=
  { scenario with
    shift_pending := { shift := 2, total := 5 },
    q_proj := { id := LinearId.q_proj, has_bias := false, prec := ggml_prec.GGML_PREC_DEFAULT },
    k_proj := { id := LinearId.k_proj, has_bias := false, prec := ggml_prec.GGML_PREC_DEFAULT },
    v_proj := { id := LinearId.v_proj, has_bias := false, prec := ggml_prec.GGML_PREC_DEFAULT },
    o_proj := { id := LinearId.o_proj, has_bias := false, prec := ggml_prec.GGML_PREC_DEFAULT },
    prec := ggml_prec.GGML_PREC_F32,
    attn_scaling := true,
    hooks := { apply_pos_embedding_k := fun h _ => PosOp.rope_custom_inplace (h / 2) 0,
               apply_pos_embedding_q := fun h _ => PosOp.rope_custom_inplace (h / 2) 0,
               apply_pos_embedding_kq := fun _ _ => PosOp.identity } }

/-- The layer `scenarioLayer` with `attn_scaling` switched off. -/
def scenarioUnscaled : BaseSelfAttention :=
  { scenarioLayer with attn_scaling := false }

/-! ## The mask and softmax kernels -/

/-- A score: a number, or `none` for `-INFINITY`. -/
abbrev Score := Option ℚ

/-- The kernel of `ggml_diag_mask_inf(a, n_past)` on one head of scores, rows indexed by
the query row `j` and columns by the key position `i`: the entries with `i > n_past + j`
are set to `-INFINITY`, the others are kept. -/
def ggml_diag_mask_inf (n_past : Nat) (a : Nat → Nat → Score) : Nat → Nat → Score :=
  fun j i => if n_past + j < i then none else a j i

/-- The larger of two scores. -/
def Score.max : Score → Score → Score
  | none, y => y
  | x, none => x
  | some a, some b => some (Max.max a b)

/-- The maximum of the first `nc` entries of a row, `-INFINITY` for an empty row. -/
def ggml_vec_max (nc : Nat) (row : Nat → Score) : Score :=
  (List.range nc).foldl (fun acc i => Score.max acc (row i)) none

/-- The weight `ggml_soft_max` gives an entry before normalising: 0 for `-INFINITY`,
else `expf(x - max)`; `expf` is the exponential of the C library. -/
def soft_max_weight (expf : ℚ → ℚ) (mx : Score) : Score → ℚ
  | none => 0
  | some x => expf (x - mx.getD 0)

/-- The kernel of `ggml_soft_max` on one row of `nc` scores: the weights are summed and
every weight is multiplied by `1 / sum`. -/
def ggml_soft_max (expf : ℚ → ℚ) (nc : Nat) (row : Nat → Score) : Nat → ℚ :=
  let mx := ggml_vec_max nc row
  let sum := ((List.range nc).map (fun i => soft_max_weight expf mx (row i))).sum
  fun i => soft_max_weight expf mx (row i) * (1 / sum)

/-! ## The grouped-query views of `GLM2SelfAttention::forward` -/

/-- The view `ggml_view_4d(a, ne0, ne1, ne2, ne3, nb1, nb2, nb3, offset)`. -/
def ggml_view_4d (a : Tensor) (ne0 ne1 ne2 ne3 nb1 nb2 nb3 offset : Nat) : Tensor :=
  { buf := a.buf, ne0 := ne0, ne1 := ne1, ne2 := ne2, ne3 := ne3,
    nb0 := 1, nb1 := nb1, nb2 := nb2, nb3 := nb3, offs := a.offs + offset }

/-- The view `ggml_permute(a, 0, 2, 3, 1)`: dimension 1 of `a` becomes dimension 2,
dimension 2 becomes dimension 3 and dimension 3 becomes dimension 1. -/
def ggml_permute_0231 (a : Tensor) : Tensor :=
  { a with ne1 := a.ne3, ne2 := a.ne1, ne3 := a.ne2, nb1 := a.nb3, nb2 := a.nb1, nb3 := a.nb2 }

/-- The three tensors `GLM2SelfAttention::forward` hands to `ggml_flash_attn`, which pairs
the query head with indices `(i2, i3)` with the key and value head of the same indices. -/
structure GLM2Views where
  query_layer : Tensor
  key_layer : Tensor
  value_layer : Tensor
  deriving DecidableEq, Repr

/-- The view of the queries inside `qkv` in `GLM2SelfAttention::forward`, of shape
`[head_size, num_attention_heads, qlen]`; `ggml_rope_inplace` keeps it as it is. -/
def GLM2SelfAttention.query_view (self : GLM2SelfAttention) (qkv : Tensor)
    (head_size qlen : Nat) : Tensor :=
  ggml_view_3d qkv head_size self.num_attention_heads qlen head_size qkv.nb1 0

/-- The tensors `query_layer`, `key_layer` and `value_layer` that
`GLM2SelfAttention::forward` builds for `ggml_flash_attn`, for the projection output
`qkv`. -/
def GLM2SelfAttention.forward_views (self : GLM2SelfAttention) (qkv : Tensor)
    (hidden_size n_past qlen : Nat) : Option GLM2Views := do
  let head_size ← idiv hidden_size self.num_attention_heads
  let mqa_scale ← idiv self.num_attention_heads self.num_kv_heads
  let query_layer := self.query_view qkv head_size qlen
  let query_layer := ggml_view_4d query_layer head_size mqa_scale self.num_kv_heads qlen
    query_layer.nb1 (query_layer.nb1 * mqa_scale) query_layer.nb2 0
  let query_layer := ggml_permute_0231 query_layer
  let key_layer := ggml_view_4d self.k_cache head_size (n_past + qlen) mqa_scale
    self.num_kv_heads self.k_cache.nb1 0 self.k_cache.nb2 0
  let value_layer := ggml_view_4d self.v_cache (n_past + qlen) head_size mqa_scale
    self.num_kv_heads self.v_cache.nb1 0 self.v_cache.nb2 0
  pure { query_layer := query_layer, key_layer := key_layer, value_layer := value_layer }

/-! ## The first-pass mask of `GLMSelfAttention::forward` -/

/-- The view `masked_attn_scores` of `GLMSelfAttention::forward`, taken on `attn_scores`
when `n_past == 0` and overwritten with `-INFINITY` by the copy of `inf`. -/
def GLMSelfAttention.masked_attn_scores (self : GLMSelfAttention) (attn_scores : Tensor)
    (qlen : Nat) : Tensor :=
  ggml_view_3d attn_scores 1 (qlen - 1) self.num_attention_heads qlen (qlen * qlen) (qlen - 1)

/-- A tensor of scores of shape `[klen, qlen, heads]` for three tokens at `n_past = 0` and
two heads, as `ggml_mul_mat` returns it. -/
def glmScores : Tensor :=
  { buf := BufId.k, ne0 := 3, ne1 := 3, ne2 := 2, ne3 := 1,
    nb0 := 1, nb1 := 3, nb2 := 9, nb3 := 18, offs := 0 }

/-! ## The NTK-mixed frequency table -/

/-- The loop of `build_ntk_mixed_inv_freq`: `for (i = ...; i < dim; i += 2)` pushes
`v i` onto `inv_freq`. -/
def ntk_mixed_loop {F : Type} (v : Nat → F) (dim : Nat) (i : Nat) (inv_freq : List F) :
    List F :=
  if i < dim then ntk_mixed_loop v dim (i + 2) (inv_freq ++ [v i]) else inv_freq
termination_by dim - i

/-- The function `build_ntk_mixed_inv_freq(dim, inv_freq, max_position_embeddings, base,
k, b)`, returning the new contents of `inv_freq` (the vector is cleared first). The
arithmetic on `float` is that of a type `F` with the functions `log`, `powf` and `expf`
of the C library; integers are converted where the source converts them. -/
def build_ntk_mixed_inv_freq {F : Type} [One F] [Mul F] [Div F] [NatCast F]
    (log expf : F → F) (powf : F → F → F)
    (dim : Nat) (_max_position_embeddings : Nat) (base k b : F) : List F :=
  let a := log k / powf ((dim / 2 : Nat) : F) b
  ntk_mixed_loop
    (fun i => 1 / powf base ((i : F) / (dim : F)) / expf (a * powf ((i / 2 + 1 : Nat) : F) b))
    dim 0 []

/-- The functions on `float` that the NTK-mixed code calls: `log`, `expf`, `powf` and the
conversion `(int)` of a `float`. -/
structure FloatOps (F : Type) where
  log : F → F
  expf : F → F
  powf : F → F → F
  toInt : F → Nat

/-- The members of `BlueLMSelfAttention` the frequency table depends on. -/
structure BlueLMSelfAttention (F : Type) where
  max_length : Nat
  num_attention_heads : Nat
  rope_dim : Nat
  freq_base : F
  rope_scaling_factor : F
  rope_scaling_power : F
  cached_hiddle_size : Int
  inv_freq : List F

/-- The method `BlueLMSelfAttention::config`. -/
def BlueLMSelfAttention.config {F : Type} (self : BlueLMSelfAttention F)
    (rope_theta rope_scaling_factor rope_scaling_power : F) : BlueLMSelfAttention F :=
  { self with freq_base := rope_theta, rope_scaling_factor := rope_scaling_factor,
              rope_scaling_power := rope_scaling_power }

/-- The table `build_ntk_mixed_inv_freq` gives for the current members of the instance,
called as in `build_inv_freq_if_needed`. -/
def BlueLMSelfAttention.current_table {F : Type} [One F] [Mul F] [Div F] [NatCast F]
    (ops : FloatOps F) (self : BlueLMSelfAttention F) : List F :=
  build_ntk_mixed_inv_freq ops.log ops.expf ops.powf self.rope_dim
    (ops.toInt ((self.max_length : F) / self.rope_scaling_factor))
    self.freq_base self.rope_scaling_factor self.rope_scaling_power

/-- The method `BlueLMSelfAttention::build_inv_freq_if_needed`. -/
def BlueLMSelfAttention.build_inv_freq_if_needed {F : Type} [One F] [Mul F] [Div F]
    [NatCast F] (ops : FloatOps F) (self : BlueLMSelfAttention F) (hidden_size : Int) :
    BlueLMSelfAttention F :=
  if self.cached_hiddle_size ≠ hidden_size then
    { self with cached_hiddle_size := hidden_size, inv_freq := self.current_table ops }
  else self

/-- A `BlueLMSelfAttention` instance with `rope_dim = 2`, scaling factor 2 and scaling
power 1, whose table was not built yet. -/
def blueScenario (F : Type) [NatCast F] : BlueLMSelfAttention F :=
  { max_length := 8, num_attention_heads := 4, rope_dim := 2,
    freq_base := ((10000 : Nat) : F), rope_scaling_factor := ((2 : Nat) : F),
    rope_scaling_power := ((1 : Nat) : F), cached_hiddle_size := 0, inv_freq := [] }

/-- The instance `blueScenario` after its table was built for `hidden_size = 8`, the
scaling factor was reconfigured from 2 to 4, and the table was asked for again with the
same `hidden_size`. -/
def blueReconfigured {F : Type} [One F] [Mul F] [Div F] [NatCast F] (ops : FloatOps F) :
    BlueLMSelfAttention F :=
  (((blueScenario F).build_inv_freq_if_needed ops 8).config ((10000 : Nat) : F)
    ((4 : Nat) : F) ((1 : Nat) : F)).build_inv_freq_if_needed ops 8

/-! ## The positional methods of `BaichuanSelfAttention` -/

/-- The members of `BaichuanSelfAttention` its positional methods use. -/
structure BaichuanSelfAttention where
  num_attention_heads : Nat
  deriving DecidableEq, Repr

/-- The method `BaichuanSelfAttention::apply_pos_embedding_k`. -/
def BaichuanSelfAttention.apply_pos_embedding_k (_self : BaichuanSelfAttention)
    (k : Node) (_hidden_size _qlen : Nat) (_past : Node) : Node :=
  k

/-- The method `BaichuanSelfAttention::apply_pos_embedding_q`. -/
def BaichuanSelfAttention.apply_pos_embedding_q (_self : BaichuanSelfAttention)
    (q : Node) (_hidden_size _qlen : Nat) (_past : Node) : Node :=
  q

/-- The method `BaichuanSelfAttention::apply_pos_embedding_kq`:
`ggml_alibi(ctx, kq, 0, num_attention_heads, max_alibi_bias)` with
`max_alibi_bias = 8.0f`. -/
def BaichuanSelfAttention.apply_pos_embedding_kq (self : BaichuanSelfAttention)
    (kq : Node) (_hidden_size _qlen : Nat) (_past : Node) : Node :=
  let max_alibi_bias := 8
  Node.un (UnOp.alibi 0 self.num_attention_heads max_alibi_bias) kq

/-- The three positional methods of `BaichuanSelfAttention` as the operations they apply. -/
def BaichuanSelfAttention.hooks (self : BaichuanSelfAttention) : PosEmbedding :=
  { apply_pos_embedding_k := fun _ _ => PosOp.identity,
    apply_pos_embedding_q := fun _ _ => PosOp.identity,
    apply_pos_embedding_kq := fun _ _ => PosOp.alibi 0 self.num_attention_heads 8 }

/-- Whether an operation is a positional one: a rotary embedding, the NTK-mixed kernel or
the ALiBi bias. -/
def Node.isPositional : Node → Bool
  | Node.bin (BinOp.rope_custom_inplace _ _) _ _ => true
  | Node.bin BinOp.map_custom2 _ _ => true
  | Node.un (UnOp.alibi _ _ _) _ => true
  | _ => false

/-- The number of positional operations a tensor depends on. -/
def Node.countPositional : Node → Nat
  | Node.leaf _ => 0
  | Node.un op a => (if (Node.un op a).isPositional then 1 else 0) + a.countPositional
  | Node.bin op a b =>
    (if (Node.bin op a b).isPositional then 1 else 0) + a.countPositional + b.countPositional

/-- The layer of the scenario as a `BaichuanSelfAttention` with two heads: the positional
methods are those of the variant. -/
def baichuanLayer : BaseSelfAttention :=
  { scenarioLayer with hooks := BaichuanSelfAttention.hooks ⟨2⟩ }

/-! ## The values of the score path -/

/-- The data of a tensor: its shape `ne[0..3]` and its elements by coordinates. -/
@[ext]
structure Val (F : Type) where
  ne0 : Nat
  ne1 : Nat
  ne2 : Nat
  ne3 : Nat
  data : Nat → Nat → Nat → Nat → F

/-- The result of `ggml_scale(a, s)`: every element multiplied by `s`. -/
def Val.scale {F : Type} [Mul F] (a : Val F) (s : F) : Val F :=
  { a with data := fun i0 i1 i2 i3 => a.data i0 i1 i2 i3 * s }

/-- The coordinate with number `axis` among `(j0, j1, j2, j3)`. -/
def Val.coord (axis j0 j1 j2 j3 : Nat) : Nat :=
  if axis = 0 then j0 else if axis = 1 then j1 else if axis = 2 then j2 else j3

/-- The size the result of a permutation has along dimension `d`: dimension `i` of the
operand becomes dimension `axis_i` of the result. -/
def Val.permuted_ne {F : Type} (a : Val F) (axis0 axis1 axis2 axis3 d : Nat) : Nat :=
  if axis0 = d then a.ne0 else if axis1 = d then a.ne1 else if axis2 = d then a.ne2
  else if axis3 = d then a.ne3 else 1

/-- The result of `ggml_permute(a, axis0, axis1, axis2, axis3)`: the same elements, with
dimension `i` of `a` found as dimension `axis_i` of the result. -/
def Val.permute {F : Type} (a : Val F) (axis0 axis1 axis2 axis3 : Nat) : Val F :=
  { ne0 := a.permuted_ne axis0 axis1 axis2 axis3 0,
    ne1 := a.permuted_ne axis0 axis1 axis2 axis3 1,
    ne2 := a.permuted_ne axis0 axis1 axis2 axis3 2,
    ne3 := a.permuted_ne axis0 axis1 axis2 axis3 3,
    data := fun j0 j1 j2 j3 =>
      a.data (Val.coord axis0 j0 j1 j2 j3) (Val.coord axis1 j0 j1 j2 j3)
        (Val.coord axis2 j0 j1 j2 j3) (Val.coord axis3 j0 j1 j2 j3) }

/-- The result of `ggml_mul_mat(a, b)`: element `(i0, i1, i2, i3)` is the sum over `k` of
`a[k, i0, ..] * b[k, i1, i2, i3]`, the two outer dimensions of `a` being broadcast over
those of `b`. -/
def Val.mul_mat {F : Type} [Mul F] [Add F] [Zero F] (a b : Val F) : Val F :=
  { ne0 := a.ne1, ne1 := b.ne1, ne2 := b.ne2, ne3 := b.ne3,
    data := fun i0 i1 i2 i3 =>
      ((List.range a.ne0).map (fun k =>
        a.data k i0 (i2 / (b.ne2 / a.ne2)) (i3 / (b.ne3 / a.ne3)) * b.data k i1 i2 i3)).sum }

/-- What the values of a graph depend on besides the three kernels above: the data of the
leaves, the kernels of the other operations, and the square root of the C library. -/
structure Kernels (F : Type) where
  leaf : Leaf → Val F
  un : UnOp → Val F → Val F
  bin : BinOp → Val F → Val F → Val F
  sqrt : F → F

/-- The factor of a `ggml_scale`, `1.f / std::sqrt(head_size)`. -/
def ScaleFactor.value {F : Type} [One F] [Div F] [NatCast F] (sqrt : F → F) :
    ScaleFactor → F
  | ScaleFactor.inv_sqrt head_size => 1 / sqrt (head_size : F)

/-- The value of a tensor of the graph. -/
def Node.eval {F : Type} [Mul F] [Add F] [Zero F] [One F] [Div F] [NatCast F]
    (K : Kernels F) : Node → Val F
  | Node.leaf l => K.leaf l
  | Node.un op a =>
    match op with
    | UnOp.scale s => (a.eval K).scale (s.value K.sqrt)
    | UnOp.scale_inplace s => (a.eval K).scale (s.value K.sqrt)
    | UnOp.permute axis0 axis1 axis2 axis3 => (a.eval K).permute axis0 axis1 axis2 axis3
    | op => K.un op (a.eval K)
  | Node.bin op a b =>
    match op with
    | BinOp.mul_mat _ => (a.eval K).mul_mat (b.eval K)
    | op => K.bin op (a.eval K) (b.eval K)

/-- Whether an operation is a `ggml_scale`. -/
def Node.isScale : Node → Bool
  | Node.un (UnOp.scale _) _ => true
  | Node.un (UnOp.scale_inplace _) _ => true
  | _ => false

/-- The number of `ggml_scale` operations a tensor depends on. -/
def Node.countScale : Node → Nat
  | Node.leaf _ => 0
  | Node.un op a => (if (Node.un op a).isScale then 1 else 0) + a.countScale
  | Node.bin op a b =>
    (if (Node.bin op a b).isScale then 1 else 0) + a.countScale + b.countScale

/-- The instance with its member `attn_scaling` set to `b`. -/
def BaseSelfAttention.with_attn_scaling (self : BaseSelfAttention) (b : Bool) :
    BaseSelfAttention :=
  { self with attn_scaling := b }

/-! ## The NTK-mixed rotary kernel -/

/-- The functions on `float` the rotary kernel calls: `cosf`, `sinf` and the conversion
`(float)` of an `int32_t` position. -/
structure RopeOps (F : Type) where
  cosf : F → F
  sinf : F → F
  ofInt : Int → F

/-- Store `x` as element `(i0, i1, i2, i3)`. -/
def Val.set {F : Type} (v : Val F) (i0 i1 i2 i3 : Nat) (x : F) : Val F :=
  { v with data := fun j0 j1 j2 j3 =>
      if j0 = i0 ∧ j1 = i1 ∧ j2 = i2 ∧ j3 = i3 then x else v.data j0 j1 j2 j3 }

/-- The innermost loop of `ggml_compute_forward_ntk_mix_rope_f32`,
`for (i0 = ...; i0 < ne0; i0 += 2)`, on the row `(i1, i2, i3)`: the pair `src[0], src[1]`
at `i0` is rotated by `theta = p * inv_freq[i0 / 2]` and stored into `dst_data[0],
dst_data[1]`. An index beyond `inv_freq` and a pair that does not lie inside the row of
`src0` or of `dst` are undefined in the source and fail here. -/
def ntk_mix_rope_i0 {F : Type} [Mul F] [Add F] [Sub F] (ops : RopeOps F) (inv_freq : List F)
    (p : F) (src0 : Val F) (i3 i2 i1 ne0 i0 : Nat) (dst : Val F) : Option (Val F) :=
  if i0 < ne0 then
    match inv_freq[i0 / 2]? with
    | none => none
    | some f =>
      if i0 + 1 < src0.ne0 ∧ i0 + 1 < dst.ne0 then
        let theta := p * f
        let cos_theta := ops.cosf theta
        let sin_theta := ops.sinf theta
        let x0 := src0.data i0 i1 i2 i3
        let x1 := src0.data (i0 + 1) i1 i2 i3
        ntk_mix_rope_i0 ops inv_freq p src0 i3 i2 i1 ne0 (i0 + 2)
          ((dst.set i0 i1 i2 i3 (x0 * cos_theta - x1 * sin_theta)).set (i0 + 1) i1 i2 i3
            (x0 * sin_theta + x1 * cos_theta))
      else none
  else some dst
termination_by ne0 - i0

/-- The loop `for (i1 = ...; i1 < ne1; i1++)` of the kernel with the row counter `ir`:
`if (ir++ < ir0) continue; if (ir > ir1) break;` and then the body `row i1` on the state.
The result is the counter and the state when the loop is left. -/
def ntk_mix_rope_i1 {σ : Type} (row : Nat → σ → Option σ) (ne1 ir0 ir1 i1 ir : Nat)
    (s : σ) : Option (Nat × σ) :=
  if i1 < ne1 then
    if ir < ir0 then ntk_mix_rope_i1 row ne1 ir0 ir1 (i1 + 1) (ir + 1) s
    else if ir + 1 > ir1 then some (ir + 1, s)
    else
      match row i1 s with
      | none => none
      | some s => ntk_mix_rope_i1 row ne1 ir0 ir1 (i1 + 1) (ir + 1) s
  else some (ir, s)
termination_by ne1 - i1

/-- The loop `for (i2 = ...; i2 < ne2; i2++)` of the kernel. -/
def ntk_mix_rope_i2 {σ : Type} (row : Nat → Nat → σ → Option σ) (ne1 ne2 ir0 ir1 i2 ir : Nat)
    (s : σ) : Option (Nat × σ) :=
  if i2 < ne2 then
    match ntk_mix_rope_i1 (row i2) ne1 ir0 ir1 0 ir s with
    | none => none
    | some (ir, s) => ntk_mix_rope_i2 row ne1 ne2 ir0 ir1 (i2 + 1) ir s
  else some (ir, s)
termination_by ne2 - i2

/-- The loop `for (i3 = ...; i3 < ne3; i3++)` of the kernel. -/
def ntk_mix_rope_i3 {σ : Type} (row : Nat → Nat → Nat → σ → Option σ)
    (ne1 ne2 ne3 ir0 ir1 i3 ir : Nat) (s : σ) : Option (Nat × σ) :=
  if i3 < ne3 then
    match ntk_mix_rope_i2 (row i3) ne1 ne2 ir0 ir1 0 ir s with
    | none => none
    | some (ir, s) => ntk_mix_rope_i3 row ne1 ne2 ne3 ir0 ir1 (i3 + 1) ir s
  else some (ir, s)
termination_by ne3 - i3

/-- The number of rows, `ggml_nrows`. -/
def Val.ggml_nrows {F : Type} (v : Val F) : Nat := v.ne1 * v.ne2 * v.ne3

/-- The row range `(ir0, ir1)` of thread `ith` of `nth`: `dr = (nr + nth - 1) / nth`,
`ir0 = dr * ith`, `ir1 = MIN(ir0 + dr, nr)`. -/
def ntk_mix_rope_range (nr ith nth : Nat) : Option (Nat × Nat) := do
  let dr ← idiv (nr + nth - 1) nth
  let ir0 := dr * ith
  let ir1 := min (ir0 + dr) nr
  pure (ir0, ir1)

/-- The three row loops of the kernel for thread `ith` of `nth` on a tensor of shape
`[_, ne1, ne2, ne3]`, with the body `row i3 i2 i1` run on every row the thread takes. -/
def ntk_mix_rope_rows {σ : Type} (row : Nat → Nat → Nat → σ → Option σ)
    (ne1 ne2 ne3 ith nth : Nat) (s : σ) : Option σ := do
  let (ir0, ir1) ← ntk_mix_rope_range (ne1 * ne2 * ne3) ith nth
  let (_, s) ← ntk_mix_rope_i3 row ne1 ne2 ne3 ir0 ir1 0 0 s
  pure s

/-- The function `ggml_compute_forward_ntk_mix_rope_f32(dst, a, b, ith, nth, userdata)`:
`dst` is the tensor to fill, `a` the tensor to rotate (of the shape of `dst`), `b` the
positions and `data` the `BlueLMSelfAttention` instance passed as `userdata`. The result is
the new content of `dst`; a failed `GGML_ASSERT` is `none`. -/
def ggml_compute_forward_ntk_mix_rope_f32 {F : Type} [Mul F] [Add F] [Sub F]
    (ops : RopeOps F) (data : BlueLMSelfAttention F) (dst a : Val F) (b : PosTensor)
    (ith nth : Nat) : Option (Val F) :=
  let n_dims := data.rope_dim
  if ¬ n_dims ≤ dst.ne0 then none
  else if n_dims % 2 ≠ 0 then none
  else
    ntk_mix_rope_rows
      (fun i3 i2 i1 dst =>
        ntk_mix_rope_i0 ops data.inv_freq (ops.ofInt (b.data i2)) a i3 i2 i1 dst.ne0 0 dst)
      dst.ne1 dst.ne2 dst.ne3 ith nth dst

/-- The rows thread `ith` of `nth` takes, in the order it takes them: the row loops run
with a body that records the row. -/
def ntk_mix_rope_trace (ne1 ne2 ne3 ith nth : Nat) : Option (List (Nat × Nat × Nat)) :=
  ntk_mix_rope_rows (fun i3 i2 i1 acc => some (acc ++ [(i3, i2, i1)])) ne1 ne2 ne3 ith nth []

/-- The number of a row in the order of the loops `(i3, i2, i1)`. -/
def row_index (ne1 ne2 i3 i2 i1 : Nat) : Nat := (i3 * ne2 + i2) * ne1 + i1

/-- The row counter `ir` when the loops reach the row with number `r`: it is `r` as long
as no `break` was taken, and past both bounds of the thread afterwards, when all rows of
the thread lie behind. -/
def CounterAt (ir0 ir1 ir r : Nat) : Prop :=
  ir = r ∨ (ir0 < ir ∧ ir1 < ir ∧ ir1 ≤ r)

/-- The rows of a tensor of shape `[_, ne1, ne2, ne3]` whose number lies in `[ir0, ir1)`,
in the order of the loops. -/
def rows_between (ne1 ne2 ne3 ir0 ir1 : Nat) : List (Nat × Nat × Nat) :=
  (List.range ne3).flatMap (fun i3 =>
    (List.range ne2).flatMap (fun i2 =>
      ((List.range ne1).filter (fun i1 =>
        decide (ir0 ≤ row_index ne1 ne2 i3 i2 i1 ∧ row_index ne1 ne2 i3 i2 i1 < ir1))).map
        (fun i1 => (i3, i2, i1))))

/-- The conversions between `ggml_fp16_t` (the type `H`) and `float`. -/
structure HalfOps (H F : Type) where
  ggml_fp16_to_fp32 : H → F
  ggml_fp32_to_fp16 : F → H

/-- The innermost loop of `ggml_compute_forward_ntk_mix_rope_f16`: as for `f32`, with the
pair converted to `float` when read and back when stored. -/
def ntk_mix_rope_i0_f16 {H F : Type} [Mul F] [Add F] [Sub F] (ops : RopeOps F)
    (half : HalfOps H F) (inv_freq : List F) (p : F) (src0 : Val H)
    (i3 i2 i1 ne0 i0 : Nat) (dst : Val H) : Option (Val H) :=
  if i0 < ne0 then
    match inv_freq[i0 / 2]? with
    | none => none
    | some f =>
      if i0 + 1 < src0.ne0 ∧ i0 + 1 < dst.ne0 then
        let theta := p * f
        let cos_theta := ops.cosf theta
        let sin_theta := ops.sinf theta
        let x0 := half.ggml_fp16_to_fp32 (src0.data i0 i1 i2 i3)
        let x1 := half.ggml_fp16_to_fp32 (src0.data (i0 + 1) i1 i2 i3)
        ntk_mix_rope_i0_f16 ops half inv_freq p src0 i3 i2 i1 ne0 (i0 + 2)
          ((dst.set i0 i1 i2 i3 (half.ggml_fp32_to_fp16 (x0 * cos_theta - x1 * sin_theta))).set
            (i0 + 1) i1 i2 i3 (half.ggml_fp32_to_fp16 (x0 * sin_theta + x1 * cos_theta)))
      else none
  else some dst
termination_by ne0 - i0

/-- The function `ggml_compute_forward_ntk_mix_rope_f16(dst, a, b, ith, nth, userdata)`. -/
def ggml_compute_forward_ntk_mix_rope_f16 {H F : Type} [Mul F] [Add F] [Sub F]
    (ops : RopeOps F) (half : HalfOps H F) (data : BlueLMSelfAttention F) (dst a : Val H)
    (b : PosTensor) (ith nth : Nat) : Option (Val H) :=
  let n_dims := data.rope_dim
  if ¬ n_dims ≤ dst.ne0 then none
  else if n_dims % 2 ≠ 0 then none
  else
    ntk_mix_rope_rows
      (fun i3 i2 i1 dst =>
        ntk_mix_rope_i0_f16 ops half data.inv_freq (ops.ofInt (b.data i2)) a i3 i2 i1
          dst.ne0 0 dst)
      dst.ne1 dst.ne2 dst.ne3 ith nth dst

/-- The instance `blueScenario` (`rope_dim = 2`) holding the frequency table `inv_freq`. -/
def blueWithTable {F : Type} [NatCast F] (inv_freq : List F) : BlueLMSelfAttention F :=
  { blueScenario F with inv_freq := inv_freq }

/-- A tensor of one row of four elements, `(1, 0, 1, 0)`. -/
def ropeInput (F : Type) [NatCast F] : Val F :=
  { ne0 := 4, ne1 := 1, ne2 := 1, ne3 := 1,
    data := fun i0 _ _ _ => if i0 % 2 = 0 then ((1 : Nat) : F) else ((0 : Nat) : F) }

/-- The tensor the kernel fills for `ropeInput`. -/
def ropeOutput (F : Type) [NatCast F] : Val F :=
  { ne0 := 4, ne1 := 1, ne2 := 1, ne3 := 1, data := fun _ _ _ _ => ((0 : Nat) : F) }

/-- The positions of one token at position 1. -/
def ropePos : PosTensor :=
  { data := fun _ => 1, ne0 := 1 }

/-! ## Reading the input: `get_utf8_line` (`src/main.cpp`) -/

/-- The marker `MULTI_LINE_END_MARKER`, the two characters backslash and dot. -/
def MULTI_LINE_END_MARKER : String := "\\."

/-- The function `get_utf8_line(line, multi_line)` of the non-Windows build, with the
standard input given as the list of its remaining lines (what successive calls of
`std::getline` return). The result is the returned flag, the new content of `line` and the
input left. When the input is exhausted `std::getline` leaves `prompt` empty; in
multi-line mode the loop then never ends, which is `none` here. -/
def get_utf8_line (line : String) (multi_line : Bool) :
    List String → Option (Bool × String × List String)
  | [] => if multi_line then none else some (true, line, [])
  | prompt :: cin =>
    if multi_line then
      if prompt = MULTI_LINE_END_MARKER then some (true, line, cin)
      else
        let line := if line.length > 0 then line.push '\n' else line
        get_utf8_line (line ++ prompt) multi_line cin
    else some (true, line ++ prompt, cin)

/-! ## Command line arguments: `parse_args` (`src/main.cpp`) -/

/-- The values of `chatllm::ChatFormat` the sources use. -/
inductive ChatFormat where
  | CHAT
  | COMPLETION
  | QA
  deriving DecidableEq, Repr

/-- What `parse_args` takes from outside the given sources, for a type `DS` of distance
strategies: the conversions `std::stoi` and `std::stof` (`none` when they throw, `float`
values being rationals here), the function `ParseDistanceStrategy`, and the constant
`DistanceStrategy::MaxInnerProduct`. -/
structure ParseEnv (DS : Type) where
  stoi : String → Option Int
  stof : String → Option ℚ
  ParseDistanceStrategy : String → Option DS
  MaxInnerProduct : DS

/-- The structure `Args`. The map `additional` is the list of its entries in the order
their keys were first inserted. -/
structure Args (DS : Type) where
  model_path : String
  embedding_model_path : String
  reranker_model_path : String
  vector_store : List String
  vector_store_in : String
  system : String
  prompt : String
  extending : String
  test_fn : String
  rag_template : String
  rag_context_sep : String
  additional : List (String × String)
  max_length : Int
  max_context_length : Int
  interactive : Bool
  top_k : Int
  top_p : ℚ
  temp : ℚ
  num_threads : Int
  multi_line : Bool
  seed : Int
  format : ChatFormat
  tokenize : Bool
  vc : DS
  retrieve_top_n : Int
  rerank_top_n : Int
  rerank_score_thres : ℚ
  rag_post_extending : Int
  hide_reference : Bool
  rag_dump : Bool
  show_banner : Bool
  deriving DecidableEq, Repr

/-- The default member values of `Args`, with `seed` as `parse_args` sets it from
`std::random_device`. -/
def Args.init {DS : Type} (env : ParseEnv DS) (rd : Int) : Args DS :=
  { model_path := "", embedding_model_path := "", reranker_model_path := "",
    vector_store := [], vector_store_in := "", system := "", prompt := "你好",
    extending := "restart", test_fn := "", rag_template := "", rag_context_sep := "",
    additional := [], max_length := -1, max_context_length := 512, interactive := false,
    top_k := 0, top_p := 7 / 10, temp := 7 / 10, num_threads := 0, multi_line := false,
    seed := rd, format := ChatFormat.CHAT, tokenize := false, vc := env.MaxInnerProduct,
    retrieve_top_n := 2, rerank_top_n := 1, rerank_score_thres := 35 / 100,
    rag_post_extending := 0, hide_reference := false, rag_dump := false,
    show_banner := true }

/-- The call `insert_or_assign(key, value)` on a `std::map`: the value of an existing key is
replaced, a new key is added. -/
def insert_or_assign (m : List (String × String)) (key value : String) :
    List (String × String) :=
  match m with
  | [] => [(key, value)]
  | (k, v) :: rest =>
    if k = key then (k, value) :: rest else (k, v) :: insert_or_assign rest key value

/-- The value a map holds for a key. -/
def map_find (m : List (String × String)) (key : String) : Option String :=
  match m with
  | [] => none
  | (k, v) :: rest => if k = key then some v else map_find rest key

/-- What one pass through the body of the loop of `parse_args` does before the final
`c++`: it goes on with `c` advanced by `skip` and new members, shows the usage and exits
with success, leaves the loop (`break`), or ends by an exception of a conversion. -/
inductive Step (DS : Type) where
  | next (skip : Nat) (args : Args DS)
  | help
  | stop
  | throw

/-- The macros `handle_param` and `handle_para0`: `c++; if (c < argc) args.field =
f(argv[c]);`, the assignment given as `set`. -/
def handle_param {DS α : Type} (argv : List String) (c : Nat) (args : Args DS)
    (f : String → Option α) (set : α → Args DS) : Step DS :=
  match argv[c + 1]? with
  | none => Step.next 1 args
  | some value =>
    match f value with
    | none => Step.throw
    | some x => Step.next 1 (set x)

/-- The loop `while (c + 2 < argc) { args.additional.insert_or_assign(argv[c + 1],
argv[c + 2]); c += 2; }` of the branch for `--kv`: the final `c` and map. -/
def parse_kv (argv : List String) (c : Nat) (additional : List (String × String)) :
    Nat × List (String × String) :=
  if c + 2 < argv.length then
    parse_kv argv (c + 2)
      (insert_or_assign additional (argv.getD (c + 1) "") (argv.getD (c + 2) ""))
  else (c, additional)
termination_by argv.length - c

/-- The chain of comparisons in the body of the loop of `parse_args` for the argument
`arg = argv[c]`. -/
def parse_arg {DS : Type} (env : ParseEnv DS) (argv : List String) (c : Nat) (arg : String)
    (args : Args DS) : Step DS :=
  if arg = "--help" ∨ arg = "-h" then Step.help
  else if arg = "--interactive" ∨ arg = "-i" then Step.next 0 { args with interactive := true }
  else if arg = "--multi" then Step.next 0 { args with multi_line := true }
  else if arg = "--tokenize" then Step.next 0 { args with tokenize := true }
  else if arg = "--hide_reference" then Step.next 0 { args with hide_reference := true }
  else if arg = "--hide_banner" then Step.next 0 { args with show_banner := false }
  else if arg = "+rag_dump" then Step.next 0 { args with rag_dump := true }
  else if arg = "--format" then
    match argv[c + 1]? with
    | none => Step.next 1 args
    | some value =>
      if value = "completion" then Step.next 1 { args with format := ChatFormat.COMPLETION }
      else if value = "qa" then Step.next 1 { args with format := ChatFormat.QA }
      else Step.next 1 { args with format := ChatFormat.CHAT }
  else if arg = "--kv" then
    Step.next ((parse_kv argv c args.additional).1 - c)
      { args with additional := (parse_kv argv c args.additional).2 }
  else if arg = "--model" ∨ arg = "-m" then
    handle_param argv c args some (fun x => { args with model_path := x })
  else if arg = "--prompt" ∨ arg = "-p" then
    handle_param argv c args some (fun x => { args with prompt := x })
  else if arg = "--system" ∨ arg = "-s" then
    handle_param argv c args some (fun x => { args with system := x })
  else if arg = "--max_length" ∨ arg = "-l" then
    handle_param argv c args env.stoi (fun x => { args with max_length := x })
  else if arg = "--max_context_length" ∨ arg = "-c" then
    handle_param argv c args env.stoi (fun x => { args with max_context_length := x })
  else if arg = "--extending" then
    handle_param argv c args some (fun x => { args with extending := x })
  else if arg = "--top_k" ∨ arg = "-k" then
    handle_param argv c args env.stoi (fun x => { args with top_k := x })
  else if arg = "--top_p" ∨ arg = "-q" then
    handle_param argv c args env.stof (fun x => { args with top_p := x })
  else if arg = "--temp" ∨ arg = "-t" then
    handle_param argv c args env.stof (fun x => { args with temp := x })
  else if arg = "--threads" ∨ arg = "-n" then
    handle_param argv c args env.stoi (fun x => { args with num_threads := x })
  else if arg = "--seed" then
    handle_param argv c args env.stoi (fun x => { args with seed := x })
  else if arg = "--test" then
    handle_param argv c args some (fun x => { args with test_fn := x })
  else if arg = "--vector_store" then
    handle_param argv c args some
      (fun x => { args with vector_store := args.vector_store ++ [x] })
  else if arg = "--embedding_model" then
    handle_param argv c args some (fun x => { args with embedding_model_path := x })
  else if arg = "--distance_strategy" then
    handle_param argv c args env.ParseDistanceStrategy (fun x => { args with vc := x })
  else if arg = "--retrieve_top_n" then
    handle_param argv c args env.stoi (fun x => { args with retrieve_top_n := x })
  else if arg = "--reranker_model" then
    handle_param argv c args some (fun x => { args with reranker_model_path := x })
  else if arg = "--rerank_score_thres" then
    handle_param argv c args env.stof (fun x => { args with rerank_score_thres := x })
  else if arg = "--rerank_top_n" then
    handle_param argv c args env.stoi (fun x => { args with rerank_top_n := x })
  else if arg = "--rag_post_extending" then
    handle_param argv c args env.stoi (fun x => { args with rag_post_extending := x })
  else if arg = "--rag_template" then
    handle_param argv c args some (fun x => { args with rag_template := x })
  else if arg = "--rag_context_sep" then
    handle_param argv c args some (fun x => { args with rag_context_sep := x })
  else if arg = "--init_vs" then
    handle_param argv c args some (fun x => { args with vector_store_in := x })
  else Step.stop

/-- How a call of `parse_args` ends: it returns `args`, exits with `EXIT_SUCCESS` after the
usage text, exits with `EXIT_FAILURE` after listing the unknown arguments, or ends by an
exception of a conversion. -/
inductive ParseResult (DS : Type) where
  | ok (args : Args DS)
  | exit_success
  | exit_failure (unknown : List String)
  | exception
  deriving DecidableEq

/-- The loop `while (c < argc)` of `parse_args` and what follows it. -/
def parse_loop {DS : Type} (env : ParseEnv DS) (argv : List String) (c : Nat)
    (args : Args DS) : ParseResult DS :=
  if h : c < argv.length then
    match parse_arg env argv c argv[c] args with
    | Step.next skip args => parse_loop env argv (c + skip + 1) args
    | Step.help => ParseResult.exit_success
    | Step.stop => ParseResult.exit_failure (argv.drop c)
    | Step.throw => ParseResult.exception
  else ParseResult.ok args
termination_by argv.length - c

/-- The function `parse_args(argc, argv)`, `argv` being the list of the `argc` arguments and
`rd` the value of `std::random_device`. -/
def parse_args {DS : Type} (env : ParseEnv DS) (rd : Int) (argv : List String) :
    ParseResult DS :=
  parse_loop env argv 1 (Args.init env rd)

/-- The `k` pairs of arguments that follow position `c`. -/
def kv_pairs (argv : List String) (c k : Nat) : List (String × String) :=
  (List.range k).map (fun i => (argv.getD (c + 1 + 2 * i) "", argv.getD (c + 2 + 2 * i) ""))

/-- The conversion `std::stoi(str)` of the C++ library (base 10): leading white space is
skipped, an optional sign and the longest run of decimal digits are read, and what follows
the digits is ignored. The result `none` stands for the exceptions `std::invalid_argument`
(no digit was read) and `std::out_of_range` (the value is not a value of `int`). -/
def std_stoi (str : String) : Option Int :=
  let cs := str.toList.dropWhile (fun c =>
    c == ' ' || c == '\t' || c == '\n' || c == '\x0b' || c == '\x0c' || c == '\r')
  let negative := cs.head? == some '-'
  let cs := if cs.head? == some '-' || cs.head? == some '+' then cs.tail else cs
  let digits := cs.takeWhile Char.isDigit
  if digits.isEmpty then none
  else
    let value : Int :=
      digits.foldl (fun a c => 10 * a + ((c.toNat - 48 : Nat) : Int)) 0
    let value := if negative then -value else value
    if -2147483648 ≤ value ∧ value < 2147483648 then some value else none

/-- A conversion environment for the examples: integers are converted by `std_stoi`; no
example reaches `std::stof` or `ParseDistanceStrategy`, which are given as always
throwing. -/
def exampleEnv : ParseEnv Nat :=
  { stoi := std_stoi, stof := fun _ => none, ParseDistanceStrategy := fun _ => none,
    MaxInnerProduct := 0 }

/-! ## Keys of two calls with a shift between them -/

/-- The key rows handed to `save_to_cache` in a call with the positions `pos`, for a cache
of width 1: the one element of row `t` is the position `pos[t]` that
`apply_pos_embedding_k` encoded the row with. -/
def encodedAt (pos : PosTensor) : List Int :=
  (List.range pos.ne0).map pos.data

/-- Two calls of `scenario` on a cache of width 1 (`hidden_size = 2`) whose elements are
the positions the keys were encoded with: five tokens are written at `n_past = 0`; the
shift `(2, 5)` is staged; one token is written at `n_past = 3`. The result is the memory
after the second call. -/
def shiftedCache : Option (Mem Int) :=
  let (self1, ctx1) := scenario.before_forward ⟨[]⟩ 1 0 5
  let ctx1 := self1.save_to_cache ctx1 1 0 5 (ggml_new_tensor_2d BufId.k 1 5)
    (ggml_new_tensor_2d BufId.v 1 5)
  let m0 : Mem Int :=
    { k_cache := List.replicate 8 (-1), v_cache := List.replicate 8 (-1),
      k := encodedAt self1.pos, v := encodedAt self1.pos }
  (ggml_graph_compute ctx1.gf m0).bind (fun m1 =>
    let staged := { self1 with shift_pending := { shift := 2, total := 5 } }
    let (self2, ctx2) := staged.before_forward ⟨[]⟩ 1 3 1
    let ctx2 := self2.save_to_cache ctx2 1 3 1 (ggml_new_tensor_2d BufId.k 1 1)
      (ggml_new_tensor_2d BufId.v 1 1)
    ggml_graph_compute ctx2.gf (m1.withInput (encodedAt self2.pos) (encodedAt self2.pos)))

/-! ## Memory, addresses and the copy loop -/

/-- Reading back the buffer just replaced. -/
theorem Mem.get_put_same {α : Type} (m : Mem α) (b : BufId) (l : List α) :
    (m.put b l).get b = l := by
  cases b <;> rfl

/-- Replacing one buffer leaves the others as they are. -/
theorem Mem.get_put_ne {α : Type} (m : Mem α) (b c : BufId) (l : List α) (h : c ≠ b) :
    (m.put b l).get c = m.get c := by
  cases b <;> cases c <;> first | rfl | exact absurd rfl h


/-- The copy loop over `N` elements succeeds and acts as a simultaneous copy when all
positions are inside the buffers, no source position was written by an earlier iteration
and the destination positions are pairwise different. -/
theorem cpyLoop_spec {α : Type} (src dst : Tensor) (m0 : Mem α) (N : Nat)
    (hs : ∀ e, e < N → src.addr e < (m0.get src.buf).length)
    (hd : ∀ e, e < N → dst.addr e < (m0.get dst.buf).length)
    (hraw : ∀ e' e, e' < e → e < N → src.buf = dst.buf → dst.addr e' ≠ src.addr e)
    (hinj : ∀ e e', e < N → e' < N → dst.addr e = dst.addr e' → e = e') :
    ∃ m, cpyLoop src dst N m0 = some m ∧
      (∀ b, (m.get b).length = (m0.get b).length) ∧
      (∀ e, e < N → (m.get dst.buf)[dst.addr e]? = (m0.get src.buf)[src.addr e]?) ∧
      (∀ b p, (b = dst.buf → ∀ e, e < N → p ≠ dst.addr e) →
        (m.get b)[p]? = (m0.get b)[p]?) := by
  induction N with
  | zero => exact ⟨m0, rfl, fun _ => rfl, fun e he => absurd he (Nat.not_lt_zero e), fun _ _ _ => rfl⟩
  | succ n ih =>
    obtain ⟨m, hrun, hlen, hval, hframe⟩ := ih
      (fun e he => hs e (Nat.lt_succ_of_lt he))
      (fun e he => hd e (Nat.lt_succ_of_lt he))
      (fun e' e h1 h2 => hraw e' e h1 (Nat.lt_succ_of_lt h2))
      (fun e e' h1 h2 => hinj e e' (Nat.lt_succ_of_lt h1) (Nat.lt_succ_of_lt h2))
    have hsn : src.addr n < (m0.get src.buf).length := hs n (Nat.lt_succ_self n)
    have hdn : dst.addr n < (m.get dst.buf).length := by
      rw [hlen]; exact hd n (Nat.lt_succ_self n)
    have hread : (m.get src.buf)[src.addr n]? = some ((m0.get src.buf)[src.addr n]) := by
      rw [hframe src.buf (src.addr n) (fun hb e he => (hraw e n he (Nat.lt_succ_self n) hb).symm)]
      exact List.getElem?_eq_getElem hsn
    refine ⟨m.put dst.buf ((m.get dst.buf).set (dst.addr n) ((m0.get src.buf)[src.addr n])),
      ?_, ?_, ?_, ?_⟩
    · simp only [cpyLoop, hrun, Option.some_bind, cpyStep, Mem.read, hread, Mem.write, hdn,
        if_true]
    · intro b
      by_cases hb : b = dst.buf
      · subst hb
        rw [Mem.get_put_same, List.length_set, hlen]
      · rw [Mem.get_put_ne _ _ _ _ hb, hlen]
    · intro e he
      rw [Mem.get_put_same]
      rcases Nat.lt_succ_iff_lt_or_eq.mp he with h | h
      · have hne : dst.addr n ≠ dst.addr e := fun hcon =>
          absurd (hinj n e (Nat.lt_succ_self n) he hcon) (Nat.ne_of_gt h)
        rw [List.getElem?_set_ne hne, hval e h]
      · subst h
        rw [List.getElem?_set_self hdn]
        exact (List.getElem?_eq_getElem hsn).symm
    · intro b p hp
      by_cases hb : b = dst.buf
      · subst hb
        rw [Mem.get_put_same]
        have hne : dst.addr n ≠ p := fun hcon => hp rfl n (Nat.lt_succ_self n) hcon.symm
        rw [List.getElem?_set_ne hne]
        exact hframe _ p (fun _ e he => hp rfl e (Nat.lt_succ_of_lt he))
      · rw [Mem.get_put_ne _ _ _ _ hb]
        exact hframe b p (fun h => absurd h hb)

/-- Position of element `e` of a one dimensional view. -/
theorem addr_view_1d (a : Tensor) (n off e : Nat) (he : e < n) :
    (ggml_view_1d a n off).addr e = a.offs + off + e := by
  simp [ggml_view_1d, Tensor.addr, Tensor.index, Nat.mod_eq_of_lt he, Nat.div_eq_of_lt he,
    Nat.mod_one]

/-- Element count of a one dimensional view. -/
theorem nelements_view_1d (a : Tensor) (n off : Nat) :
    (ggml_view_1d a n off).nelements = n := by
  simp [ggml_view_1d, Tensor.nelements]

/-- Position of element `(i0, i1)` of a tensor with two dimensions. -/
theorem Tensor.addr_2d (t : Tensor) (h2 : t.ne2 = 1) (e : Nat) (he : e < t.ne0 * t.ne1) :
    t.addr e = t.offs + (e % t.ne0) * t.nb0 + (e / t.ne0) * t.nb1 := by
  have h1 : e / t.ne0 < t.ne1 := Nat.div_lt_of_lt_mul he
  simp [Tensor.addr, Tensor.index, h2, Nat.mod_eq_of_lt h1, Nat.div_eq_of_lt he, Nat.mod_one]

/-- Element `a` of row `b` lies inside `m` rows of `n` elements. -/
theorem mul_add_lt_mul {a b n m : Nat} (ha : a < n) (hb : b < m) : b * n + a < n * m := by
  calc b * n + a < b * n + n := by omega
    _ = (b + 1) * n := by ring
    _ ≤ m * n := Nat.mul_le_mul_right n hb
    _ = n * m := Nat.mul_comm m n

/-- A position determines its row and its column. -/
theorem add_mul_inj {M a b c d : Nat} (ha : a < M) (hc : c < M) (h : a + b * M = c + d * M) :
    a = c ∧ b = d := by
  have h1 : (a + b * M) % M = (c + d * M) % M := by rw [h]
  have h2 : (a + b * M) / M = (c + d * M) / M := by rw [h]
  have hM : 0 < M := by omega
  rw [Nat.add_mul_mod_self_right, Nat.add_mul_mod_self_right, Nat.mod_eq_of_lt ha,
    Nat.mod_eq_of_lt hc] at h1
  rw [Nat.add_mul_div_right _ _ hM, Nat.add_mul_div_right _ _ hM, Nat.div_eq_of_lt ha,
    Nat.div_eq_of_lt hc] at h2
  omega
/-- A copy between two one dimensional views of `n` elements; when both lie in one buffer
the destination starts at or below the source. -/
theorem cpy_view_1d {α : Type} (a b : Tensor) (n offa offb : Nat) (m : Mem α)
    (ha : a.offs + offa + n ≤ (m.get a.buf).length)
    (hb : b.offs + offb + n ≤ (m.get b.buf).length)
    (hdown : a.buf = b.buf → b.offs + offb ≤ a.offs + offa) :
    ∃ m', ggml_compute_forward_cpy (ggml_view_1d a n offa) (ggml_view_1d b n offb) m = some m' ∧
      (∀ c, c ≠ b.buf → m'.get c = m.get c) ∧
      (m'.get b.buf).length = (m.get b.buf).length ∧
      (∀ e, e < n → (m'.get b.buf)[b.offs + offb + e]? = (m.get a.buf)[a.offs + offa + e]?) ∧
      (∀ p, (p < b.offs + offb ∨ b.offs + offb + n ≤ p) →
        (m'.get b.buf)[p]? = (m.get b.buf)[p]?) := by
  have hsb : (ggml_view_1d a n offa).buf = a.buf := rfl
  have hdb : (ggml_view_1d b n offb).buf = b.buf := rfl
  obtain ⟨m', hrun, hlen, hval, hframe⟩ := cpyLoop_spec (ggml_view_1d a n offa)
    (ggml_view_1d b n offb) m n
    (fun e he => by rw [addr_view_1d a n offa e he, hsb]; omega)
    (fun e he => by rw [addr_view_1d b n offb e he, hdb]; omega)
    (fun e' e h1 h2 hbuf => by
      rw [addr_view_1d b n offb e' (by omega), addr_view_1d a n offa e h2]
      have := hdown hbuf
      omega)
    (fun e e' h1 h2 h => by
      rw [addr_view_1d b n offb e h1, addr_view_1d b n offb e' h2] at h
      omega)
  refine ⟨m', ?_, ?_, ?_, ?_, ?_⟩
  · simp [ggml_compute_forward_cpy, nelements_view_1d, hrun]
  · intro c hc
    exact List.ext_getElem? (fun p => hframe c p (fun h => absurd h hc))
  · exact hlen b.buf
  · intro e he
    have := hval e he
    rw [addr_view_1d b n offb e he, addr_view_1d a n offa e he] at this
    exact this
  · intro p hp
    apply hframe b.buf p
    intro _ e he
    rw [addr_view_1d b n offb e he]
    omega
/-- The `e`-th element of a two dimensional tensor is element `(e % ne0, e / ne0)`. -/
theorem Tensor.addr_eq_index_2d (t : Tensor) (h2 : t.ne2 = 1) (e : Nat)
    (he : e < t.ne0 * t.ne1) : t.addr e = t.index (e % t.ne0) (e / t.ne0) 0 0 := by
  rw [Tensor.addr_2d t h2 e he]
  simp [Tensor.index]

/-- An earlier element lies in an earlier row, or earlier in the same row. -/
theorem lex_of_lt {w e e' : Nat} (h : e' < e) :
    e' / w < e / w ∨ (e' / w = e / w ∧ e' % w < e % w) := by
  rcases Nat.lt_or_ge (e' / w) (e / w) with h1 | h1
  · exact Or.inl h1
  · right
    have h2 : e' / w ≤ e / w := Nat.div_le_div_right (Nat.le_of_lt h)
    have h3 : e' / w = e / w := Nat.le_antisymm h2 h1
    have h4 := Nat.div_add_mod e' w
    have h5 := Nat.div_add_mod e w
    rw [h3] at h4
    exact ⟨h3, by omega⟩

/-- A copy of a `w` by `h` tensor into a two dimensional view whose rows of `w` elements
lie `ML` elements apart. A source position must not have been written by an earlier
iteration of the loop. -/
theorem cpy_to_view_2d {α : Type} (src b : Tensor) (w h ML off : Nat) (m : Mem α)
    (hne0 : src.ne0 = w) (hne1 : src.ne1 = h) (hne2 : src.ne2 = 1) (hne3 : src.ne3 = 1)
    (hfit : off + w ≤ ML)
    (hsrc : ∀ i j, i < w → j < h → src.index i j 0 0 < (m.get src.buf).length)
    (hdst : b.offs + h * ML ≤ (m.get b.buf).length)
    (hraw : src.buf = b.buf → ∀ i j i' j', i < w → j < h → i' < w → j' < h →
      (j' < j ∨ (j' = j ∧ i' < i)) → b.offs + off + i' + j' * ML ≠ src.index i j 0 0) :
    ∃ m', ggml_compute_forward_cpy src (ggml_view_2d b w h ML off) m = some m' ∧
      (∀ c, c ≠ b.buf → m'.get c = m.get c) ∧
      (m'.get b.buf).length = (m.get b.buf).length ∧
      (∀ i j, i < w → j < h →
        (m'.get b.buf)[b.offs + off + i + j * ML]? = (m.get src.buf)[src.index i j 0 0]?) ∧
      (∀ p, (∀ i j, i < w → j < h → p ≠ b.offs + off + i + j * ML) →
        (m'.get b.buf)[p]? = (m.get b.buf)[p]?) := by
  have hdb : (ggml_view_2d b w h ML off).buf = b.buf := rfl
  have hnel : src.nelements = w * h := by simp [Tensor.nelements, hne0, hne1, hne2, hne3]
  have hnel2 : (ggml_view_2d b w h ML off).nelements = w * h := by
    simp [ggml_view_2d, Tensor.nelements]
  have hsa : ∀ e, e < w * h → src.addr e = src.index (e % w) (e / w) 0 0 := by
    intro e he
    have := Tensor.addr_eq_index_2d src hne2 e (by rw [hne0, hne1]; exact he)
    rw [hne0] at this
    exact this
  have hda : ∀ e, e < w * h →
      (ggml_view_2d b w h ML off).addr e = b.offs + off + e % w + e / w * ML := by
    intro e he
    rw [Tensor.addr_2d _ rfl e he]
    simp [ggml_view_2d]
  have hmod : ∀ e, e < w * h → e % w < w := fun e he =>
    Nat.mod_lt e (Nat.pos_of_ne_zero (fun h0 => by subst h0; simp at he))
  have hdiv : ∀ e, e < w * h → e / w < h := fun e he => Nat.div_lt_of_lt_mul he
  obtain ⟨m', hrun, hlen, hval, hframe⟩ := cpyLoop_spec src (ggml_view_2d b w h ML off) m (w * h)
    (fun e he => by rw [hsa e he]; exact hsrc _ _ (hmod e he) (hdiv e he))
    (fun e he => by
      rw [hda e he, hdb]
      have h1 := hmod e he
      have h2 : e / w * ML + (off + e % w) < ML * h :=
        mul_add_lt_mul (by omega) (hdiv e he)
      have h3 : ML * h = h * ML := Nat.mul_comm _ _
      omega)
    (fun e' e h1 h2 hbuf => by
      have he' : e' < w * h := by omega
      rw [hda e' he', hsa e h2]
      exact hraw hbuf _ _ _ _ (hmod e h2) (hdiv e h2) (hmod e' he') (hdiv e' he') (lex_of_lt h1))
    (fun e e' h1 h2 heq => by
      rw [hda e h1, hda e' h2] at heq
      have := hmod e h1
      have := hmod e' h2
      have h3 : (off + e % w) + e / w * ML = (off + e' % w) + e' / w * ML := by omega
      obtain ⟨h4, h5⟩ := add_mul_inj (by omega) (by omega) h3
      have h6 := Nat.div_add_mod e w
      have h7 := Nat.div_add_mod e' w
      rw [h5] at h6
      omega)
  have hij : ∀ i j, i < w → j < h → j * w + i < w * h ∧ (j * w + i) % w = i ∧ (j * w + i) / w = j := by
    intro i j hi hj
    refine ⟨mul_add_lt_mul hi hj, ?_, ?_⟩
    · rw [Nat.mul_comm, Nat.mul_add_mod, Nat.mod_eq_of_lt hi]
    · rw [Nat.mul_comm, Nat.mul_add_div (by omega), Nat.div_eq_of_lt hi, Nat.add_zero]
  refine ⟨m', ?_, ?_, ?_, ?_, ?_⟩
  · simp [ggml_compute_forward_cpy, hnel, hnel2, hrun]
  · intro c hc
    exact List.ext_getElem? (fun p => hframe c p (fun h => absurd h hc))
  · exact hlen b.buf
  · intro i j hi hj
    obtain ⟨h1, h2, h3⟩ := hij i j hi hj
    have := hval (j * w + i) h1
    rw [hda _ h1, hsa _ h1, h2, h3] at this
    exact this
  · intro p hp
    apply hframe b.buf p
    intro _ e he
    rw [hda e he]
    exact hp _ _ (hmod e he) (hdiv e he)
/-- Running a graph built in two parts runs the parts one after the other. -/
theorem ggml_graph_compute_append {α : Type} (g1 g2 : List Op) (m : Mem α) :
    ggml_graph_compute (g1 ++ g2) m = (ggml_graph_compute g1 m).bind (ggml_graph_compute g2) := by
  induction g1 generalizing m with
  | nil => simp [ggml_graph_compute]
  | cons op rest ih =>
    simp only [List.cons_append, ggml_graph_compute]
    cases h : op.compute m with
    | none => simp
    | some m1 => simp [ih]

/-- Running a graph of two copies. -/
theorem ggml_graph_compute_two {α : Type} (s1 d1 s2 d2 : Tensor) (m : Mem α) :
    ggml_graph_compute [Op.cpy s1 d1, Op.cpy s2 d2] m =
      (ggml_compute_forward_cpy s1 d1 m).bind (ggml_compute_forward_cpy s2 d2) := by
  simp only [ggml_graph_compute, Op.compute]
  cases ggml_compute_forward_cpy s1 d1 m with
  | none => rfl
  | some m1 =>
    simp only [Option.some_bind]
    cases ggml_compute_forward_cpy s2 d2 m1 <;> rfl

/-- The nodes `save_to_cache` queues. -/
theorem save_to_cache_gf (self : BaseAttention) (ctx : ForwardContext)
    (kv_hidden_size n_past qlen : Nat) (k v : Tensor) :
    (self.save_to_cache ctx kv_hidden_size n_past qlen k v).gf =
      ctx.gf ++ [Op.cpy (ggml_view_1d k (qlen * kv_hidden_size) 0)
          (ggml_view_1d k_cache (qlen * kv_hidden_size) (kv_hidden_size * n_past)),
        Op.cpy (ggml_transpose v)
          (ggml_view_2d v_cache qlen kv_hidden_size self.max_length n_past)] := by
  simp [BaseAttention.save_to_cache, ggml_build_forward_expand]

/-- What running the two copies of `save_to_cache` does to the memory. -/
theorem save_to_cache_run {α : Type} (self : BaseAttention) (kvh n_past qlen : Nat)
    (k : Tensor) (m : Mem α) (hkb : k.buf = BufId.k) (hko : k.offs = 0)
    (hal : m.Allocated self.max_length kvh)
    (hk : qlen * kvh ≤ m.k.length) (hv : qlen * kvh ≤ m.v.length)
    (hcap : n_past + qlen ≤ self.max_length) :
    ∃ m', ggml_graph_compute (self.save_to_cache ⟨[]⟩ kvh n_past qlen k
        (ggml_new_tensor_2d BufId.v kvh qlen)).gf m = some m' ∧
      m'.k = m.k ∧ m'.v = m.v ∧ m'.Allocated self.max_length kvh ∧
      (∀ t f, t < qlen → f < kvh →
        m'.k_cache[(n_past + t) * kvh + f]? = m.k[t * kvh + f]?) ∧
      (∀ t f, t < qlen → f < kvh →
        m'.v_cache[f * self.max_length + (n_past + t)]? = m.v[t * kvh + f]?) ∧
      (∀ p, (p < n_past * kvh ∨ (n_past + qlen) * kvh ≤ p) →
        m'.k_cache[p]? = m.k_cache[p]?) ∧
      (∀ p, (∀ t f, t < qlen → f < kvh → p ≠ f * self.max_length + (n_past + t)) →
        m'.v_cache[p]? = m.v_cache[p]?) := by
  obtain ⟨hak, hav⟩ := hal
  have e1 : kvh * n_past = n_past * kvh := Nat.mul_comm _ _
  have e2 : (n_past + qlen) * kvh = n_past * kvh + qlen * kvh := Nat.add_mul _ _ _
  have e3 : (n_past + qlen) * kvh ≤ self.max_length * kvh := Nat.mul_le_mul_right _ hcap
  -- the key copy
  obtain ⟨m1, hrun1, hoth1, hlen1, hval1, hfr1⟩ := cpy_view_1d k k_cache (qlen * kvh) 0
    (kvh * n_past) m
    (by rw [hkb, hko]; simpa [Mem.get] using hk)
    (by show 0 + kvh * n_past + qlen * kvh ≤ m.k_cache.length; omega)
    (fun h => by rw [hkb] at h; exact absurd h (by decide))
  have h1k : m1.k = m.k := hoth1 BufId.k (by decide)
  have h1v : m1.v = m.v := hoth1 BufId.v (by decide)
  have h1vc : m1.v_cache = m.v_cache := hoth1 BufId.v_cache (by decide)
  have h1len : m1.k_cache.length = m.k_cache.length := hlen1
  -- the value copy
  obtain ⟨m2, hrun2, hoth2, hlen2, hval2, hfr2⟩ := cpy_to_view_2d
    (ggml_transpose (ggml_new_tensor_2d BufId.v kvh qlen)) v_cache qlen kvh self.max_length
    n_past m1 rfl rfl rfl rfl hcap
    (fun i j hi hj => by
      show 0 + i * kvh + j * 1 + 0 * _ + 0 * _ < m1.v.length
      have := @mul_add_lt_mul j i kvh qlen hj hi
      have e4 : kvh * qlen = qlen * kvh := Nat.mul_comm _ _
      rw [h1v]; omega)
    (by show 0 + kvh * self.max_length ≤ m1.v_cache.length; rw [h1vc]; omega)
    (fun h => by have h0 : BufId.v = BufId.v_cache := h; cases h0)
  have h2k : m2.k = m.k := (hoth2 BufId.k (by decide)).trans h1k
  have h2v : m2.v = m.v := (hoth2 BufId.v (by decide)).trans h1v
  have h2kc : m2.k_cache = m1.k_cache := hoth2 BufId.k_cache (by decide)
  have h2len : m2.v_cache.length = m1.v_cache.length := hlen2
  refine ⟨m2, ?_, h2k, h2v, ⟨?_, ?_⟩, ?_, ?_, ?_, ?_⟩
  · rw [save_to_cache_gf]
    simp only [List.nil_append]
    rw [ggml_graph_compute_two, hrun1, Option.some_bind, hrun2]
  · rw [h2kc, h1len, hak]
  · rw [h2len, h1vc, hav]
  · intro t f ht hf
    have h3 : t * kvh + f < qlen * kvh := by
      have := @mul_add_lt_mul f t kvh qlen hf ht
      have e4 : kvh * qlen = qlen * kvh := Nat.mul_comm _ _
      omega
    have := hval1 (t * kvh + f) h3
    rw [hkb, hko] at this
    have e5 : (n_past + t) * kvh + f = 0 + kvh * n_past + (t * kvh + f) := by
      rw [Nat.add_mul]; omega
    rw [h2kc, e5]
    simpa [Mem.get, k_cache] using this
  · intro t f ht hf
    have := hval2 t f ht hf
    have e5 : f * self.max_length + (n_past + t) = 0 + n_past + t + f * self.max_length := by
      omega
    rw [e5, ← h1v]
    simpa [Mem.get, ggml_transpose, ggml_new_tensor_2d, Tensor.index, v_cache] using this
  · intro p hp
    rw [h2kc]
    exact hfr1 p (by show p < 0 + kvh * n_past ∨ 0 + kvh * n_past + qlen * kvh ≤ p; omega)
  · intro p hp
    rw [← h1vc]
    apply hfr2 p
    intro i j hi hj
    have := hp i j hi hj
    show p ≠ 0 + n_past + i + j * self.max_length
    omega

/-- The nodes `before_forward` queues for a pending shift that leaves rows. -/
theorem before_forward_gf (self : BaseAttention) (ctx : ForwardContext)
    (kvh n_past qlen s total : Nat) (hsp : self.shift_pending = ⟨(s : Int), (total : Int)⟩)
    (hs : 0 < s) (hst : s < total) :
    (self.before_forward ctx kvh n_past qlen).2.gf =
      ctx.gf ++ [Op.cpy (ggml_view_1d k_cache ((total - s) * kvh) (kvh * s))
          (ggml_view_1d k_cache ((total - s) * kvh) 0),
        Op.cpy (ggml_view_2d v_cache (total - s) kvh self.max_length s)
          (ggml_view_2d v_cache (total - s) kvh self.max_length 0)] := by
  have h1 : (0 : Int) < (s : Int) := by omega
  have h2 : (0 : Int) < (total : Int) - (s : Int) := by omega
  have h3 : ((total : Int) - (s : Int)).toNat = total - s := by omega
  simp [BaseAttention.before_forward, hsp, h1, h2, h3, ggml_build_forward_expand]

/-- What running the compaction copies queued by `before_forward` does to the memory. -/
theorem before_forward_run {α : Type} (self : BaseAttention) (kvh n_past qlen s total : Nat)
    (m : Mem α) (hsp : self.shift_pending = ⟨(s : Int), (total : Int)⟩)
    (hs : 0 < s) (hst : s < total) (htot : total ≤ self.max_length)
    (hal : m.Allocated self.max_length kvh) :
    ∃ m', ggml_graph_compute (self.before_forward ⟨[]⟩ kvh n_past qlen).2.gf m = some m' ∧
      m'.k = m.k ∧ m'.v = m.v ∧ m'.Allocated self.max_length kvh ∧
      (∀ i f, i < total - s → f < kvh →
        m'.k_cache[i * kvh + f]? = m.k_cache[(i + s) * kvh + f]?) ∧
      (∀ p, (total - s) * kvh ≤ p → m'.k_cache[p]? = m.k_cache[p]?) ∧
      (∀ f i, f < kvh → i < total - s →
        m'.v_cache[f * self.max_length + i]? = m.v_cache[f * self.max_length + (i + s)]?) ∧
      (∀ p, (∀ f i, f < kvh → i < total - s → p ≠ f * self.max_length + i) →
        m'.v_cache[p]? = m.v_cache[p]?) := by
  obtain ⟨hak, hav⟩ := hal
  have e0 : (total - s) * kvh + s * kvh = total * kvh := by
    rw [← Nat.add_mul]; congr 1; omega
  have e1 : kvh * s = s * kvh := Nat.mul_comm _ _
  have e2 : total * kvh ≤ self.max_length * kvh := Nat.mul_le_mul_right _ htot
  -- the key copy
  obtain ⟨m1, hrun1, hoth1, hlen1, hval1, hfr1⟩ := cpy_view_1d k_cache k_cache
    ((total - s) * kvh) (kvh * s) 0 m
    (by show 0 + kvh * s + (total - s) * kvh ≤ m.k_cache.length; omega)
    (by show 0 + 0 + (total - s) * kvh ≤ m.k_cache.length; omega)
    (fun _ => by omega)
  have h1k : m1.k = m.k := hoth1 BufId.k (by decide)
  have h1v : m1.v = m.v := hoth1 BufId.v (by decide)
  have h1vc : m1.v_cache = m.v_cache := hoth1 BufId.v_cache (by decide)
  have h1len : m1.k_cache.length = m.k_cache.length := hlen1
  -- the value copy
  obtain ⟨m2, hrun2, hoth2, hlen2, hval2, hfr2⟩ := cpy_to_view_2d
    (ggml_view_2d v_cache (total - s) kvh self.max_length s) v_cache (total - s) kvh
    self.max_length 0 m1 rfl rfl rfl rfl (by omega)
    (fun i j hi hj => by
      show 0 + s + i * 1 + j * self.max_length + 0 * _ + 0 * _ < m1.v_cache.length
      have := @mul_add_lt_mul (s + i) j self.max_length kvh (by omega) hj
      have e4 : self.max_length * kvh = kvh * self.max_length := Nat.mul_comm _ _
      rw [h1vc]; omega)
    (by show 0 + kvh * self.max_length ≤ m1.v_cache.length; rw [h1vc]; omega)
    (fun _ i j i' j' hi _ hi' _ hlex => by
      show 0 + 0 + i' + j' * self.max_length ≠
        0 + s + i * 1 + j * self.max_length + 0 * _ + 0 * _
      intro hcon
      have h3 : i' + j' * self.max_length = (s + i) + j * self.max_length := by omega
      obtain ⟨h4, h5⟩ := add_mul_inj (by omega) (by omega) h3
      omega)
  have h2k : m2.k = m.k := (hoth2 BufId.k (by decide)).trans h1k
  have h2v : m2.v = m.v := (hoth2 BufId.v (by decide)).trans h1v
  have h2kc : m2.k_cache = m1.k_cache := hoth2 BufId.k_cache (by decide)
  have h2len : m2.v_cache.length = m1.v_cache.length := hlen2
  refine ⟨m2, ?_, h2k, h2v, ⟨?_, ?_⟩, ?_, ?_, ?_, ?_⟩
  · rw [before_forward_gf self _ kvh n_past qlen s total hsp hs hst]
    simp only [List.nil_append]
    rw [ggml_graph_compute_two, hrun1, Option.some_bind, hrun2]
  · rw [h2kc, h1len, hak]
  · rw [h2len, h1vc, hav]
  · intro i f hi hf
    have h3 : i * kvh + f < (total - s) * kvh := by
      have := @mul_add_lt_mul f i kvh (total - s) hf hi
      have e4 : kvh * (total - s) = (total - s) * kvh := Nat.mul_comm _ _
      omega
    have := hval1 (i * kvh + f) h3
    have e5 : (i + s) * kvh + f = 0 + kvh * s + (i * kvh + f) := by
      rw [Nat.add_mul]; omega
    rw [h2kc, e5]
    simpa [Mem.get, k_cache] using this
  · intro p hp
    rw [h2kc]
    exact hfr1 p (by right; show 0 + 0 + (total - s) * kvh ≤ p; omega)
  · intro f i hf hi
    have := hval2 i f hi hf
    have e5 : f * self.max_length + i = 0 + 0 + i + f * self.max_length := by omega
    have e6 : f * self.max_length + (i + s) = s + i + f * self.max_length := by omega
    rw [e5, e6, ← h1vc]
    simpa [Mem.get, ggml_view_2d, Tensor.index, v_cache] using this
  · intro p hp
    rw [← h1vc]
    apply hfr2 p
    intro i j hi hj
    have := hp j i hj hi
    show p ≠ 0 + 0 + i + j * self.max_length
    omega

/-! ## The cache write: `save_to_cache` -/

/-- C2: `save_to_cache` stores the keys row-major at offset `n_past`: running its copies
succeeds, and for every token `t < qlen` and feature `f < kv_hidden_size` the key buffer
element at flat index `(n_past + t) * kv_hidden_size + f` is element `f` of the key row of
token `t`. -/
theorem save_to_cache_keys_row_major {α : Type} (self : BaseAttention)
    (kv_hidden_size n_past qlen : Nat) (k : Tensor) (m : Mem α)
    (hkb : k.buf = BufId.k) (hko : k.offs = 0)
    (hal : m.Allocated self.max_length kv_hidden_size)
    (hk : qlen * kv_hidden_size ≤ m.k.length) (hv : qlen * kv_hidden_size ≤ m.v.length)
    (hcap : n_past + qlen ≤ self.max_length) :
    ∃ m', ggml_graph_compute (self.save_to_cache ⟨[]⟩ kv_hidden_size n_past qlen k
        (ggml_new_tensor_2d BufId.v kv_hidden_size qlen)).gf m = some m' ∧
      ∀ t f, t < qlen → f < kv_hidden_size →
        ∃ x, m.k[t * kv_hidden_size + f]? = some x ∧
          m'.k_cache[(n_past + t) * kv_hidden_size + f]? = some x := by
  obtain ⟨m', hrun, -, -, -, hkey, -, -, -⟩ :=
    save_to_cache_run self kv_hidden_size n_past qlen k m hkb hko hal hk hv hcap
  refine ⟨m', hrun, fun t f ht hf => ?_⟩
  have hlt : t * kv_hidden_size + f < m.k.length := by
    have := @mul_add_lt_mul f t kv_hidden_size qlen hf ht
    have e : kv_hidden_size * qlen = qlen * kv_hidden_size := Nat.mul_comm _ _
    omega
  exact ⟨m.k[t * kv_hidden_size + f], List.getElem?_eq_getElem hlt,
    (hkey t f ht hf).trans (List.getElem?_eq_getElem hlt)⟩

/-- Instance on the scenario: three key rows written at `n_past = 1`. -/
theorem save_to_cache_keys_row_major_witness :
    ∃ m', ggml_graph_compute (scenario.save_to_cache ⟨[]⟩ 4 1 3
        (ggml_new_tensor_2d BufId.k 4 3) (ggml_new_tensor_2d BufId.v 4 3)).gf scenarioMem
        = some m' ∧
      ∀ t f, t < 3 → f < 4 →
        ∃ x, scenarioMem.k[t * 4 + f]? = some x ∧ m'.k_cache[(1 + t) * 4 + f]? = some x :=
  save_to_cache_keys_row_major scenario 4 1 3 (ggml_new_tensor_2d BufId.k 4 3) scenarioMem
    rfl rfl ⟨by decide, by decide⟩ (by decide) (by decide) (by decide)

/-- C3: `save_to_cache` stores the values transposed (feature-major) at the same offset:
running its copies succeeds, and for every token `t < qlen` and feature
`f < kv_hidden_size` the value buffer element at flat index `f * max_length + n_past + t`
is element `f` of the value row of token `t`. -/
theorem save_to_cache_values_transposed {α : Type} (self : BaseAttention)
    (kv_hidden_size n_past qlen : Nat) (k : Tensor) (m : Mem α)
    (hkb : k.buf = BufId.k) (hko : k.offs = 0)
    (hal : m.Allocated self.max_length kv_hidden_size)
    (hk : qlen * kv_hidden_size ≤ m.k.length) (hv : qlen * kv_hidden_size ≤ m.v.length)
    (hcap : n_past + qlen ≤ self.max_length) :
    ∃ m', ggml_graph_compute (self.save_to_cache ⟨[]⟩ kv_hidden_size n_past qlen k
        (ggml_new_tensor_2d BufId.v kv_hidden_size qlen)).gf m = some m' ∧
      ∀ t f, t < qlen → f < kv_hidden_size →
        ∃ x, m.v[t * kv_hidden_size + f]? = some x ∧
          m'.v_cache[f * self.max_length + n_past + t]? = some x := by
  obtain ⟨m', hrun, -, -, -, -, hval, -, -⟩ :=
    save_to_cache_run self kv_hidden_size n_past qlen k m hkb hko hal hk hv hcap
  refine ⟨m', hrun, fun t f ht hf => ?_⟩
  have hlt : t * kv_hidden_size + f < m.v.length := by
    have := @mul_add_lt_mul f t kv_hidden_size qlen hf ht
    have e : kv_hidden_size * qlen = qlen * kv_hidden_size := Nat.mul_comm _ _
    omega
  refine ⟨m.v[t * kv_hidden_size + f], List.getElem?_eq_getElem hlt, ?_⟩
  rw [Nat.add_assoc]
  exact (hval t f ht hf).trans (List.getElem?_eq_getElem hlt)

/-- Instance on the scenario: three value rows written at `n_past = 1`. -/
theorem save_to_cache_values_transposed_witness :
    ∃ m', ggml_graph_compute (scenario.save_to_cache ⟨[]⟩ 4 1 3
        (ggml_new_tensor_2d BufId.k 4 3) (ggml_new_tensor_2d BufId.v 4 3)).gf scenarioMem
        = some m' ∧
      ∀ t f, t < 3 → f < 4 →
        ∃ x, scenarioMem.v[t * 4 + f]? = some x ∧
          m'.v_cache[f * scenario.max_length + 1 + t]? = some x :=
  save_to_cache_values_transposed scenario 4 1 3 (ggml_new_tensor_2d BufId.k 4 3) scenarioMem
    rfl rfl ⟨by decide, by decide⟩ (by decide) (by decide) (by decide)

/-- C5: a cache write touches only the new positions: when `n_past + qlen <= max_length`,
running the copies of `save_to_cache` succeeds and leaves unchanged every key buffer
element whose row `r` is outside `[n_past, n_past + qlen)` and every value buffer element
whose column `c` is outside `[n_past, n_past + qlen)`. -/
theorem save_to_cache_frame {α : Type} (self : BaseAttention)
    (kv_hidden_size n_past qlen : Nat) (k : Tensor) (m : Mem α)
    (hkb : k.buf = BufId.k) (hko : k.offs = 0)
    (hal : m.Allocated self.max_length kv_hidden_size)
    (hk : qlen * kv_hidden_size ≤ m.k.length) (hv : qlen * kv_hidden_size ≤ m.v.length)
    (hcap : n_past + qlen ≤ self.max_length) :
    ∃ m', ggml_graph_compute (self.save_to_cache ⟨[]⟩ kv_hidden_size n_past qlen k
        (ggml_new_tensor_2d BufId.v kv_hidden_size qlen)).gf m = some m' ∧
      (∀ r f, f < kv_hidden_size → (r < n_past ∨ n_past + qlen ≤ r) →
        m'.k_cache[r * kv_hidden_size + f]? = m.k_cache[r * kv_hidden_size + f]?) ∧
      (∀ f c, c < self.max_length → (c < n_past ∨ n_past + qlen ≤ c) →
        m'.v_cache[f * self.max_length + c]? = m.v_cache[f * self.max_length + c]?) := by
  obtain ⟨m', hrun, -, -, -, -, -, hfk, hfv⟩ :=
    save_to_cache_run self kv_hidden_size n_past qlen k m hkb hko hal hk hv hcap
  refine ⟨m', hrun, fun r f hf hr => ?_, fun f c hc hout => ?_⟩
  · apply hfk
    rcases hr with hr | hr
    · left
      have := @mul_add_lt_mul f r kv_hidden_size n_past hf hr
      have e : kv_hidden_size * n_past = n_past * kv_hidden_size := Nat.mul_comm _ _
      omega
    · right
      have := Nat.mul_le_mul_right kv_hidden_size hr
      omega
  · apply hfv
    intro t g ht _ hcon
    have h3 : c + f * self.max_length = (n_past + t) + g * self.max_length := by omega
    obtain ⟨h4, -⟩ := add_mul_inj hc (by omega) h3
    omega

/-- Instance on the scenario: a write of three rows at `n_past = 1` keeps rows and columns 0
and 4 .. 7. -/
theorem save_to_cache_frame_witness :
    ∃ m', ggml_graph_compute (scenario.save_to_cache ⟨[]⟩ 4 1 3
        (ggml_new_tensor_2d BufId.k 4 3) (ggml_new_tensor_2d BufId.v 4 3)).gf scenarioMem
        = some m' ∧
      (∀ r f, f < 4 → (r < 1 ∨ 1 + 3 ≤ r) →
        m'.k_cache[r * 4 + f]? = scenarioMem.k_cache[r * 4 + f]?) ∧
      (∀ f c, c < scenario.max_length → (c < 1 ∨ 1 + 3 ≤ c) →
        m'.v_cache[f * scenario.max_length + c]? =
          scenarioMem.v_cache[f * scenario.max_length + c]?) :=
  save_to_cache_frame scenario 4 1 3 (ggml_new_tensor_2d BufId.k 4 3) scenarioMem
    rfl rfl ⟨by decide, by decide⟩ (by decide) (by decide) (by decide)

/-- Element `f` of row `p` lies inside `n` rows of `kvh` elements. -/
theorem row_lt {kvh n p f : Nat} (hp : p < n) (hf : f < kvh) : p * kvh + f < n * kvh := by
  have := @mul_add_lt_mul f p kvh n hf hp
  have e : kvh * n = n * kvh := Nat.mul_comm _ _
  omega

/-- C1: writing `a` rows at `n_past = 0` and then the remaining `b` rows at `n_past = a`
leaves the key cache and the value cache, on the positions `[0, a + b)`, identical to one
write of all `a + b` rows at `n_past = 0` (all three runs succeed). -/
theorem save_to_cache_incremental {α : Type} (self : BaseAttention)
    (kv_hidden_size a b : Nat) (m : Mem α) (ks vs : List α)
    (hal : m.Allocated self.max_length kv_hidden_size)
    (hks : ks.length = (a + b) * kv_hidden_size) (hvs : vs.length = (a + b) * kv_hidden_size)
    (hcap : a + b ≤ self.max_length) :
    ∃ m1 m2 mfull,
      ggml_graph_compute (self.save_to_cache ⟨[]⟩ kv_hidden_size 0 a
          (ggml_new_tensor_2d BufId.k kv_hidden_size a)
          (ggml_new_tensor_2d BufId.v kv_hidden_size a)).gf
        (m.withInput (ks.take (a * kv_hidden_size)) (vs.take (a * kv_hidden_size)))
        = some m1 ∧
      ggml_graph_compute (self.save_to_cache ⟨[]⟩ kv_hidden_size a b
          (ggml_new_tensor_2d BufId.k kv_hidden_size b)
          (ggml_new_tensor_2d BufId.v kv_hidden_size b)).gf
        (m1.withInput (ks.drop (a * kv_hidden_size)) (vs.drop (a * kv_hidden_size)))
        = some m2 ∧
      ggml_graph_compute (self.save_to_cache ⟨[]⟩ kv_hidden_size 0 (a + b)
          (ggml_new_tensor_2d BufId.k kv_hidden_size (a + b))
          (ggml_new_tensor_2d BufId.v kv_hidden_size (a + b))).gf
        (m.withInput ks vs) = some mfull ∧
      ∀ p f, p < a + b → f < kv_hidden_size →
        m2.k_cache[p * kv_hidden_size + f]? = mfull.k_cache[p * kv_hidden_size + f]? ∧
        m2.v_cache[f * self.max_length + p]? = mfull.v_cache[f * self.max_length + p]? := by
  have eab : (a + b) * kv_hidden_size = a * kv_hidden_size + b * kv_hidden_size :=
    Nat.add_mul _ _ _
  obtain ⟨m1, hrun1, -, -, hal1, hk1, hv1, -, -⟩ := save_to_cache_run self kv_hidden_size 0 a
    (ggml_new_tensor_2d BufId.k kv_hidden_size a)
    (m.withInput (ks.take (a * kv_hidden_size)) (vs.take (a * kv_hidden_size)))
    rfl rfl hal
    (by show a * kv_hidden_size ≤ (ks.take (a * kv_hidden_size)).length
        rw [List.length_take]; omega)
    (by show a * kv_hidden_size ≤ (vs.take (a * kv_hidden_size)).length
        rw [List.length_take]; omega)
    (by omega)
  obtain ⟨m2, hrun2, -, -, -, hk2, hv2, hfk2, hfv2⟩ := save_to_cache_run self kv_hidden_size
    a b (ggml_new_tensor_2d BufId.k kv_hidden_size b)
    (m1.withInput (ks.drop (a * kv_hidden_size)) (vs.drop (a * kv_hidden_size)))
    rfl rfl hal1
    (by show b * kv_hidden_size ≤ (ks.drop (a * kv_hidden_size)).length
        rw [List.length_drop]; omega)
    (by show b * kv_hidden_size ≤ (vs.drop (a * kv_hidden_size)).length
        rw [List.length_drop]; omega)
    hcap
  obtain ⟨mfull, hrun3, -, -, -, hk3, hv3, -, -⟩ := save_to_cache_run self kv_hidden_size
    0 (a + b) (ggml_new_tensor_2d BufId.k kv_hidden_size (a + b)) (m.withInput ks vs)
    rfl rfl hal (by show _ ≤ ks.length; omega) (by show _ ≤ vs.length; omega) (by omega)
  refine ⟨m1, m2, mfull, hrun1, hrun2, hrun3, fun p f hp hf => ?_⟩
  have h3k := hk3 p f hp hf
  have h3v := hv3 p f hp hf
  rw [Nat.zero_add] at h3k h3v
  rw [h3k, h3v]
  change _ = ks[p * kv_hidden_size + f]? ∧ _ = vs[p * kv_hidden_size + f]?
  rcases Nat.lt_or_ge p a with hpa | hpa
  · -- written by the first call, kept by the second
    have hlt := @row_lt kv_hidden_size a p f hpa hf
    have h1k := hk1 p f hpa hf
    have h1v := hv1 p f hpa hf
    rw [Nat.zero_add] at h1k h1v
    constructor
    · rw [hfk2 _ (Or.inl hlt)]
      change m1.k_cache[_]? = _
      rw [h1k]
      exact List.getElem?_take_of_lt hlt
    · rw [hfv2 _ (fun t g ht _ hcon => by
        have h3 : p + f * self.max_length = (a + t) + g * self.max_length := by omega
        obtain ⟨h4, -⟩ := add_mul_inj (by omega) (by omega) h3
        omega)]
      change m1.v_cache[_]? = _
      rw [h1v]
      exact List.getElem?_take_of_lt hlt
  · -- written by the second call
    have hpb : p - a < b := by omega
    have h2k := hk2 (p - a) f hpb hf
    have h2v := hv2 (p - a) f hpb hf
    have e1 : a + (p - a) = p := by omega
    have e2 : a * kv_hidden_size + ((p - a) * kv_hidden_size + f) = p * kv_hidden_size + f := by
      rw [← Nat.add_assoc, ← Nat.add_mul, e1]
    rw [e1] at h2k h2v
    constructor
    · rw [h2k]
      change (ks.drop (a * kv_hidden_size))[_]? = _
      rw [List.getElem?_drop, e2]
    · rw [h2v]
      change (vs.drop (a * kv_hidden_size))[_]? = _
      rw [List.getElem?_drop, e2]

/-- Instance on the scenario: two rows, then one row, against three rows at once. -/
theorem save_to_cache_incremental_witness :
    ∃ m1 m2 mfull,
      ggml_graph_compute (scenario.save_to_cache ⟨[]⟩ 4 0 2
          (ggml_new_tensor_2d BufId.k 4 2) (ggml_new_tensor_2d BufId.v 4 2)).gf
        (scenarioMem.withInput (scenarioMem.k.take (2 * 4)) (scenarioMem.v.take (2 * 4)))
        = some m1 ∧
      ggml_graph_compute (scenario.save_to_cache ⟨[]⟩ 4 2 1
          (ggml_new_tensor_2d BufId.k 4 1) (ggml_new_tensor_2d BufId.v 4 1)).gf
        (m1.withInput (scenarioMem.k.drop (2 * 4)) (scenarioMem.v.drop (2 * 4)))
        = some m2 ∧
      ggml_graph_compute (scenario.save_to_cache ⟨[]⟩ 4 0 (2 + 1)
          (ggml_new_tensor_2d BufId.k 4 (2 + 1)) (ggml_new_tensor_2d BufId.v 4 (2 + 1))).gf
        (scenarioMem.withInput scenarioMem.k scenarioMem.v) = some mfull ∧
      ∀ p f, p < 2 + 1 → f < 4 →
        m2.k_cache[p * 4 + f]? = mfull.k_cache[p * 4 + f]? ∧
        m2.v_cache[f * scenario.max_length + p]? =
          mfull.v_cache[f * scenario.max_length + p]? :=
  save_to_cache_incremental scenario 4 2 1 scenarioMem scenarioMem.k scenarioMem.v
    ⟨by decide, by decide⟩ (by decide) (by decide) (by decide)

/-! ## The shift: `before_forward` -/

/-- C6: key compaction. With a pending shift `s > 0` and `remain = total - s > 0` (and
`total` within the capacity), `before_forward` queues for the keys one copy of
`remain * kv_hidden_size` contiguous elements from row `s` to row `0` (and one copy for the
values), running the queued
copies succeeds, and afterwards every key row `i < remain` equals the key row `i + s` of
before. -/
theorem before_forward_key_compaction {α : Type} (self : BaseAttention)
    (kv_hidden_size n_past qlen s total : Nat) (m : Mem α)
    (hsp : self.shift_pending = ⟨(s : Int), (total : Int)⟩)
    (hs : 0 < s) (hremain : 0 < total - s) (htot : total ≤ self.max_length)
    (hal : m.Allocated self.max_length kv_hidden_size) :
    (self.before_forward ⟨[]⟩ kv_hidden_size n_past qlen).2.gf =
      [Op.cpy (ggml_view_1d k_cache ((total - s) * kv_hidden_size) (kv_hidden_size * s))
          (ggml_view_1d k_cache ((total - s) * kv_hidden_size) 0),
        Op.cpy (ggml_view_2d v_cache (total - s) kv_hidden_size self.max_length s)
          (ggml_view_2d v_cache (total - s) kv_hidden_size self.max_length 0)] ∧
    ∃ m', ggml_graph_compute (self.before_forward ⟨[]⟩ kv_hidden_size n_past qlen).2.gf m
        = some m' ∧
      ∀ i f, i < total - s → f < kv_hidden_size →
        ∃ x, m.k_cache[(i + s) * kv_hidden_size + f]? = some x ∧
          m'.k_cache[i * kv_hidden_size + f]? = some x := by
  have hst : s < total := by omega
  constructor
  · rw [before_forward_gf self _ kv_hidden_size n_past qlen s total hsp hs hst]
    rfl
  · obtain ⟨m', hrun, -, -, -, hkey, -, -, -⟩ :=
      before_forward_run self kv_hidden_size n_past qlen s total m hsp hs hst htot hal
    refine ⟨m', hrun, fun i f hi hf => ?_⟩
    have hlt : (i + s) * kv_hidden_size + f < m.k_cache.length := by
      rw [hal.1]
      exact row_lt (by omega) hf
    exact ⟨m.k_cache[(i + s) * kv_hidden_size + f], List.getElem?_eq_getElem hlt,
      (hkey i f hi hf).trans (List.getElem?_eq_getElem hlt)⟩

/-- Instance on the scenario: five cached tokens, the oldest two evicted. -/
theorem before_forward_key_compaction_witness :
    ({ scenario with shift_pending := ⟨2, 5⟩ }.before_forward ⟨[]⟩ 4 3 1).2.gf =
      [Op.cpy (ggml_view_1d k_cache ((5 - 2) * 4) (4 * 2))
          (ggml_view_1d k_cache ((5 - 2) * 4) 0),
        Op.cpy (ggml_view_2d v_cache (5 - 2) 4 8 2) (ggml_view_2d v_cache (5 - 2) 4 8 0)] ∧
    ∃ m', ggml_graph_compute
        ({ scenario with shift_pending := ⟨2, 5⟩ }.before_forward ⟨[]⟩ 4 3 1).2.gf shiftMem
        = some m' ∧
      ∀ i f, i < 5 - 2 → f < 4 →
        ∃ x, shiftMem.k_cache[(i + 2) * 4 + f]? = some x ∧ m'.k_cache[i * 4 + f]? = some x :=
  before_forward_key_compaction { scenario with shift_pending := ⟨2, 5⟩ } 4 3 1 2 5 shiftMem
    rfl (by decide) (by decide) (by decide) ⟨by decide, by decide⟩

/-- C7: value compaction. With a pending shift `s > 0` and `remain = total - s > 0` (and
`total` within the capacity), running the copies queued by `before_forward` succeeds, and
afterwards, for every feature `f < kv_hidden_size`, the value element `(f, i)` equals the
value element `(f, i + s)` of before for every column `i < remain`, and the columns at
index `>= remain` of the feature row are unchanged. -/
theorem before_forward_value_compaction {α : Type} (self : BaseAttention)
    (kv_hidden_size n_past qlen s total : Nat) (m : Mem α)
    (hsp : self.shift_pending = ⟨(s : Int), (total : Int)⟩)
    (hs : 0 < s) (hremain : 0 < total - s) (htot : total ≤ self.max_length)
    (hal : m.Allocated self.max_length kv_hidden_size) :
    ∃ m', ggml_graph_compute (self.before_forward ⟨[]⟩ kv_hidden_size n_past qlen).2.gf m
        = some m' ∧
      (∀ f i, f < kv_hidden_size → i < total - s →
        ∃ x, m.v_cache[f * self.max_length + (i + s)]? = some x ∧
          m'.v_cache[f * self.max_length + i]? = some x) ∧
      (∀ f c, f < kv_hidden_size → total - s ≤ c → c < self.max_length →
        m'.v_cache[f * self.max_length + c]? = m.v_cache[f * self.max_length + c]?) := by
  have hst : s < total := by omega
  obtain ⟨m', hrun, -, -, -, -, -, hval, hfr⟩ :=
    before_forward_run self kv_hidden_size n_past qlen s total m hsp hs hst htot hal
  refine ⟨m', hrun, fun f i hf hi => ?_, fun f c _ hc hcm => ?_⟩
  · have hlt : f * self.max_length + (i + s) < m.v_cache.length := by
      rw [hal.2]
      have := @mul_add_lt_mul (i + s) f self.max_length kv_hidden_size (by omega) hf
      have e : self.max_length * kv_hidden_size = kv_hidden_size * self.max_length :=
        Nat.mul_comm _ _
      omega
    exact ⟨m.v_cache[f * self.max_length + (i + s)], List.getElem?_eq_getElem hlt,
      (hval f i hf hi).trans (List.getElem?_eq_getElem hlt)⟩
  · apply hfr
    intro g i _ hi hcon
    have h3 : c + f * self.max_length = i + g * self.max_length := by omega
    obtain ⟨h4, -⟩ := add_mul_inj hcm (by omega) h3
    omega

/-- Instance on the scenario: five cached tokens, the oldest two evicted. -/
theorem before_forward_value_compaction_witness :
    ∃ m', ggml_graph_compute
        ({ scenario with shift_pending := ⟨2, 5⟩ }.before_forward ⟨[]⟩ 4 3 1).2.gf shiftMem
        = some m' ∧
      (∀ f i, f < 4 → i < 5 - 2 →
        ∃ x, shiftMem.v_cache[f * 8 + (i + 2)]? = some x ∧ m'.v_cache[f * 8 + i]? = some x) ∧
      (∀ f c, f < 4 → 5 - 2 ≤ c → c < 8 →
        m'.v_cache[f * 8 + c]? = shiftMem.v_cache[f * 8 + c]?) :=
  before_forward_value_compaction { scenario with shift_pending := ⟨2, 5⟩ } 4 3 1 2 5
    shiftMem rfl (by decide) (by decide) (by decide) ⟨by decide, by decide⟩

/-- C9: when a shift `s > 0` is pending and `remain = total - s` is 0, `before_forward`
queues no copy (the graph is returned as it was, so running what was queued leaves the
key and value buffers unchanged) and still clears the pending shift. -/
theorem before_forward_nothing_remains {α : Type} (self : BaseAttention)
    (ctx : ForwardContext) (kv_hidden_size n_past qlen : Nat) (m : Mem α)
    (hs : 0 < self.shift_pending.shift)
    (hremain : self.shift_pending.total - self.shift_pending.shift = 0) :
    (self.before_forward ctx kv_hidden_size n_past qlen).2 = ctx ∧
    ggml_graph_compute (self.before_forward ⟨[]⟩ kv_hidden_size n_past qlen).2.gf m
      = some m ∧
    (self.before_forward ctx kv_hidden_size n_past qlen).1.shift_pending =
      self.shift_pending.clear ∧
    (self.before_forward ctx kv_hidden_size n_past qlen).1.shift_pending.shift = 0 := by
  simp [BaseAttention.before_forward, hs, hremain, ShiftPending.clear, ggml_graph_compute]

/-- Instance on the scenario: all five cached tokens evicted. -/
theorem before_forward_nothing_remains_witness :
    ({ scenario with shift_pending := ⟨5, 5⟩ }.before_forward ⟨[]⟩ 4 0 1).2 = ⟨[]⟩ ∧
    ggml_graph_compute
      ({ scenario with shift_pending := ⟨5, 5⟩ }.before_forward ⟨[]⟩ 4 0 1).2.gf shiftMem
      = some shiftMem ∧
    ({ scenario with shift_pending := ⟨5, 5⟩ }.before_forward ⟨[]⟩ 4 0 1).1.shift_pending =
      ShiftPending.clear ⟨5, 5⟩ ∧
    ({ scenario with shift_pending := ⟨5, 5⟩ }.before_forward ⟨[]⟩ 4 0 1).1.shift_pending.shift
      = 0 :=
  before_forward_nothing_remains { scenario with shift_pending := ⟨5, 5⟩ } ⟨[]⟩ 4 0 1
    shiftMem (by decide) (by decide)

/-! ## The pending shift is consumed once -/

/-- A pending shift is cleared by `before_forward`. -/
theorem before_forward_shift_zero (self : BaseAttention) (ctx : ForwardContext)
    (kvh n_past qlen : Nat) (hs : 0 < self.shift_pending.shift) :
    (self.before_forward ctx kvh n_past qlen).1.shift_pending.shift = 0 := by
  simp [BaseAttention.before_forward, hs, ShiftPending.clear]

/-- Without a pending shift `before_forward` queues nothing. -/
theorem before_forward_idle (self : BaseAttention) (ctx : ForwardContext)
    (kvh n_past qlen : Nat) (hs : ¬ 0 < self.shift_pending.shift) :
    (self.before_forward ctx kvh n_past qlen).2 = ctx := by
  simp [BaseAttention.before_forward, hs]

/-- A pending shift is cleared by the shift block of `GLMSelfAttention::forward`. -/
theorem glm_forward_shift_zero (self : GLMSelfAttention) (ctx : ForwardContext)
    (hidden_size n_past qlen : Nat) (hh : 0 < self.num_attention_heads)
    (hs : 0 < self.shift_pending.shift) :
    ∃ r, self.forward_shift ctx hidden_size n_past qlen = some r ∧
      r.1.shift_pending.shift = 0 ∧ r.1.num_attention_heads = self.num_attention_heads := by
  have h0 : self.num_attention_heads ≠ 0 := by omega
  simp [GLMSelfAttention.forward_shift, idiv, h0, hs, ShiftPending.clear]

/-- Without a pending shift the block of `GLMSelfAttention::forward` queues nothing. -/
theorem glm_forward_shift_idle (self : GLMSelfAttention) (ctx : ForwardContext)
    (hidden_size n_past qlen : Nat) (hh : 0 < self.num_attention_heads)
    (hs : ¬ 0 < self.shift_pending.shift) :
    ∃ r, self.forward_shift ctx hidden_size n_past qlen = some r ∧ r.2 = ctx ∧
      r.1.shift_pending = self.shift_pending := by
  have h0 : self.num_attention_heads ≠ 0 := by omega
  simp [GLMSelfAttention.forward_shift, idiv, h0, hs]

/-- A pending shift is cleared by the shift block of `GLM2SelfAttention::forward`. -/
theorem glm2_forward_shift_zero (self : GLM2SelfAttention) (ctx : ForwardContext)
    (hidden_size n_past qlen : Nat) (hh : 0 < self.num_attention_heads)
    (hkv : 0 < self.num_kv_heads) (hs : 0 < self.shift_pending.shift) :
    ∃ r, self.forward_shift ctx hidden_size n_past qlen = some r ∧
      r.1.shift_pending.shift = 0 ∧ r.1.num_attention_heads = self.num_attention_heads ∧
      r.1.num_kv_heads = self.num_kv_heads := by
  have h0 : self.num_attention_heads ≠ 0 := by omega
  have h1 : self.num_kv_heads ≠ 0 := by omega
  simp [GLM2SelfAttention.forward_shift, idiv, h0, h1, hs, ShiftPending.clear]

/-- Without a pending shift the block of `GLM2SelfAttention::forward` queues nothing. -/
theorem glm2_forward_shift_idle (self : GLM2SelfAttention) (ctx : ForwardContext)
    (hidden_size n_past qlen : Nat) (hh : 0 < self.num_attention_heads)
    (hkv : 0 < self.num_kv_heads) (hs : ¬ 0 < self.shift_pending.shift) :
    ∃ r, self.forward_shift ctx hidden_size n_past qlen = some r ∧ r.2 = ctx ∧
      r.1.shift_pending = self.shift_pending := by
  have h0 : self.num_attention_heads ≠ 0 := by omega
  have h1 : self.num_kv_heads ≠ 0 := by omega
  simp [GLM2SelfAttention.forward_shift, idiv, h0, h1, hs]

/-- C8: the pending shift is consumed exactly once. From a state with
`shift_pending.shift > 0`, `BaseAttention::before_forward` and the shift blocks of
`GLMSelfAttention::forward` and `GLM2SelfAttention::forward` return with the pending
discard count 0 (so not in a pending state), and the same code run again on the returned
state, without a new shift request, queues nothing: it returns the graph it was given. -/
theorem shift_pending_consumed_once (self : BaseAttention) (glm : GLMSelfAttention)
    (glm2 : GLM2SelfAttention) (ctx ctx2 : ForwardContext)
    (kv_hidden_size hidden_size n_past qlen n_past2 qlen2 : Nat)
    (hs : 0 < self.shift_pending.shift)
    (hglm : 0 < glm.num_attention_heads) (hsglm : 0 < glm.shift_pending.shift)
    (hglm2 : 0 < glm2.num_attention_heads) (hkv2 : 0 < glm2.num_kv_heads)
    (hsglm2 : 0 < glm2.shift_pending.shift) :
    ((self.before_forward ctx kv_hidden_size n_past qlen).1.shift_pending.shift = 0 ∧
      ((self.before_forward ctx kv_hidden_size n_past qlen).1.before_forward ctx2
        kv_hidden_size n_past2 qlen2).2 = ctx2) ∧
    (∃ r, glm.forward_shift ctx hidden_size n_past qlen = some r ∧
      r.1.shift_pending.shift = 0 ∧
      ∃ r2, r.1.forward_shift ctx2 hidden_size n_past2 qlen2 = some r2 ∧ r2.2 = ctx2) ∧
    (∃ r, glm2.forward_shift ctx hidden_size n_past qlen = some r ∧
      r.1.shift_pending.shift = 0 ∧
      ∃ r2, r.1.forward_shift ctx2 hidden_size n_past2 qlen2 = some r2 ∧ r2.2 = ctx2) := by
  refine ⟨⟨before_forward_shift_zero self ctx _ _ _ hs, ?_⟩, ?_, ?_⟩
  · apply before_forward_idle
    rw [before_forward_shift_zero self ctx _ _ _ hs]
    decide
  · obtain ⟨r, hr, hz, hn⟩ := glm_forward_shift_zero glm ctx hidden_size n_past qlen hglm hsglm
    obtain ⟨r2, hr2, hc, -⟩ := glm_forward_shift_idle r.1 ctx2 hidden_size n_past2 qlen2
      (by rw [hn]; exact hglm) (by rw [hz]; decide)
    exact ⟨r, hr, hz, r2, hr2, hc⟩
  · obtain ⟨r, hr, hz, hn, hk⟩ :=
      glm2_forward_shift_zero glm2 ctx hidden_size n_past qlen hglm2 hkv2 hsglm2
    obtain ⟨r2, hr2, hc, -⟩ := glm2_forward_shift_idle r.1 ctx2 hidden_size n_past2 qlen2
      (by rw [hn]; exact hglm2) (by rw [hk]; exact hkv2) (by rw [hz]; decide)
    exact ⟨r, hr, hz, r2, hr2, hc⟩

/-- Instance on the three scenario layers, each with the shift `(2, 5)` pending. -/
theorem shift_pending_consumed_once_witness :
    (0 < ({ scenario with shift_pending := ⟨2, 5⟩ } : BaseAttention).shift_pending.shift ∧
      0 < glmScenario.shift_pending.shift ∧ 0 < glm2Scenario.shift_pending.shift) ∧
    ((({ scenario with shift_pending := ⟨2, 5⟩ } : BaseAttention).before_forward
        ⟨[]⟩ 4 3 1).1.shift_pending.shift = 0 ∧
      ((({ scenario with shift_pending := ⟨2, 5⟩ } : BaseAttention).before_forward
        ⟨[]⟩ 4 3 1).1.before_forward ⟨[]⟩ 4 4 1).2 = ⟨[]⟩) ∧
    (∃ r, glmScenario.forward_shift ⟨[]⟩ 8 3 1 = some r ∧
      r.1.shift_pending.shift = 0 ∧
      ∃ r2, r.1.forward_shift ⟨[]⟩ 8 4 1 = some r2 ∧ r2.2 = ⟨[]⟩) ∧
    (∃ r, glm2Scenario.forward_shift ⟨[]⟩ 8 3 1 = some r ∧
      r.1.shift_pending.shift = 0 ∧
      ∃ r2, r.1.forward_shift ⟨[]⟩ 8 4 1 = some r2 ∧ r2.2 = ⟨[]⟩) :=
  ⟨⟨by decide, by decide, by decide⟩,
    shift_pending_consumed_once { scenario with shift_pending := ⟨2, 5⟩ } glmScenario
      glm2Scenario ⟨[]⟩ ⟨[]⟩ 4 8 3 1 4 1 (by decide) (by decide) (by decide) (by decide)
      (by decide) (by decide)⟩

/-! ## The cache range read by `cross_attention` -/

/-- Element `(i0, i1, i2)` of an `A` by `B` by `C` tensor has the logical index
`i0 + A * (i1 + B * i2)`. -/
theorem radix3 {A B C i0 i1 i2 : Nat} (h0 : i0 < A) (h1 : i1 < B) (h2 : i2 < C) :
    i0 + A * (i1 + B * i2) < A * B * C ∧
    (i0 + A * (i1 + B * i2)) % A = i0 ∧
    (i0 + A * (i1 + B * i2)) / A % B = i1 ∧
    (i0 + A * (i1 + B * i2)) / (A * B) % C = i2 ∧
    (i0 + A * (i1 + B * i2)) / (A * B * C) = 0 := by
  have hA : 0 < A := by omega
  have hB : 0 < B := by omega
  have hdivA : (i0 + A * (i1 + B * i2)) / A = i1 + B * i2 := by
    rw [Nat.add_mul_div_left _ _ hA, Nat.div_eq_of_lt h0, Nat.zero_add]
  have hdivB : (i1 + B * i2) / B = i2 := by
    rw [Nat.add_mul_div_left _ _ hB, Nat.div_eq_of_lt h1, Nat.zero_add]
  have hlt : i0 + A * (i1 + B * i2) < A * B * C := by
    have h3 : i1 + B * i2 + 1 ≤ B * C := by
      have : B * (i2 + 1) ≤ B * C := Nat.mul_le_mul_left B h2
      have e : B * (i2 + 1) = B * i2 + B := by ring
      omega
    have h4 : A * (i1 + B * i2 + 1) ≤ A * (B * C) := Nat.mul_le_mul_left A h3
    have e : A * (i1 + B * i2 + 1) = A * (i1 + B * i2) + A := by ring
    have e2 : A * (B * C) = A * B * C := by ring
    omega
  refine ⟨hlt, ?_, ?_, ?_, ?_⟩
  · rw [Nat.add_mul_mod_self_left, Nat.mod_eq_of_lt h0]
  · rw [hdivA, Nat.add_mul_mod_self_left, Nat.mod_eq_of_lt h1]
  · rw [← Nat.div_div_eq_div_mul, hdivA, hdivB, Nat.mod_eq_of_lt h2]
  · exact Nat.div_eq_of_lt hlt

/-- The positions read through a three dimensional tensor are those of its elements
`(i0, i1, i2)`. -/
theorem Tensor.mem_addrs_3d (t : Tensor) (h3 : t.ne3 = 1) (p : Nat) :
    p ∈ t.addrs ↔
      ∃ i0 i1 i2, i0 < t.ne0 ∧ i1 < t.ne1 ∧ i2 < t.ne2 ∧ p = t.index i0 i1 i2 0 := by
  simp only [Tensor.addrs, List.mem_map, List.mem_range, Tensor.nelements, h3, Nat.mul_one]
  constructor
  · rintro ⟨e, he, rfl⟩
    have hA : 0 < t.ne0 := Nat.pos_of_ne_zero (fun h => by rw [h] at he; simp at he)
    have hB : 0 < t.ne1 := Nat.pos_of_ne_zero (fun h => by rw [h] at he; simp at he)
    have hC : 0 < t.ne2 := Nat.pos_of_ne_zero (fun h => by rw [h] at he; simp at he)
    refine ⟨e % t.ne0, e / t.ne0 % t.ne1, e / (t.ne0 * t.ne1) % t.ne2,
      Nat.mod_lt _ hA, Nat.mod_lt _ hB, Nat.mod_lt _ hC, ?_⟩
    simp only [Tensor.addr, Nat.div_eq_of_lt he]
  · rintro ⟨i0, i1, i2, h0, h1, h2, rfl⟩
    obtain ⟨hlt, e0, e1, e2, e3⟩ := radix3 h0 h1 h2
    refine ⟨i0 + t.ne0 * (i1 + t.ne1 * i2), hlt, ?_⟩
    simp only [Tensor.addr, e0, e1, e2, e3]

/-- With `K` dividing `H` dividing `hidden`, `kv_hidden_size` is `head_size * K`. -/
theorem kv_hidden_size_eq {hidden H K : Nat} (hH : 0 < H) (hK : 0 < K) (h1 : H % K = 0)
    (h2 : hidden % H = 0) : hidden / (H / K) = hidden / H * K := by
  obtain ⟨r, rfl⟩ := Nat.dvd_of_mod_eq_zero h1
  obtain ⟨d, rfl⟩ := Nat.dvd_of_mod_eq_zero h2
  have hr : 0 < r := Nat.pos_of_ne_zero (fun h => by subst h; simp at hH)
  rw [Nat.mul_div_cancel_left r hK, Nat.mul_div_cancel_left d hH]
  have e : K * r * d = r * (d * K) := by ring
  rw [e, Nat.mul_div_cancel_left _ hr]

/-- C4: the cache range `cross_attention` reads for scoring is exactly the valid range
`[0, n_past + qlen)`. For a configuration with `num_kv_heads` dividing
`num_attention_heads` dividing `hidden_size`, both read views are built, the key view
reads exactly the first `(n_past + qlen) * kv_hidden_size` elements of the key buffer,
and the value view reads exactly the columns `c < n_past + qlen` of every feature row
`f < kv_hidden_size`, rows lying `max_length` elements apart. -/
theorem cross_attention_reads_valid_range (self : BaseAttention)
    (hidden_size n_past qlen : Nat)
    (hH : 0 < self.num_attention_heads) (hK : 0 < self.num_kv_heads)
    (h1 : self.num_attention_heads % self.num_kv_heads = 0)
    (h2 : hidden_size % self.num_attention_heads = 0) :
    ∃ key_layer value_layer,
      self.cross_attention_key_layer hidden_size n_past qlen = some key_layer ∧
      self.cross_attention_value_layer hidden_size n_past qlen = some value_layer ∧
      key_layer.buf = BufId.k_cache ∧ value_layer.buf = BufId.v_cache ∧
      (∀ p, p ∈ key_layer.addrs ↔
        p < (n_past + qlen) * (hidden_size / (self.num_attention_heads / self.num_kv_heads))) ∧
      (∀ p, p ∈ value_layer.addrs ↔
        ∃ f c, f < hidden_size / (self.num_attention_heads / self.num_kv_heads) ∧
          c < n_past + qlen ∧ p = f * self.max_length + c) := by
  have hkvh := kv_hidden_size_eq hH hK h1 h2
  have hH0 : self.num_attention_heads ≠ 0 := by omega
  have hK0 : self.num_kv_heads ≠ 0 := by omega
  have hrep : self.num_attention_heads / self.num_kv_heads ≠ 0 := by
    obtain ⟨r, hr⟩ := Nat.dvd_of_mod_eq_zero h1
    rw [hr, Nat.mul_div_cancel_left r hK]
    intro h; subst h; simp at hr; omega
  generalize hhs : hidden_size / self.num_attention_heads = hs at hkvh
  generalize hL : n_past + qlen = L
  refine ⟨{ buf := BufId.k_cache, ne0 := hs, ne1 := L, ne2 := self.num_kv_heads, ne3 := 1,
            nb0 := 1, nb1 := hs * self.num_kv_heads, nb2 := hs,
            nb3 := hs * self.num_kv_heads * L, offs := 0 },
    ggml_view_3d v_cache L hs self.num_kv_heads self.max_length (self.max_length * hs) 0,
    ?_, ?_, rfl, rfl, ?_, ?_⟩
  · have e : L * (hs * self.num_kv_heads) = hs * self.num_kv_heads * L := Nat.mul_comm _ _
    simp [BaseAttention.cross_attention_key_layer, idiv, hH0, hrep, hK0, hkvh, hhs, hL,
      ggml_reshape_3d, ggml_is_contiguous, ggml_view_1d, ggml_permute_0213, Tensor.nelements,
      k_cache, e]
  · simp [BaseAttention.cross_attention_value_layer, idiv, hH0, hhs, hL]
  · intro p
    rw [Tensor.mem_addrs_3d _ rfl, hkvh]
    simp only [Tensor.index]
    constructor
    · rintro ⟨i0, i1, i2, h0, h1, h2, rfl⟩
      have h3 := @mul_add_lt_mul i0 i2 hs self.num_kv_heads h0 h2
      have h4 := @mul_add_lt_mul (i2 * hs + i0) i1 (hs * self.num_kv_heads) L h3 h1
      have e : L * (hs * self.num_kv_heads) = hs * self.num_kv_heads * L := Nat.mul_comm _ _
      omega
    · intro hp
      have e : L * (hs * self.num_kv_heads) = hs * self.num_kv_heads * L := Nat.mul_comm _ _
      have hpos : 0 < hs * self.num_kv_heads :=
        Nat.pos_of_ne_zero (fun h => by rw [h] at hp; simp at hp)
      have hhs0 : 0 < hs := Nat.pos_of_ne_zero (fun h => by rw [h] at hpos; simp at hpos)
      have hr : p % (hs * self.num_kv_heads) < hs * self.num_kv_heads := Nat.mod_lt _ hpos
      refine ⟨p % (hs * self.num_kv_heads) % hs, p / (hs * self.num_kv_heads),
        p % (hs * self.num_kv_heads) / hs, Nat.mod_lt _ hhs0,
        Nat.div_lt_of_lt_mul (by omega), Nat.div_lt_of_lt_mul hr, ?_⟩
      have d1 := Nat.div_add_mod p (hs * self.num_kv_heads)
      have d2 := Nat.div_add_mod (p % (hs * self.num_kv_heads)) hs
      have c1 : p / (hs * self.num_kv_heads) * (hs * self.num_kv_heads) =
          hs * self.num_kv_heads * (p / (hs * self.num_kv_heads)) := Nat.mul_comm _ _
      have c2 : p % (hs * self.num_kv_heads) / hs * hs =
          hs * (p % (hs * self.num_kv_heads) / hs) := Nat.mul_comm _ _
      omega
  · intro p
    rw [Tensor.mem_addrs_3d _ rfl, hkvh]
    simp only [Tensor.index, ggml_view_3d, v_cache]
    constructor
    · rintro ⟨i0, i1, i2, h0, h1, h2, rfl⟩
      refine ⟨i2 * hs + i1, i0, mul_add_lt_mul h1 h2, h0, ?_⟩
      ring
    · rintro ⟨f, c, hf, hc, rfl⟩
      have hhs0 : 0 < hs := Nat.pos_of_ne_zero (fun h => by rw [h] at hf; simp at hf)
      refine ⟨c, f % hs, f / hs, hc, Nat.mod_lt _ hhs0, Nat.div_lt_of_lt_mul hf, ?_⟩
      have d := Nat.div_add_mod f hs
      calc f * self.max_length + c
          = (hs * (f / hs) + f % hs) * self.max_length + c := by rw [d]
        _ = 0 + 0 + c * 1 + f % hs * self.max_length + f / hs * (self.max_length * hs)
            + 0 * (self.max_length * hs * self.num_kv_heads) := by ring

/-- Instance on the scenario of the spec (capacity 8, two heads, one kv head, head size 4):
after `qlen = 3` at `n_past = 0` the keys of positions 0 .. 2 are read, and after `qlen
= 1` at `n_past = 3` exactly the positions 0 .. 3 of both caches, none of 4 .. 7. -/
theorem cross_attention_reads_valid_range_witness :
    (∃ key_layer value_layer,
      scenario.cross_attention_key_layer 8 3 1 = some key_layer ∧
      scenario.cross_attention_value_layer 8 3 1 = some value_layer ∧
      key_layer.buf = BufId.k_cache ∧ value_layer.buf = BufId.v_cache ∧
      (∀ p, p ∈ key_layer.addrs ↔ p < (3 + 1) * (8 / (2 / 1))) ∧
      (∀ p, p ∈ value_layer.addrs ↔ ∃ f c, f < 8 / (2 / 1) ∧ c < 3 + 1 ∧ p = f * 8 + c)) ∧
    (scenario.cross_attention_key_layer 8 0 3).map Tensor.addrs = some (List.range 12) ∧
    (scenario.cross_attention_key_layer 8 3 1).map Tensor.addrs = some (List.range 16) ∧
    (scenario.cross_attention_value_layer 8 3 1).map Tensor.addrs =
      some [0, 1, 2, 3, 8, 9, 10, 11, 16, 17, 18, 19, 24, 25, 26, 27] :=
  ⟨cross_attention_reads_valid_range scenario 8 3 1 (by decide) (by decide) (by decide)
    (by decide), by decide, by decide, by decide⟩

/-! ## A shift followed by a write -/

/-- The capacity is not touched by `before_forward`. -/
theorem before_forward_max_length (self : BaseAttention) (ctx : ForwardContext)
    (kvh n_past qlen : Nat) :
    (self.before_forward ctx kvh n_past qlen).1.max_length = self.max_length := by
  unfold BaseAttention.before_forward
  simp only
  split <;> rfl

/-- The nodes of `save_to_cache` are appended to the graph and depend on the instance only
through its capacity. -/
theorem save_to_cache_gf_split (self other : BaseAttention) (ctx : ForwardContext)
    (kvh n_past qlen : Nat) (k v : Tensor) (h : self.max_length = other.max_length) :
    (self.save_to_cache ctx kvh n_past qlen k v).gf =
      ctx.gf ++ (other.save_to_cache ⟨[]⟩ kvh n_past qlen k v).gf := by
  rw [save_to_cache_gf, save_to_cache_gf, h]
  rfl

/-- C10: shift consistency. Let the cache hold `total` rows, stage the shift `(s, total)`
with `0 < s < total <= max_length`, and let `total - s + qlen <= max_length`. Running the
copies queued by `before_forward` followed by those of `save_to_cache` at
`n_past = total - s` with `qlen` new rows succeeds, and on the read range
`[0, total - s + qlen)` the key and value contents equal those of a cache that never held
the evicted prefix: a cache into which the rows `s .. total-1` (given as `kR`, `vR`) were
written at position 0, followed by the same new rows. -/
theorem shift_then_write_consistent {α : Type} (self : BaseAttention)
    (kv_hidden_size s total qlen : Nat) (m fresh : Mem α) (kR vR : List α)
    (hsp : self.shift_pending = ⟨(s : Int), (total : Int)⟩)
    (hs : 0 < s) (hst : s < total) (htot : total ≤ self.max_length)
    (hq : total - s + qlen ≤ self.max_length)
    (hal : m.Allocated self.max_length kv_hidden_size)
    (hfresh : fresh.Allocated self.max_length kv_hidden_size)
    (hk : qlen * kv_hidden_size ≤ m.k.length) (hv : qlen * kv_hidden_size ≤ m.v.length)
    (hkR : kR.length = (total - s) * kv_hidden_size)
    (hvR : vR.length = (total - s) * kv_hidden_size)
    (hkRrows : ∀ i f, i < total - s → f < kv_hidden_size →
      kR[i * kv_hidden_size + f]? = m.k_cache[(i + s) * kv_hidden_size + f]?)
    (hvRrows : ∀ i f, i < total - s → f < kv_hidden_size →
      vR[i * kv_hidden_size + f]? = m.v_cache[f * self.max_length + (i + s)]?) :
    ∃ mA mB1 mB,
      ggml_graph_compute
          ((self.before_forward ⟨[]⟩ kv_hidden_size (total - s) qlen).1.save_to_cache
            (self.before_forward ⟨[]⟩ kv_hidden_size (total - s) qlen).2
            kv_hidden_size (total - s) qlen
            (ggml_new_tensor_2d BufId.k kv_hidden_size qlen)
            (ggml_new_tensor_2d BufId.v kv_hidden_size qlen)).gf m = some mA ∧
      ggml_graph_compute
          (({ self with shift_pending := ⟨0, 0⟩ } : BaseAttention).save_to_cache ⟨[]⟩
            kv_hidden_size 0 (total - s)
            (ggml_new_tensor_2d BufId.k kv_hidden_size (total - s))
            (ggml_new_tensor_2d BufId.v kv_hidden_size (total - s))).gf
          (fresh.withInput kR vR) = some mB1 ∧
      ggml_graph_compute
          (({ self with shift_pending := ⟨0, 0⟩ } : BaseAttention).save_to_cache ⟨[]⟩
            kv_hidden_size (total - s) qlen
            (ggml_new_tensor_2d BufId.k kv_hidden_size qlen)
            (ggml_new_tensor_2d BufId.v kv_hidden_size qlen)).gf
          (mB1.withInput m.k m.v) = some mB ∧
      ∀ p f, p < total - s + qlen → f < kv_hidden_size →
        mA.k_cache[p * kv_hidden_size + f]? = mB.k_cache[p * kv_hidden_size + f]? ∧
        mA.v_cache[f * self.max_length + p]? = mB.v_cache[f * self.max_length + p]? := by
  -- path A: compaction, then the write
  obtain ⟨m1, hrun1, h1k, h1v, hal1, hk1, -, hv1, -⟩ := before_forward_run self
    kv_hidden_size (total - s) qlen s total m hsp hs hst htot hal
  obtain ⟨mA, hrunA, -, -, -, hkA, hvA, hfkA, hfvA⟩ := save_to_cache_run self kv_hidden_size
    (total - s) qlen (ggml_new_tensor_2d BufId.k kv_hidden_size qlen) m1 rfl rfl hal1
    (by rw [h1k]; exact hk) (by rw [h1v]; exact hv) hq
  -- path B: the kept rows written into a fresh cache, then the same write
  obtain ⟨mB1, hrunB1, -, -, halB1, hkB1, hvB1, -, -⟩ := save_to_cache_run
    ({ self with shift_pending := ⟨0, 0⟩ } : BaseAttention) kv_hidden_size 0 (total - s)
    (ggml_new_tensor_2d BufId.k kv_hidden_size (total - s)) (fresh.withInput kR vR)
    rfl rfl hfresh (by show _ ≤ kR.length; omega) (by show _ ≤ vR.length; omega)
    (by show 0 + (total - s) ≤ self.max_length; omega)
  obtain ⟨mB, hrunB, -, -, -, hkB, hvB, hfkB, hfvB⟩ := save_to_cache_run
    ({ self with shift_pending := ⟨0, 0⟩ } : BaseAttention) kv_hidden_size (total - s) qlen
    (ggml_new_tensor_2d BufId.k kv_hidden_size qlen) (mB1.withInput m.k m.v)
    rfl rfl halB1 hk hv hq
  refine ⟨mA, mB1, mB, ?_, hrunB1, hrunB, fun p f hp hf => ?_⟩
  · rw [save_to_cache_gf_split _ self _ _ _ _ _ _ (before_forward_max_length self _ _ _ _),
      ggml_graph_compute_append, hrun1, Option.some_bind, hrunA]
  · change mA.k_cache[_]? = mB.k_cache[_]? ∧
      mA.v_cache[f * self.max_length + p]? = mB.v_cache[f * self.max_length + p]?
    rcases Nat.lt_or_ge p (total - s) with hpr | hpr
    · -- a kept row
      have hlt := @row_lt kv_hidden_size (total - s) p f hpr hf
      have hne : ∀ t g, t < qlen → g < kv_hidden_size →
          f * self.max_length + p ≠ g * self.max_length + (total - s + t) := by
        intro t g ht _ hcon
        have h3 : p + f * self.max_length = (total - s + t) + g * self.max_length := by omega
        obtain ⟨h4, -⟩ := add_mul_inj (by omega) (by omega) h3
        omega
      have hB1k := hkB1 p f hpr hf
      have hB1v := hvB1 p f hpr hf
      rw [Nat.zero_add] at hB1k hB1v
      constructor
      · rw [hfkA _ (Or.inl hlt), hk1 p f hpr hf, hfkB _ (Or.inl hlt)]
        change _ = mB1.k_cache[_]?
        rw [hB1k]
        exact (hkRrows p f hpr hf).symm
      · rw [hfvA _ hne, hv1 f p hf hpr, hfvB _ hne]
        change _ = mB1.v_cache[_]?
        rw [hB1v]
        exact (hvRrows p f hpr hf).symm
    · -- a new row
      have hpq : p - (total - s) < qlen := by omega
      have e1 : total - s + (p - (total - s)) = p := by omega
      have hAk := hkA (p - (total - s)) f hpq hf
      have hAv := hvA (p - (total - s)) f hpq hf
      have hBk := hkB (p - (total - s)) f hpq hf
      have hBv := hvB (p - (total - s)) f hpq hf
      rw [e1] at hAk hAv hBk hBv
      constructor
      · rw [hAk, hBk, h1k]; rfl
      · rw [hAv, hBv, h1v]; rfl

/-- Instance on the scenario: five cached tokens, two evicted, one new token written. -/
theorem shift_then_write_consistent_witness :
    ∃ mA mB1 mB,
      ggml_graph_compute
          ((({ scenario with shift_pending := ⟨2, 5⟩ } : BaseAttention).before_forward
              ⟨[]⟩ 4 (5 - 2) 1).1.save_to_cache
            (({ scenario with shift_pending := ⟨2, 5⟩ } : BaseAttention).before_forward
              ⟨[]⟩ 4 (5 - 2) 1).2
            4 (5 - 2) 1 (ggml_new_tensor_2d BufId.k 4 1) (ggml_new_tensor_2d BufId.v 4 1)).gf
          shiftMem = some mA ∧
      ggml_graph_compute
          (({ ({ scenario with shift_pending := ⟨2, 5⟩ } : BaseAttention) with
              shift_pending := ⟨0, 0⟩ } : BaseAttention).save_to_cache ⟨[]⟩ 4 0 (5 - 2)
            (ggml_new_tensor_2d BufId.k 4 (5 - 2)) (ggml_new_tensor_2d BufId.v 4 (5 - 2))).gf
          (freshMem.withInput shiftRowsK shiftRowsV) = some mB1 ∧
      ggml_graph_compute
          (({ ({ scenario with shift_pending := ⟨2, 5⟩ } : BaseAttention) with
              shift_pending := ⟨0, 0⟩ } : BaseAttention).save_to_cache ⟨[]⟩ 4 (5 - 2) 1
            (ggml_new_tensor_2d BufId.k 4 1) (ggml_new_tensor_2d BufId.v 4 1)).gf
          (mB1.withInput shiftMem.k shiftMem.v) = some mB ∧
      ∀ p f, p < 5 - 2 + 1 → f < 4 →
        mA.k_cache[p * 4 + f]? = mB.k_cache[p * 4 + f]? ∧
        mA.v_cache[f * 8 + p]? = mB.v_cache[f * 8 + p]? :=
  shift_then_write_consistent { scenario with shift_pending := ⟨2, 5⟩ } 4 2 5 1 shiftMem
    freshMem shiftRowsK shiftRowsV rfl (by decide) (by decide) (by decide) (by decide)
    ⟨by decide, by decide⟩ ⟨by decide, by decide⟩ (by decide) (by decide) (by decide)
    (by decide)
    (by intro i f hi hf; interval_cases i <;> interval_cases f <;> rfl)
    (by intro i f hi hf; interval_cases i <;> interval_cases f <;> rfl)

/-! ## The order of the graph -/

/-- Queuing a tensor only appends to the graph. -/
theorem ggml_visit_parents_append (n : Node) (gf : List Node) :
    ∃ ext, ggml_visit_parents n gf = gf ++ ext := by
  induction n generalizing gf with
  | leaf l => exact ⟨[], by simp [ggml_visit_parents]⟩
  | un op a iha =>
    unfold ggml_visit_parents
    split
    · exact ⟨[], by simp⟩
    · obtain ⟨e, he⟩ := iha gf
      exact ⟨e ++ [Node.un op a], by rw [he, List.append_assoc]⟩
  | bin op a b iha ihb =>
    unfold ggml_visit_parents
    split
    · exact ⟨[], by simp⟩
    · obtain ⟨e1, he1⟩ := iha gf
      obtain ⟨e2, he2⟩ := ihb (ggml_visit_parents a gf)
      exact ⟨e1 ++ e2 ++ [Node.bin op a b], by rw [he2, he1]; simp [List.append_assoc]⟩

/-- What was queued stays queued. -/
theorem ggml_visit_parents_mono (n : Node) (gf : List Node) (x : Node) (hx : x ∈ gf) :
    x ∈ ggml_visit_parents n gf := by
  obtain ⟨e, he⟩ := ggml_visit_parents_append n gf
  rw [he]
  exact List.mem_append_left _ hx

/-- Everything queued was there before or is an operation the tensor depends on. -/
theorem ggml_visit_parents_sub (n : Node) (gf : List Node) (x : Node)
    (hx : x ∈ ggml_visit_parents n gf) : x ∈ gf ∨ x ∈ n.subnodes := by
  induction n generalizing gf with
  | leaf l => left; simpa [ggml_visit_parents] using hx
  | un op a iha =>
    unfold ggml_visit_parents at hx
    split at hx
    · exact Or.inl hx
    · rcases List.mem_append.mp hx with h | h
      · rcases iha gf h with h1 | h1
        · exact Or.inl h1
        · right; simp [Node.subnodes, h1]
      · right; simp at h; simp [Node.subnodes, h]
  | bin op a b iha ihb =>
    unfold ggml_visit_parents at hx
    split at hx
    · exact Or.inl hx
    · rcases List.mem_append.mp hx with h | h
      · rcases ihb _ h with h1 | h1
        · rcases iha gf h1 with h2 | h2
          · exact Or.inl h2
          · right; simp [Node.subnodes, h2]
        · right; simp [Node.subnodes, h1]
      · right; simp at h; simp [Node.subnodes, h]

/-- A node stays before another when the graph grows. -/
theorem Precedes.append {gf : List Node} {x y : Node} (h : Precedes gf x y) (ext : List Node) :
    Precedes (gf ++ ext) x y := by
  obtain ⟨hx, hy, hlt⟩ := h
  refine ⟨List.mem_append_left _ hx, List.mem_append_left _ hy, ?_⟩
  rw [List.indexOf_append_of_mem hx, List.indexOf_append_of_mem hy]
  exact hlt

/-- A queued node is before every node queued later. -/
theorem Precedes.of_new {gf ext : List Node} {x y : Node} (hx : x ∈ gf) (hy : y ∉ gf)
    (hy2 : y ∈ ext) : Precedes (gf ++ ext) x y := by
  refine ⟨List.mem_append_left _ hx, List.mem_append_right _ hy2, ?_⟩
  rw [List.indexOf_append_of_mem hx, List.indexOf_append_of_not_mem hy]
  have := List.indexOf_lt_length.mpr hx
  omega

/-- A node is one of the operations it depends on. -/
theorem Node.self_mem_subnodes_un (op : UnOp) (a : Node) :
    Node.un op a ∈ (Node.un op a).subnodes := by
  simp [Node.subnodes]

/-- Being depended on is transitive. -/
theorem Node.subnodes_trans (n y z : Node) (hy : y ∈ n.subnodes) (hz : z ∈ y.subnodes) :
    z ∈ n.subnodes := by
  induction n with
  | leaf l => simp [Node.subnodes] at hy
  | un op a iha =>
    simp only [Node.subnodes, List.mem_cons] at hy
    rcases hy with h | h
    · rw [h] at hz; exact hz
    · simp only [Node.subnodes, List.mem_cons]; exact Or.inr (iha h)
  | bin op a b iha ihb =>
    simp only [Node.subnodes, List.mem_cons, List.mem_append] at hy
    rcases hy with h | h | h
    · rw [h] at hz; exact hz
    · simp only [Node.subnodes, List.mem_cons, List.mem_append]; exact Or.inr (Or.inl (iha h))
    · simp only [Node.subnodes, List.mem_cons, List.mem_append]; exact Or.inr (Or.inr (ihb h))

/-- Queuing a tensor keeps the graph closed and brings in all it depends on. -/
theorem ggml_visit_parents_closed (n : Node) (gf : List Node) (hc : Closed gf) :
    Closed (ggml_visit_parents n gf) ∧ ∀ y, y ∈ n.subnodes → y ∈ ggml_visit_parents n gf := by
  induction n generalizing gf with
  | leaf l => exact ⟨by simpa [ggml_visit_parents] using hc, by simp [Node.subnodes]⟩
  | un op a iha =>
    unfold ggml_visit_parents
    split
    · rename_i hin
      exact ⟨hc, fun y hy => hc _ hin y hy⟩
    · obtain ⟨hca, hall⟩ := iha gf hc
      constructor
      · intro m hm y hy
        rcases List.mem_append.mp hm with h | h
        · exact List.mem_append_left _ (hca m h y hy)
        · simp only [List.mem_singleton] at h
          rw [h] at hy
          simp only [Node.subnodes, List.mem_cons] at hy
          rcases hy with h1 | h1
          · rw [h1]; simp
          · exact List.mem_append_left _ (hall y h1)
      · intro y hy
        simp only [Node.subnodes, List.mem_cons] at hy
        rcases hy with h1 | h1
        · rw [h1]; simp
        · exact List.mem_append_left _ (hall y h1)
  | bin op a b iha ihb =>
    unfold ggml_visit_parents
    split
    · rename_i hin
      exact ⟨hc, fun y hy => hc _ hin y hy⟩
    · obtain ⟨hca, halla⟩ := iha gf hc
      obtain ⟨hcb, hallb⟩ := ihb _ hca
      have hsub : ∀ y, y ∈ (Node.bin op a b).subnodes →
          y ∈ ggml_visit_parents b (ggml_visit_parents a gf) ++ [Node.bin op a b] := by
        intro y hy
        simp only [Node.subnodes, List.mem_cons, List.mem_append] at hy
        rcases hy with h1 | h1 | h1
        · rw [h1]; simp
        · exact List.mem_append_left _ (ggml_visit_parents_mono b _ y (halla y h1))
        · exact List.mem_append_left _ (hallb y h1)
      constructor
      · intro m hm y hy
        rcases List.mem_append.mp hm with h | h
        · exact List.mem_append_left _ (hcb m h y hy)
        · simp only [List.mem_singleton] at h
          rw [h] at hy
          exact hsub y hy
      · exact hsub
/-- Operands are queued first: a node queued by this call comes after every operation it
depends on. -/
theorem ggml_visit_parents_postorder (n : Node) (gf : List Node) (hc : Closed gf)
    (x y : Node) (hy : y ∈ ggml_visit_parents n gf) (hnew : y ∉ gf)
    (hx : x ∈ y.subnodes) (hne : x ≠ y) : Precedes (ggml_visit_parents n gf) x y := by
  induction n generalizing gf with
  | leaf l => simp [ggml_visit_parents] at hy; exact absurd hy hnew
  | un op a iha =>
    unfold ggml_visit_parents at hy ⊢
    split at hy
    · exact absurd hy hnew
    · rename_i hnin
      rw [if_neg hnin]
      by_cases hya : y ∈ ggml_visit_parents a gf
      · exact (iha gf hc hya hnew).append _
      · rcases List.mem_append.mp hy with h | h
        · exact absurd h hya
        · simp only [List.mem_singleton] at h
          subst h
          have hxa : x ∈ a.subnodes := by
            simp only [Node.subnodes, List.mem_cons] at hx
            rcases hx with h1 | h1
            · exact absurd h1 hne
            · exact h1
          exact Precedes.of_new ((ggml_visit_parents_closed a gf hc).2 x hxa) hya (by simp)
  | bin op a b iha ihb =>
    unfold ggml_visit_parents at hy ⊢
    split at hy
    · exact absurd hy hnew
    · rename_i hnin
      rw [if_neg hnin]
      obtain ⟨hca, halla⟩ := ggml_visit_parents_closed a gf hc
      obtain ⟨hcb, hallb⟩ := ggml_visit_parents_closed b _ hca
      by_cases hya : y ∈ ggml_visit_parents a gf
      · have h1 := iha gf hc hya hnew
        obtain ⟨e, he⟩ := ggml_visit_parents_append b (ggml_visit_parents a gf)
        rw [he]
        exact (h1.append e).append _
      · by_cases hyb : y ∈ ggml_visit_parents b (ggml_visit_parents a gf)
        · exact (ihb _ hca hyb hya).append _
        · rcases List.mem_append.mp hy with h | h
          · exact absurd h hyb
          · simp only [List.mem_singleton] at h
            subst h
            have hxin : x ∈ ggml_visit_parents b (ggml_visit_parents a gf) := by
              simp only [Node.subnodes, List.mem_cons, List.mem_append] at hx
              rcases hx with h1 | h1 | h1
              · exact absurd h1 hne
              · exact ggml_visit_parents_mono b _ x (halla x h1)
              · exact hallb x h1
            exact Precedes.of_new hxin hyb (by simp)
/-- A property checked by `Node.all` holds for every operation depended on. -/
theorem Node.all_subnodes (P : Node → Bool) (n : Node) (h : n.all P = true) (x : Node)
    (hx : x ∈ n.subnodes) : P x = true := by
  induction n with
  | leaf l => simp [Node.subnodes] at hx
  | un op a iha =>
    simp only [Node.all, Bool.and_eq_true] at h
    simp only [Node.subnodes, List.mem_cons] at hx
    rcases hx with h1 | h1
    · rw [h1]; exact h.1
    · exact iha h.2 h1
  | bin op a b iha ihb =>
    simp only [Node.all, Bool.and_eq_true] at h
    simp only [Node.subnodes, List.mem_cons, List.mem_append] at hx
    rcases hx with h1 | h1 | h1
    · rw [h1]; exact h.1.1
    · exact iha h.1.2 h1
    · exact ihb h.2 h1

/-- The instance `before_forward` returns differs only in `pos` and `shift_pending`. -/
theorem BaseSelfAttention.before_forward_fst (self : BaseSelfAttention) (ctx : GraphContext)
    (kvh n_past qlen : Nat) :
    ∃ p sp, (self.before_forward ctx kvh n_past qlen).1 =
      { self with pos := p, shift_pending := sp } := by
  unfold BaseSelfAttention.before_forward
  simp only
  split
  · exact ⟨_, _, rfl⟩
  · exact ⟨_, _, rfl⟩

/-- The graph `before_forward` builds from an empty one holds cache views and compaction
copies only, and is closed. -/
theorem BaseSelfAttention.before_forward_graph (self : BaseSelfAttention)
    (kvh n_past qlen : Nat) :
    Closed (self.before_forward ⟨[]⟩ kvh n_past qlen).2.gf ∧
    ∀ x, x ∈ (self.before_forward ⟨[]⟩ kvh n_past qlen).2.gf →
      x.isCacheWrite = false ∧ x.isCacheProduct = false := by
  have hnil : Closed [] := fun n hn => by simp at hn
  unfold BaseSelfAttention.before_forward
  simp only
  split
  · split
    · simp only [GraphContext.build_forward_expand]
      constructor
      · exact (ggml_visit_parents_closed _ _ (ggml_visit_parents_closed _ _ hnil).1).1
      · intro x hx
        rcases ggml_visit_parents_sub _ _ _ hx with h | h
        · rcases ggml_visit_parents_sub _ _ _ h with h2 | h2
          · simp at h2
          · simp [Node.subnodes] at h2
            rcases h2 with h3 | h3 | h3 <;> subst h3 <;>
              simp [Node.isCacheWrite, Node.isCacheProduct, Node.readsCache, Node.isCacheView]
        · simp [Node.subnodes] at h
          rcases h with h3 | h3 | h3 <;> subst h3 <;>
            simp [Node.isCacheWrite, Node.isCacheProduct, Node.readsCache, Node.isCacheView]
    · exact ⟨hnil, fun x hx => by simp at hx⟩
  · exact ⟨hnil, fun x hx => by simp at hx⟩
/-- The graph of one attention call: the nodes of `before_forward`, then what the two
cache writes bring in, then what the returned tensor brings in. -/
theorem forward_graph_eq (self : BaseSelfAttention) (hidden_size qlen n_past : Nat)
    (hH : 0 < self.num_attention_heads) (hK : 0 < self.num_kv_heads)
    (hrep : self.num_kv_heads ≤ self.num_attention_heads) :
    self.forward_graph hidden_size qlen n_past = some
      (ggml_visit_parents
        (self.attn_output hidden_size qlen n_past (hidden_size / self.num_attention_heads)
          (hidden_size / (self.num_attention_heads / self.num_kv_heads)))
        (ggml_visit_parents
          (self.value_write qlen n_past
            (hidden_size / (self.num_attention_heads / self.num_kv_heads)))
          (ggml_visit_parents
            (self.key_write hidden_size qlen n_past (hidden_size / self.num_attention_heads)
              (hidden_size / (self.num_attention_heads / self.num_kv_heads)))
            (self.before_forward ⟨[]⟩
              (hidden_size / (self.num_attention_heads / self.num_kv_heads))
              n_past qlen).2.gf))) := by
  have hH0 : self.num_attention_heads ≠ 0 := by omega
  have hK0 : self.num_kv_heads ≠ 0 := by omega
  have hr0 : self.num_attention_heads / self.num_kv_heads ≠ 0 := by
    have := Nat.div_pos hrep hK
    omega
  generalize hkvh : hidden_size / (self.num_attention_heads / self.num_kv_heads) = kvh
  generalize hhs : hidden_size / self.num_attention_heads = hs
  obtain ⟨p, sp, h1⟩ := self.before_forward_fst ⟨[]⟩ kvh n_past qlen
  rcases hbf : self.before_forward ⟨[]⟩ kvh n_past qlen with ⟨self1, ctx1⟩
  rw [hbf] at h1
  simp only at h1
  subst h1
  simp only [BaseSelfAttention.forward_graph, BaseSelfAttention.forward, idiv, hH0, hK0, hr0,
    if_false, Option.bind_eq_bind, Option.some_bind, hkvh, hbf, Option.pure_def,
    BaseSelfAttention.cross_attention, hhs, BaseSelfAttention.calc_attn_scores,
    BaseSelfAttention.scores_before_mask, Option.bind_some]
  rfl
/-- A projection is a product with a weight, with or without a bias added. -/
theorem projection_cases (self : BaseSelfAttention) (l : Linear) :
    self.projection l =
        Node.bin (BinOp.mul_mat self.prec) (Node.leaf (Leaf.weight l.id))
          (Node.leaf Leaf.hidden_states) ∨
    self.projection l =
        Node.bin BinOp.add_inplace
          (Node.bin (BinOp.mul_mat l.prec) (Node.leaf (Leaf.weight l.id))
            (Node.leaf Leaf.hidden_states))
          (Node.leaf (Leaf.bias l.id)) := by
  unfold BaseSelfAttention.projection Linear.forward
  cases l.has_bias <;> simp [ggml_mul_mat_set_prec, Node.ggml_mul_mat]

/-- The two copies of `save_to_cache` are cache writes, and nothing they bring into the
graph is a compaction copy or a product that reads a cache. -/
theorem writes_classified (self : BaseSelfAttention) (hidden_size qlen n_past hs kvh : Nat) :
    (self.key_write hidden_size qlen n_past hs kvh).isCacheWrite = true ∧
    (self.value_write qlen n_past kvh).isCacheWrite = true ∧
    (self.key_write hidden_size qlen n_past hs kvh).all Node.noShiftNoProduct = true ∧
    (self.value_write qlen n_past kvh).all Node.noShiftNoProduct = true := by
  unfold BaseSelfAttention.key_write BaseSelfAttention.value_write
    BaseSelfAttention.key_layer_saved
  generalize self.hooks.apply_pos_embedding_k hidden_size qlen = pk
  rcases projection_cases self self.k_proj with hk | hk <;>
  rcases projection_cases self self.v_proj with hv | hv <;>
  rw [hk, hv] <;> cases pk <;>
  simp [Node.isCacheWrite, Node.readsCache, Node.isCacheView, Node.all, Node.isCompaction,
    Node.isCacheProduct, PosOp.apply, Node.noShiftNoProduct]
/-- The score product is tagged with the precision of the instance and reads the keys. -/
theorem score_product_eq (self : BaseSelfAttention) (hidden_size qlen n_past hs kvh : Nat) :
    self.score_product hidden_size qlen n_past hs kvh =
      Node.bin (BinOp.mul_mat self.prec) (self.key_layer_read n_past qlen hs kvh)
        (Node.un (UnOp.permute 0 2 1 3)
          (self.query_layer_encoded hidden_size qlen hs (self.projection self.q_proj))) := rfl

/-- Nothing the encoded query depends on is a copy. -/
theorem query_layer_no_copy (self : BaseSelfAttention) (hidden_size qlen hs : Nat) :
    (self.query_layer_encoded hidden_size qlen hs (self.projection self.q_proj)).all
      Node.noCopy = true := by
  unfold BaseSelfAttention.query_layer_encoded
  generalize self.hooks.apply_pos_embedding_q hidden_size qlen = pq
  rcases projection_cases self self.q_proj with hq | hq <;> rw [hq] <;>
  cases pq <;> cases self.attn_scaling <;>
  simp [Node.all, Node.noCopy, Node.isCopy, PosOp.apply]

/-- Nothing the returned tensor depends on is a copy; the score product and the
weighted-sum product are among what it depends on, and both read a cache. -/
theorem output_classified (self : BaseSelfAttention) (hidden_size qlen n_past hs kvh : Nat) :
    (self.attn_output hidden_size qlen n_past hs kvh).all Node.noCopy = true ∧
    (self.score_product hidden_size qlen n_past hs kvh).isCacheProduct = true ∧
    (self.weighted_sum_product hidden_size qlen n_past hs kvh).isCacheProduct = true ∧
    self.weighted_sum_product hidden_size qlen n_past hs kvh ∈
      (self.attn_output hidden_size qlen n_past hs kvh).subnodes ∧
    self.score_product hidden_size qlen n_past hs kvh ∈
      (self.weighted_sum_product hidden_size qlen n_past hs kvh).subnodes ∧
    self.score_product hidden_size qlen n_past hs kvh ≠
      self.weighted_sum_product hidden_size qlen n_past hs kvh := by
  have hq := query_layer_no_copy self hidden_size qlen hs
  refine ⟨?_, ?_, ?_, ?_, ?_, ?_⟩
  · unfold BaseSelfAttention.attn_output BaseSelfAttention.weighted_sum_product
      BaseSelfAttention.scores_to_mask Linear.forward
    rw [score_product_eq]
    generalize self.hooks.apply_pos_embedding_kq hidden_size qlen = pkq
    cases self.o_proj.has_bias <;> cases pkq <;> cases self.attn_scaling <;>
    simp [Node.all, Node.noCopy, Node.isCopy, PosOp.apply, hq,
      ggml_mul_mat_set_prec, Node.ggml_mul_mat, BaseSelfAttention.value_layer_read,
      BaseSelfAttention.key_layer_read]
  · simp [score_product_eq, Node.isCacheProduct, BaseSelfAttention.key_layer_read,
      Node.readsCache]
  · simp [BaseSelfAttention.weighted_sum_product, Node.ggml_mul_mat, Node.isCacheProduct,
      BaseSelfAttention.value_layer_read, Node.readsCache]
  · unfold BaseSelfAttention.attn_output Linear.forward
    cases self.o_proj.has_bias <;>
    simp [Node.subnodes, ggml_mul_mat_set_prec, Node.ggml_mul_mat,
      BaseSelfAttention.weighted_sum_product]
  · unfold BaseSelfAttention.weighted_sum_product BaseSelfAttention.scores_to_mask
    generalize self.hooks.apply_pos_embedding_kq hidden_size qlen = pkq
    rw [score_product_eq]
    cases pkq <;> cases self.attn_scaling <;>
    simp [Node.subnodes, Node.ggml_mul_mat, PosOp.apply]
  · simp [score_product_eq, BaseSelfAttention.weighted_sum_product, Node.ggml_mul_mat,
      BaseSelfAttention.key_layer_read, BaseSelfAttention.value_layer_read]
/-- Compaction copies and cache writes are copies. -/
theorem Node.isCopy_of (x : Node) (h : x.isCompaction = true ∨ x.isCacheWrite = true) :
    x.isCopy = true := by
  cases x with
  | leaf l => simp [Node.isCompaction, Node.isCacheWrite] at h
  | un op a => simp [Node.isCompaction, Node.isCacheWrite] at h
  | bin op a b =>
    cases op <;> simp [Node.isCompaction, Node.isCacheWrite, Node.isCopy] at h ⊢

/-- Nodes of three successive stages of a graph: a node of the first stage is before a
node that only the second stage has, also after the third stage was added. -/
theorem Precedes.of_stages {g1 e1 e2 : List Node} {x y : Node} (hx : x ∈ g1) (hy : y ∉ g1)
    (hy2 : y ∈ g1 ++ e1) : Precedes (g1 ++ e1 ++ e2) x y := by
  have hye : y ∈ e1 := by
    rcases List.mem_append.mp hy2 with h | h
    · exact absurd h hy
    · exact h
  exact (Precedes.of_new hx hy hye).append e2

/-- C11: the order within one `BaseSelfAttention::forward` call. In the complete graph of
the call every shift-compaction copy comes before every copy that writes new key or value
rows into a cache, and every such write comes before every product that reads a cache;
the key write, the value write, the score product and the weighted-sum product are in
the graph, in this order for the two products. -/
theorem forward_writes_before_reads (self : BaseSelfAttention)
    (hidden_size qlen n_past : Nat)
    (hH : 0 < self.num_attention_heads) (hK : 0 < self.num_kv_heads)
    (hrep : self.num_kv_heads ≤ self.num_attention_heads) :
    ∃ gf, self.forward_graph hidden_size qlen n_past = some gf ∧
      (∀ x y, x ∈ gf → y ∈ gf → x.isCompaction = true → y.isCacheWrite = true →
        Precedes gf x y) ∧
      (∀ y z, y ∈ gf → z ∈ gf → y.isCacheWrite = true → z.isCacheProduct = true →
        Precedes gf y z) ∧
      (self.key_write hidden_size qlen n_past (hidden_size / self.num_attention_heads)
          (hidden_size / (self.num_attention_heads / self.num_kv_heads)) ∈ gf ∧
        self.value_write qlen n_past
          (hidden_size / (self.num_attention_heads / self.num_kv_heads)) ∈ gf) ∧
      Precedes gf
        (self.score_product hidden_size qlen n_past (hidden_size / self.num_attention_heads)
          (hidden_size / (self.num_attention_heads / self.num_kv_heads)))
        (self.weighted_sum_product hidden_size qlen n_past
          (hidden_size / self.num_attention_heads)
          (hidden_size / (self.num_attention_heads / self.num_kv_heads))) := by
  refine ⟨_, forward_graph_eq self hidden_size qlen n_past hH hK hrep, ?_⟩
  generalize hidden_size / (self.num_attention_heads / self.num_kv_heads) = kvh
  generalize hidden_size / self.num_attention_heads = hs
  obtain ⟨hc1, hg1⟩ := self.before_forward_graph kvh n_past qlen
  generalize (self.before_forward ⟨[]⟩ kvh n_past qlen).2.gf = g1 at hc1 hg1
  obtain ⟨hwk, hwv, hak, hav⟩ := writes_classified self hidden_size qlen n_past hs kvh
  obtain ⟨hao, hsc, hsum, hsumin, hscin, hne⟩ :=
    output_classified self hidden_size qlen n_past hs kvh
  generalize self.key_write hidden_size qlen n_past hs kvh = WK at hwk hak
  generalize self.value_write qlen n_past kvh = WV at hwv hav
  generalize self.attn_output hidden_size qlen n_past hs kvh = OUT at hao hsumin
  generalize self.score_product hidden_size qlen n_past hs kvh = SC at hsc hscin hne
  generalize self.weighted_sum_product hidden_size qlen n_past hs kvh = SUM
    at hsum hsumin hscin hne
  -- the three stages of the graph
  obtain ⟨ea, hea⟩ := ggml_visit_parents_append WK g1
  obtain ⟨eb, heb⟩ := ggml_visit_parents_append WV (ggml_visit_parents WK g1)
  obtain ⟨e2, he2⟩ := ggml_visit_parents_append OUT
    (ggml_visit_parents WV (ggml_visit_parents WK g1))
  have hc2 : Closed (ggml_visit_parents WV (ggml_visit_parents WK g1)) :=
    (ggml_visit_parents_closed WV _ (ggml_visit_parents_closed WK g1 hc1).1).1
  have hstage2 : ∀ x, x ∈ ggml_visit_parents WV (ggml_visit_parents WK g1) →
      x ∈ g1 ∨ x.noShiftNoProduct = true := by
    intro x hx
    rcases ggml_visit_parents_sub _ _ _ hx with h | h
    · rcases ggml_visit_parents_sub _ _ _ h with h1 | h1
      · exact Or.inl h1
      · exact Or.inr (Node.all_subnodes _ WK hak x h1)
    · exact Or.inr (Node.all_subnodes _ WV hav x h)
  have hstage3 : ∀ x, x ∈ ggml_visit_parents OUT
      (ggml_visit_parents WV (ggml_visit_parents WK g1)) →
      x ∈ ggml_visit_parents WV (ggml_visit_parents WK g1) ∨ x.noCopy = true := by
    intro x hx
    rcases ggml_visit_parents_sub _ _ _ hx with h | h
    · exact Or.inl h
    · exact Or.inr (Node.all_subnodes _ OUT hao x h)
  have hshift : ∀ x, x ∈ ggml_visit_parents OUT
      (ggml_visit_parents WV (ggml_visit_parents WK g1)) → x.isCompaction = true →
      x ∈ g1 := by
    intro x hx hxc
    rcases hstage3 x hx with h | h
    · rcases hstage2 x h with h1 | h1
      · exact h1
      · simp [Node.noShiftNoProduct, hxc] at h1
    · simp [Node.noCopy, Node.isCopy_of x (Or.inl hxc)] at h
  have hwrite : ∀ y, y ∈ ggml_visit_parents OUT
      (ggml_visit_parents WV (ggml_visit_parents WK g1)) → y.isCacheWrite = true →
      y ∈ ggml_visit_parents WV (ggml_visit_parents WK g1) ∧ y ∉ g1 := by
    intro y hy hyw
    constructor
    · rcases hstage3 y hy with h | h
      · exact h
      · simp [Node.noCopy, Node.isCopy_of y (Or.inr hyw)] at h
    · intro h
      have := (hg1 y h).1
      simp [hyw] at this
  have hprod : ∀ z, z.isCacheProduct = true →
      z ∉ ggml_visit_parents WV (ggml_visit_parents WK g1) := by
    intro z hz h
    rcases hstage2 z h with h1 | h1
    · have := (hg1 z h1).2
      simp [hz] at this
    · simp [Node.noShiftNoProduct, hz] at h1
  have hg2 : ggml_visit_parents WV (ggml_visit_parents WK g1) = g1 ++ (ea ++ eb) := by
    rw [heb, hea, List.append_assoc]
  refine ⟨?_, ?_, ⟨?_, ?_⟩, ?_⟩
  · intro x y hx hy hxc hyw
    obtain ⟨hy2, hy1⟩ := hwrite y hy hyw
    have hx1 := hshift x hx hxc
    rw [he2, hg2]
    rw [hg2] at hy2
    exact Precedes.of_stages hx1 hy1 hy2
  · intro y z hy hz hyw hzp
    obtain ⟨hy2, -⟩ := hwrite y hy hyw
    have hz2 := hprod z hzp
    rw [he2] at hz ⊢
    rcases List.mem_append.mp hz with h | h
    · exact absurd h hz2
    · exact Precedes.of_new hy2 hz2 h
  · apply ggml_visit_parents_mono
    apply ggml_visit_parents_mono
    refine (ggml_visit_parents_closed WK g1 hc1).2 WK ?_
    cases WK <;> simp [Node.isCacheWrite] at hwk
    simp [Node.subnodes]
  · apply ggml_visit_parents_mono
    refine (ggml_visit_parents_closed WV _ (ggml_visit_parents_closed WK g1 hc1).1).2 WV ?_
    cases WV <;> simp [Node.isCacheWrite] at hwv
    simp [Node.subnodes]
  · have hsum3 := (ggml_visit_parents_closed OUT _ hc2).2 SUM hsumin
    exact ggml_visit_parents_postorder OUT _ hc2 SC SUM hsum3 (hprod SUM hsum) hscin hne
/-- A value in the range of `int` is not changed by the wrap-around. -/
theorem int32_eq_self (x : Int) (h1 : -2147483648 ≤ x) (h2 : x < 2147483648) :
    int32 x = x := by
  unfold int32
  omega

/-- The loop of `fill_pos_vector` stores the `int` sum `n_past + i` at every `i < qlen` and
leaves the rest of the storage as it was. -/
theorem fill_pos_loop_apply (n_past qlen : Nat) (p : Nat → Int) (i : Nat) :
    fill_pos_loop n_past qlen p i =
      if i < qlen then int32 ((n_past : Int) + (i : Int)) else p i := by
  induction qlen with
  | zero => simp [fill_pos_loop]
  | succ q ih =>
    simp only [fill_pos_loop, Function.update_apply]
    by_cases h : i = q
    · subst h; simp
    · rw [if_neg h, ih]
      by_cases h2 : i < q
      · rw [if_pos h2, if_pos (by omega)]
      · rw [if_neg h2, if_neg (by omega)]

/-- The position tensor after `before_forward`. -/
theorem BaseSelfAttention.before_forward_pos (self : BaseSelfAttention) (ctx : GraphContext)
    (kvh n_past qlen : Nat) :
    (self.before_forward ctx kvh n_past qlen).1.pos = fill_pos_vector self.pos n_past qlen := by
  unfold BaseSelfAttention.before_forward
  simp only
  split <;> rfl

/-- Instance on `scenarioLayer` (one token at `n_past = 3` with the shift `(2, 5)`
pending): the graph holds two compaction copies, two cache writes and two products that
read a cache. -/
theorem forward_writes_before_reads_witness :
    (∃ gf, scenarioLayer.forward_graph 8 1 3 = some gf ∧
      (∀ x y, x ∈ gf → y ∈ gf → x.isCompaction = true → y.isCacheWrite = true →
        Precedes gf x y) ∧
      (∀ y z, y ∈ gf → z ∈ gf → y.isCacheWrite = true → z.isCacheProduct = true →
        Precedes gf y z) ∧
      (scenarioLayer.key_write 8 1 3 (8 / 2) (8 / (2 / 1)) ∈ gf ∧
        scenarioLayer.value_write 1 3 (8 / (2 / 1)) ∈ gf) ∧
      Precedes gf (scenarioLayer.score_product 8 1 3 (8 / 2) (8 / (2 / 1)))
        (scenarioLayer.weighted_sum_product 8 1 3 (8 / 2) (8 / (2 / 1)))) ∧
    (scenarioLayer.forward_graph 8 1 3).map (fun gf =>
      ((gf.filter Node.isCompaction).length, (gf.filter Node.isCacheWrite).length,
        (gf.filter Node.isCacheProduct).length)) = some (2, 2, 2) :=
  ⟨forward_writes_before_reads scenarioLayer 8 1 3 (by decide) (by decide) (by decide),
    by decide⟩
/-- The two cache writes and the two products are nodes of the graph of a call. -/
theorem forward_graph_members (self : BaseSelfAttention) (hidden_size qlen n_past : Nat)
    (hH : 0 < self.num_attention_heads) (hK : 0 < self.num_kv_heads)
    (hrep : self.num_kv_heads ≤ self.num_attention_heads) :
    ∃ gf, self.forward_graph hidden_size qlen n_past = some gf ∧
      self.key_write hidden_size qlen n_past (hidden_size / self.num_attention_heads)
        (hidden_size / (self.num_attention_heads / self.num_kv_heads)) ∈ gf ∧
      self.value_write qlen n_past
        (hidden_size / (self.num_attention_heads / self.num_kv_heads)) ∈ gf ∧
      self.score_product hidden_size qlen n_past (hidden_size / self.num_attention_heads)
        (hidden_size / (self.num_attention_heads / self.num_kv_heads)) ∈ gf ∧
      self.weighted_sum_product hidden_size qlen n_past
        (hidden_size / self.num_attention_heads)
        (hidden_size / (self.num_attention_heads / self.num_kv_heads)) ∈ gf := by
  refine ⟨_, forward_graph_eq self hidden_size qlen n_past hH hK hrep, ?_⟩
  generalize hidden_size / (self.num_attention_heads / self.num_kv_heads) = kvh
  generalize hidden_size / self.num_attention_heads = hs
  obtain ⟨hc1, -⟩ := self.before_forward_graph kvh n_past qlen
  generalize (self.before_forward ⟨[]⟩ kvh n_past qlen).2.gf = g1 at hc1
  obtain ⟨-, -, -, hsumin, hscin, -⟩ := output_classified self hidden_size qlen n_past hs kvh
  have hca := ggml_visit_parents_closed (self.key_write hidden_size qlen n_past hs kvh) g1 hc1
  have hcb := ggml_visit_parents_closed (self.value_write qlen n_past kvh) _ hca.1
  have hcc := ggml_visit_parents_closed (self.attn_output hidden_size qlen n_past hs kvh) _
    hcb.1
  refine ⟨?_, ?_, ?_, ?_⟩
  · apply ggml_visit_parents_mono
    apply ggml_visit_parents_mono
    exact hca.2 _ (by simp [BaseSelfAttention.key_write, Node.subnodes])
  · apply ggml_visit_parents_mono
    exact hcb.2 _ (by simp [BaseSelfAttention.value_write, Node.subnodes])
  · exact hcc.2 _ (Node.subnodes_trans _ _ _ hsumin hscin)
  · exact hcc.2 _ hsumin
/-- C12, as the code has it: keys are cached post-rotation. In the graph of one `forward`
call (a) the copy that writes the keys takes the output of `apply_pos_embedding_k`, applied
to the reshaped key projection and the position tensor, which holds `n_past .. n_past +
qlen - 1`; (b) the score product reads the keys through views of `k_cache` only, with no
positional method applied; (c) the copy that writes the values takes the transposed value
projection with no positional method applied; (d) running the copies of `save_to_cache`
puts element `f` of row `t` of the tensor handed to it, the encoded key, at position
`n_past + t` of the key cache, where the score product reads it, and leaves the rows below
`n_past` as they are; and (e) the copies a pending shift `(s, total)` queues move row
`i + s` of the key cache to row `i` as it is, still encoded with the position it was
written with. The capacity is a value of the type `int`. -/
theorem keys_cached_post_rotation {α : Type} (self : BaseSelfAttention)
    (hidden_size qlen n_past : Nat) (m : Mem α)
    (hH : 0 < self.num_attention_heads) (hK : 0 < self.num_kv_heads)
    (hrep : self.num_kv_heads ≤ self.num_attention_heads)
    (hal : m.Allocated self.max_length
      (hidden_size / (self.num_attention_heads / self.num_kv_heads)))
    (hk : qlen * (hidden_size / (self.num_attention_heads / self.num_kv_heads)) ≤ m.k.length)
    (hv : qlen * (hidden_size / (self.num_attention_heads / self.num_kv_heads)) ≤ m.v.length)
    (hcap : n_past + qlen ≤ self.max_length) (hmax : self.max_length ≤ 2147483648) :
    ∃ gf, self.forward_graph hidden_size qlen n_past = some gf ∧
      Node.bin BinOp.cpy
        (Node.un (UnOp.view_1d
            (qlen * (hidden_size / (self.num_attention_heads / self.num_kv_heads))) 0)
          ((self.hooks.apply_pos_embedding_k hidden_size qlen).apply
            (Node.un (UnOp.reshape_3d (hidden_size / self.num_attention_heads)
              self.num_kv_heads qlen) (self.projection self.k_proj))
            (Node.leaf Leaf.pos)))
        (Node.un (UnOp.view_1d
            (qlen * (hidden_size / (self.num_attention_heads / self.num_kv_heads)))
            (hidden_size / (self.num_attention_heads / self.num_kv_heads) * n_past))
          (Node.leaf Leaf.k_cache)) ∈ gf ∧
      ((self.before_forward ⟨[]⟩
          (hidden_size / (self.num_attention_heads / self.num_kv_heads)) n_past qlen).1.pos.ne0
          = qlen ∧
        ∀ i, i < qlen → (self.before_forward ⟨[]⟩
          (hidden_size / (self.num_attention_heads / self.num_kv_heads)) n_past
          qlen).1.pos.data i = (n_past : Int) + (i : Int)) ∧
      Node.bin (BinOp.mul_mat self.prec)
        (Node.un (UnOp.permute 0 2 1 3)
          (Node.un (UnOp.reshape_3d (hidden_size / self.num_attention_heads)
              self.num_kv_heads (n_past + qlen))
            (Node.un (UnOp.view_1d ((n_past + qlen) *
                (hidden_size / (self.num_attention_heads / self.num_kv_heads))) 0)
              (Node.leaf Leaf.k_cache))))
        (Node.un (UnOp.permute 0 2 1 3)
          (self.query_layer_encoded hidden_size qlen
            (hidden_size / self.num_attention_heads) (self.projection self.q_proj))) ∈ gf ∧
      Node.bin BinOp.cpy (Node.un UnOp.transpose (self.projection self.v_proj))
        (Node.un (UnOp.view_2d qlen
            (hidden_size / (self.num_attention_heads / self.num_kv_heads))
            self.max_length n_past) (Node.leaf Leaf.v_cache)) ∈ gf ∧
      (∃ m', ggml_graph_compute (self.toBaseAttention.save_to_cache ⟨[]⟩
          (hidden_size / (self.num_attention_heads / self.num_kv_heads)) n_past qlen
          (ggml_new_tensor_2d BufId.k
            (hidden_size / (self.num_attention_heads / self.num_kv_heads)) qlen)
          (ggml_new_tensor_2d BufId.v
            (hidden_size / (self.num_attention_heads / self.num_kv_heads)) qlen)).gf m
          = some m' ∧
        (∀ t f, t < qlen →
          f < hidden_size / (self.num_attention_heads / self.num_kv_heads) →
          m'.k_cache[(n_past + t) *
              (hidden_size / (self.num_attention_heads / self.num_kv_heads)) + f]? =
            m.k[t * (hidden_size / (self.num_attention_heads / self.num_kv_heads)) + f]? ∧
          (n_past + t) * (hidden_size / (self.num_attention_heads / self.num_kv_heads)) + f <
            (n_past + qlen) *
              (hidden_size / (self.num_attention_heads / self.num_kv_heads))) ∧
        (∀ p, p < n_past * (hidden_size / (self.num_attention_heads / self.num_kv_heads)) →
          m'.k_cache[p]? = m.k_cache[p]?)) ∧
      (∀ s total : Nat, self.shift_pending = ⟨(s : Int), (total : Int)⟩ → 0 < s → s < total →
        total ≤ self.max_length →
        ∃ m0, ggml_graph_compute (self.toBaseAttention.before_forward ⟨[]⟩
            (hidden_size / (self.num_attention_heads / self.num_kv_heads)) n_past qlen).2.gf m
            = some m0 ∧
          ∀ i f, i < total - s →
            f < hidden_size / (self.num_attention_heads / self.num_kv_heads) →
            m0.k_cache[i * (hidden_size / (self.num_attention_heads / self.num_kv_heads))
                + f]? =
              m.k_cache[(i + s) *
                (hidden_size / (self.num_attention_heads / self.num_kv_heads)) + f]?) := by
  obtain ⟨gf, hgf, hwk, hwv, hsc, -⟩ :=
    forward_graph_members self hidden_size qlen n_past hH hK hrep
  obtain ⟨m', hrun, -, -, -, hkey, -, hframe, -⟩ := save_to_cache_run self.toBaseAttention
    (hidden_size / (self.num_attention_heads / self.num_kv_heads)) n_past qlen
    (ggml_new_tensor_2d BufId.k
      (hidden_size / (self.num_attention_heads / self.num_kv_heads)) qlen)
    m rfl rfl hal hk hv hcap
  refine ⟨gf, hgf, hwk, ⟨?_, ?_⟩, hsc, hwv,
    ⟨m', hrun, fun t f ht hf => ⟨hkey t f ht hf, ?_⟩, fun p hp => hframe p (Or.inl hp)⟩, ?_⟩
  · rw [BaseSelfAttention.before_forward_pos]; rfl
  · intro i hi
    rw [BaseSelfAttention.before_forward_pos]
    simp only [fill_pos_vector, fill_pos_loop_apply, hi, if_true]
    exact int32_eq_self _ (by omega) (by omega)
  · exact row_lt (by omega) hf
  · intro s total hsp hs hst htot
    obtain ⟨m0, hrun0, -, -, -, hmove, -, -, -⟩ := before_forward_run self.toBaseAttention
      (hidden_size / (self.num_attention_heads / self.num_kv_heads)) n_past qlen s total m
      hsp hs hst htot hal
    exact ⟨m0, hrun0, hmove⟩

/-- Instance on `scenarioLayer` and `scenarioMem`: three tokens at `n_past = 1`; the
pending shift `(2, 5)` moves the key rows 2 .. 4 to the rows 0 .. 2. -/
theorem keys_cached_post_rotation_witness :
    (0 < scenarioLayer.num_attention_heads ∧ 0 < scenarioLayer.num_kv_heads ∧
      scenarioLayer.num_kv_heads ≤ scenarioLayer.num_attention_heads ∧
      scenarioMem.Allocated scenarioLayer.max_length 4 ∧ 3 * 4 ≤ scenarioMem.k.length ∧
      3 * 4 ≤ scenarioMem.v.length ∧ 1 + 3 ≤ scenarioLayer.max_length ∧
      scenarioLayer.max_length ≤ 2147483648) ∧
    ∃ gf, scenarioLayer.forward_graph 8 3 1 = some gf ∧
      Node.bin BinOp.cpy
        (Node.un (UnOp.view_1d (3 * 4) 0)
          ((PosOp.rope_custom_inplace 4 0).apply
            (Node.un (UnOp.reshape_3d 4 1 3) (scenarioLayer.projection scenarioLayer.k_proj))
            (Node.leaf Leaf.pos)))
        (Node.un (UnOp.view_1d (3 * 4) (4 * 1)) (Node.leaf Leaf.k_cache)) ∈ gf ∧
      ((scenarioLayer.before_forward ⟨[]⟩ 4 1 3).1.pos.ne0 = 3 ∧
        ∀ i, i < 3 →
          (scenarioLayer.before_forward ⟨[]⟩ 4 1 3).1.pos.data i = ((1 : Nat) : Int) + (i : Int)) ∧
      Node.bin (BinOp.mul_mat ggml_prec.GGML_PREC_F32)
        (Node.un (UnOp.permute 0 2 1 3)
          (Node.un (UnOp.reshape_3d 4 1 (1 + 3))
            (Node.un (UnOp.view_1d ((1 + 3) * 4) 0) (Node.leaf Leaf.k_cache))))
        (Node.un (UnOp.permute 0 2 1 3)
          (scenarioLayer.query_layer_encoded 8 3 4
            (scenarioLayer.projection scenarioLayer.q_proj))) ∈ gf ∧
      Node.bin BinOp.cpy
        (Node.un UnOp.transpose (scenarioLayer.projection scenarioLayer.v_proj))
        (Node.un (UnOp.view_2d 3 4 8 1) (Node.leaf Leaf.v_cache)) ∈ gf ∧
      (∃ m', ggml_graph_compute (scenarioLayer.toBaseAttention.save_to_cache ⟨[]⟩ 4 1 3
          (ggml_new_tensor_2d BufId.k 4 3) (ggml_new_tensor_2d BufId.v 4 3)).gf scenarioMem
          = some m' ∧
        (∀ t f, t < 3 → f < 4 →
          m'.k_cache[(1 + t) * 4 + f]? = scenarioMem.k[t * 4 + f]? ∧
          (1 + t) * 4 + f < (1 + 3) * 4) ∧
        (∀ p, p < 1 * 4 → m'.k_cache[p]? = scenarioMem.k_cache[p]?)) ∧
      (∀ s total : Nat, scenarioLayer.shift_pending = ⟨(s : Int), (total : Int)⟩ → 0 < s →
        s < total → total ≤ scenarioLayer.max_length →
        ∃ m0, ggml_graph_compute
            (scenarioLayer.toBaseAttention.before_forward ⟨[]⟩ 4 1 3).2.gf scenarioMem
            = some m0 ∧
          ∀ i f, i < total - s → f < 4 →
            m0.k_cache[i * 4 + f]? = scenarioMem.k_cache[(i + s) * 4 + f]?) :=
  ⟨⟨by decide, by decide, by decide, ⟨by decide, by decide⟩, by decide, by decide, by decide,
     by decide⟩,
   keys_cached_post_rotation scenarioLayer 8 3 1 scenarioMem (by decide) (by decide)
    (by decide) ⟨by decide, by decide⟩ (by decide) (by decide) (by decide) (by decide)⟩

/-- Counterexample to C12 as stated: five tokens are written at `n_past = 0`, the shift
`(2, 5)` is staged, and one token is written at `n_past = 3`. The second call reads the key
rows 0 .. 3, and they hold the keys encoded with the positions 2, 3, 4 and 3: the key read
at position 0 is the key encoded at position 2, not the key encoded at position 0. -/
theorem keys_cached_shift_counterexample :
    (scenario.cross_attention_key_layer 2 3 1).map Tensor.addrs = some [0, 1, 2, 3] ∧
    shiftedCache.map (fun m => m.k_cache.take 4) = some [2, 3, 4, 3] ∧
    shiftedCache.map (fun m => m.k_cache[0]?) = some (some 2) ∧
    shiftedCache.map (fun m => m.k_cache[0]?) ≠ some (some 0) := by
  decide

/-- The masked scores are a node of the graph of a call. -/
theorem forward_graph_mask (self : BaseSelfAttention) (hidden_size qlen n_past : Nat)
    (hH : 0 < self.num_attention_heads) (hK : 0 < self.num_kv_heads)
    (hrep : self.num_kv_heads ≤ self.num_attention_heads) :
    ∃ gf, self.forward_graph hidden_size qlen n_past = some gf ∧
      Node.un UnOp.soft_max_inplace (Node.un (UnOp.diag_mask_inf_inplace n_past)
        (self.scores_to_mask hidden_size qlen n_past (hidden_size / self.num_attention_heads)
          (hidden_size / (self.num_attention_heads / self.num_kv_heads)))) ∈ gf ∧
      Node.un (UnOp.diag_mask_inf_inplace n_past)
        (self.scores_to_mask hidden_size qlen n_past (hidden_size / self.num_attention_heads)
          (hidden_size / (self.num_attention_heads / self.num_kv_heads))) ∈ gf := by
  refine ⟨_, forward_graph_eq self hidden_size qlen n_past hH hK hrep, ?_⟩
  generalize hidden_size / (self.num_attention_heads / self.num_kv_heads) = kvh
  generalize hidden_size / self.num_attention_heads = hs
  obtain ⟨hc1, -⟩ := self.before_forward_graph kvh n_past qlen
  generalize (self.before_forward ⟨[]⟩ kvh n_past qlen).2.gf = g1 at hc1
  obtain ⟨-, -, -, hsumin, -, -⟩ := output_classified self hidden_size qlen n_past hs kvh
  have hca := ggml_visit_parents_closed (self.key_write hidden_size qlen n_past hs kvh) g1 hc1
  have hcb := ggml_visit_parents_closed (self.value_write qlen n_past kvh) _ hca.1
  have hcc := ggml_visit_parents_closed (self.attn_output hidden_size qlen n_past hs kvh) _
    hcb.1
  constructor
  · exact hcc.2 _ (Node.subnodes_trans _ _ _ hsumin
      (by simp [BaseSelfAttention.weighted_sum_product, Node.ggml_mul_mat, Node.subnodes]))
  · exact hcc.2 _ (Node.subnodes_trans _ _ _ hsumin
      (by simp [BaseSelfAttention.weighted_sum_product, Node.ggml_mul_mat, Node.subnodes]))

/-- C15, as the code has it: in the graph of a call the scores that enter the mask are,
after `apply_pos_embedding_kq`, the product of the keys read from the cache and the
position-encoded query, multiplied by `1/sqrt(head_size)` after the product when
`attn_scaling` is set; when it is not set, the position-encoded query is multiplied by
`1/sqrt(head_size)` before the product. -/
theorem score_scaling_by_flag (self : BaseSelfAttention) (hidden_size qlen n_past : Nat)
    (hH : 0 < self.num_attention_heads) (hK : 0 < self.num_kv_heads)
    (hrep : self.num_kv_heads ≤ self.num_attention_heads) :
    ∃ gf scores, self.forward_graph hidden_size qlen n_past = some gf ∧
      Node.un (UnOp.diag_mask_inf_inplace n_past)
        ((self.hooks.apply_pos_embedding_kq hidden_size qlen).apply scores
          (Node.leaf Leaf.pos)) ∈ gf ∧
      (self.attn_scaling = true → scores =
        Node.un (UnOp.scale_inplace (ScaleFactor.inv_sqrt (hidden_size / self.num_attention_heads)))
          (Node.bin (BinOp.mul_mat self.prec)
            (self.key_layer_read n_past qlen (hidden_size / self.num_attention_heads)
              (hidden_size / (self.num_attention_heads / self.num_kv_heads)))
            (Node.un (UnOp.permute 0 2 1 3)
              ((self.hooks.apply_pos_embedding_q hidden_size qlen).apply
                (Node.un (UnOp.reshape_3d (hidden_size / self.num_attention_heads)
                  self.num_attention_heads qlen) (self.projection self.q_proj))
                (Node.leaf Leaf.pos))))) ∧
      (self.attn_scaling = false → scores =
        Node.bin (BinOp.mul_mat self.prec)
          (self.key_layer_read n_past qlen (hidden_size / self.num_attention_heads)
            (hidden_size / (self.num_attention_heads / self.num_kv_heads)))
          (Node.un (UnOp.permute 0 2 1 3)
            (Node.un (UnOp.scale (ScaleFactor.inv_sqrt (hidden_size / self.num_attention_heads)))
              ((self.hooks.apply_pos_embedding_q hidden_size qlen).apply
                (Node.un (UnOp.reshape_3d (hidden_size / self.num_attention_heads)
                  self.num_attention_heads qlen) (self.projection self.q_proj))
                (Node.leaf Leaf.pos))))) := by
  obtain ⟨gf, hgf, -, hmask⟩ := forward_graph_mask self hidden_size qlen n_past hH hK hrep
  refine ⟨gf, _, hgf, hmask, ?_, ?_⟩
  · intro h
    simp [score_product_eq, BaseSelfAttention.query_layer_encoded, h]
  · intro h
    simp [score_product_eq, BaseSelfAttention.query_layer_encoded, h]
/-- Counterexample to C15 as stated: with `attn_scaling` off the scores that enter the mask
are not the unscaled product of the keys and the position-encoded query; the query
operand of the product is the encoded query multiplied by `1/sqrt(head_size)`. -/
theorem score_scaling_counterexample :
    scenarioUnscaled.attn_scaling = false ∧
    scenarioUnscaled.scores_to_mask 8 1 3 4 4 ≠
      Node.bin (BinOp.mul_mat ggml_prec.GGML_PREC_F32)
        (scenarioUnscaled.key_layer_read 3 1 4 4)
        (Node.un (UnOp.permute 0 2 1 3)
          ((PosOp.rope_custom_inplace 4 0).apply
            (Node.un (UnOp.reshape_3d 4 2 1)
              (scenarioUnscaled.projection scenarioUnscaled.q_proj))
            (Node.leaf Leaf.pos))) ∧
    scenarioUnscaled.scores_to_mask 8 1 3 4 4 =
      Node.bin (BinOp.mul_mat ggml_prec.GGML_PREC_F32)
        (scenarioUnscaled.key_layer_read 3 1 4 4)
        (Node.un (UnOp.permute 0 2 1 3)
          (Node.un (UnOp.scale (ScaleFactor.inv_sqrt 4))
            ((PosOp.rope_custom_inplace 4 0).apply
              (Node.un (UnOp.reshape_3d 4 2 1)
                (scenarioUnscaled.projection scenarioUnscaled.q_proj))
              (Node.leaf Leaf.pos)))) ∧
    (scenarioUnscaled.forward_graph 8 1 3).map (fun gf =>
      decide (Node.un (UnOp.diag_mask_inf_inplace 3)
        (scenarioUnscaled.scores_to_mask 8 1 3 4 4) ∈ gf)) = some true := by
  decide

/-- Instance of the amended C15 on `scenarioUnscaled`, where the second case applies. -/
theorem score_scaling_by_flag_witness :
    scenarioUnscaled.attn_scaling = false ∧
    ∃ gf scores, scenarioUnscaled.forward_graph 8 1 3 = some gf ∧
      Node.un (UnOp.diag_mask_inf_inplace 3)
        (PosOp.identity.apply scores (Node.leaf Leaf.pos)) ∈ gf ∧
      (scenarioUnscaled.attn_scaling = true → scores =
        Node.un (UnOp.scale_inplace (ScaleFactor.inv_sqrt 4))
          (Node.bin (BinOp.mul_mat ggml_prec.GGML_PREC_F32)
            (scenarioUnscaled.key_layer_read 3 1 4 4)
            (Node.un (UnOp.permute 0 2 1 3)
              ((PosOp.rope_custom_inplace 4 0).apply
                (Node.un (UnOp.reshape_3d 4 2 1)
                  (scenarioUnscaled.projection scenarioUnscaled.q_proj))
                (Node.leaf Leaf.pos))))) ∧
      (scenarioUnscaled.attn_scaling = false → scores =
        Node.bin (BinOp.mul_mat ggml_prec.GGML_PREC_F32)
          (scenarioUnscaled.key_layer_read 3 1 4 4)
          (Node.un (UnOp.permute 0 2 1 3)
            (Node.un (UnOp.scale (ScaleFactor.inv_sqrt 4))
              ((PosOp.rope_custom_inplace 4 0).apply
                (Node.un (UnOp.reshape_3d 4 2 1)
                  (scenarioUnscaled.projection scenarioUnscaled.q_proj))
                (Node.leaf Leaf.pos))))) :=
  ⟨rfl, score_scaling_by_flag scenarioUnscaled 8 1 3 (by decide) (by decide) (by decide)⟩

/-- C16, as the code has it: in the graph of a call the score product is tagged with the
precision `prec` of the attention instance, and the weighted-sum product carries the
default precision tag that `ggml_mul_mat` gives it, whatever `prec` is. -/
theorem product_precision (self : BaseSelfAttention) (hidden_size qlen n_past : Nat)
    (hH : 0 < self.num_attention_heads) (hK : 0 < self.num_kv_heads)
    (hrep : self.num_kv_heads ≤ self.num_attention_heads) :
    ∃ gf probs, self.forward_graph hidden_size qlen n_past = some gf ∧
      Node.bin (BinOp.mul_mat self.prec)
        (self.key_layer_read n_past qlen (hidden_size / self.num_attention_heads)
          (hidden_size / (self.num_attention_heads / self.num_kv_heads)))
        (Node.un (UnOp.permute 0 2 1 3)
          (self.query_layer_encoded hidden_size qlen
            (hidden_size / self.num_attention_heads) (self.projection self.q_proj))) ∈ gf ∧
      Node.bin (BinOp.mul_mat ggml_prec.GGML_PREC_DEFAULT)
        (self.value_layer_read n_past qlen (hidden_size / self.num_attention_heads))
        probs ∈ gf ∧
      probs = Node.un UnOp.soft_max_inplace (Node.un (UnOp.diag_mask_inf_inplace n_past)
        (self.scores_to_mask hidden_size qlen n_past (hidden_size / self.num_attention_heads)
          (hidden_size / (self.num_attention_heads / self.num_kv_heads)))) := by
  obtain ⟨gf, hgf, -, -, hsc, hsum⟩ :=
    forward_graph_members self hidden_size qlen n_past hH hK hrep
  exact ⟨gf, _, hgf, hsc, hsum, rfl⟩

/-- Instance of the amended C16 on `scenarioLayer`, whose `prec` is `GGML_PREC_F32`. -/
theorem product_precision_witness :
    scenarioLayer.prec = ggml_prec.GGML_PREC_F32 ∧
    ∃ gf probs, scenarioLayer.forward_graph 8 1 3 = some gf ∧
      Node.bin (BinOp.mul_mat ggml_prec.GGML_PREC_F32)
        (scenarioLayer.key_layer_read 3 1 4 4)
        (Node.un (UnOp.permute 0 2 1 3)
          (scenarioLayer.query_layer_encoded 8 1 4
            (scenarioLayer.projection scenarioLayer.q_proj))) ∈ gf ∧
      Node.bin (BinOp.mul_mat ggml_prec.GGML_PREC_DEFAULT)
        (scenarioLayer.value_layer_read 3 1 4) probs ∈ gf ∧
      probs = Node.un UnOp.soft_max_inplace (Node.un (UnOp.diag_mask_inf_inplace 3)
        (scenarioLayer.scores_to_mask 8 1 3 4 4)) :=
  ⟨rfl, product_precision scenarioLayer 8 1 3 (by decide) (by decide) (by decide)⟩

/-- Counterexample to C16 as stated: with `prec = GGML_PREC_F32` the weighted-sum product
queued by the call is tagged `GGML_PREC_DEFAULT`, and no product of the values tagged
`GGML_PREC_F32` is in the graph. -/
theorem product_precision_counterexample :
    scenarioLayer.prec = ggml_prec.GGML_PREC_F32 ∧
    (scenarioLayer.forward_graph 8 1 3).map (fun gf =>
      (decide (Node.bin (BinOp.mul_mat ggml_prec.GGML_PREC_DEFAULT)
          (scenarioLayer.value_layer_read 3 1 4)
          (Node.un UnOp.soft_max_inplace (Node.un (UnOp.diag_mask_inf_inplace 3)
            (scenarioLayer.scores_to_mask 8 1 3 4 4))) ∈ gf),
        decide (Node.bin (BinOp.mul_mat ggml_prec.GGML_PREC_F32)
          (scenarioLayer.value_layer_read 3 1 4)
          (Node.un UnOp.soft_max_inplace (Node.un (UnOp.diag_mask_inf_inplace 3)
            (scenarioLayer.scores_to_mask 8 1 3 4 4))) ∈ gf))) = some (true, false) := by
  decide

/-! ## The causal mask -/

/-- A sum of non-negative numbers with a positive one among them is positive. -/
theorem list_sum_pos (l : List ℚ) (h0 : ∀ x, x ∈ l → 0 ≤ x) (h1 : ∃ x, x ∈ l ∧ 0 < x) :
    0 < l.sum := by
  induction l with
  | nil => obtain ⟨x, hx, -⟩ := h1; simp at hx
  | cons a t ih =>
    have ha : 0 ≤ a := h0 a (by simp)
    have ht : 0 ≤ t.sum := List.sum_nonneg (fun x hx => h0 x (by simp [hx]))
    obtain ⟨x, hx, hpos⟩ := h1
    simp only [List.sum_cons]
    rcases List.mem_cons.mp hx with h | h
    · subst h; linarith
    · have := ih (fun y hy => h0 y (by simp [hy])) ⟨x, h, hpos⟩
      linarith

/-- C13: the causal property of `calc_attn_scores`. In the graph of a call the scores pass
through `ggml_diag_mask_inf_inplace` with the argument `n_past` and then through
`ggml_soft_max_inplace`. With the kernels of these two operations, for every query row
`r < qlen` (absolute position `n_past + r`) and key position `j`: if `j > n_past + r` the
masked score is `-INFINITY` and the softmax weight is exactly 0; if `j <= n_past + r` the
mask leaves the score as it was; and the weights of the row are normalised by a positive
sum when the exponential is positive and the scores up to the diagonal are finite. -/
theorem calc_attn_scores_causal (self : BaseSelfAttention) (hidden_size qlen n_past : Nat)
    (expf : ℚ → ℚ) (scores : Nat → Nat → Score) (r j : Nat)
    (hH : 0 < self.num_attention_heads) (hK : 0 < self.num_kv_heads)
    (hrep : self.num_kv_heads ≤ self.num_attention_heads)
    (hr : r < qlen) :
    (∃ gf, self.forward_graph hidden_size qlen n_past = some gf ∧
      Node.un UnOp.soft_max_inplace (Node.un (UnOp.diag_mask_inf_inplace n_past)
        (self.scores_to_mask hidden_size qlen n_past (hidden_size / self.num_attention_heads)
          (hidden_size / (self.num_attention_heads / self.num_kv_heads)))) ∈ gf) ∧
    (n_past + r < j →
      ggml_diag_mask_inf n_past scores r j = none ∧
      ggml_soft_max expf (n_past + qlen) (ggml_diag_mask_inf n_past scores r) j = 0) ∧
    (j ≤ n_past + r → ggml_diag_mask_inf n_past scores r j = scores r j) ∧
    ((∀ x, 0 < expf x) → (∀ i, i ≤ n_past + r → (scores r i).isSome = true) →
      0 < ((List.range (n_past + qlen)).map (fun i =>
        soft_max_weight expf
          (ggml_vec_max (n_past + qlen) (ggml_diag_mask_inf n_past scores r))
          (ggml_diag_mask_inf n_past scores r i))).sum) := by
  obtain ⟨gf, hgf, hsoft, -⟩ := forward_graph_mask self hidden_size qlen n_past hH hK hrep
  refine ⟨⟨gf, hgf, hsoft⟩, ?_, ?_, ?_⟩
  · intro h
    have hm : ggml_diag_mask_inf n_past scores r j = none := by
      simp [ggml_diag_mask_inf, h]
    refine ⟨hm, ?_⟩
    simp only [ggml_soft_max, hm, soft_max_weight, zero_mul]
  · intro h
    have : ¬ n_past + r < j := by omega
    simp [ggml_diag_mask_inf, this]
  · intro hexp hfin
    apply list_sum_pos
    · intro x hx
      obtain ⟨i, -, rfl⟩ := List.mem_map.mp hx
      cases hmi : ggml_diag_mask_inf n_past scores r i with
      | none => simp [soft_max_weight]
      | some y => simp only [soft_max_weight]; exact le_of_lt (hexp _)
    · refine ⟨_, List.mem_map.mpr ⟨n_past + r, List.mem_range.mpr (by omega), rfl⟩, ?_⟩
      have hd : ggml_diag_mask_inf n_past scores r (n_past + r) = scores r (n_past + r) := by
        simp [ggml_diag_mask_inf]
      rw [hd]
      cases hs : scores r (n_past + r) with
      | none =>
        have := hfin (n_past + r) (le_refl _)
        rw [hs] at this
        simp at this
      | some y => simp only [soft_max_weight]; exact hexp _

/-- Instance on `scenarioLayer`, one token at `n_past = 3`, key position 5 against the
query at position 3, with scores that are all 0. -/
theorem calc_attn_scores_causal_witness :
    (∃ gf, scenarioLayer.forward_graph 8 1 3 = some gf ∧
      Node.un UnOp.soft_max_inplace (Node.un (UnOp.diag_mask_inf_inplace 3)
        (scenarioLayer.scores_to_mask 8 1 3 (8 / 2) (8 / (2 / 1)))) ∈ gf) ∧
    (3 + 0 < 5 →
      ggml_diag_mask_inf 3 (fun _ _ => some 0) 0 5 = none ∧
      ggml_soft_max (fun _ => 1) (3 + 1) (ggml_diag_mask_inf 3 (fun _ _ => some 0) 0) 5 = 0) ∧
    (5 ≤ 3 + 0 → ggml_diag_mask_inf 3 (fun _ _ => some 0) 0 5 = some 0) ∧
    ((∀ x : ℚ, 0 < (fun _ => (1 : ℚ)) x) →
      (∀ i, i ≤ 3 + 0 → (((fun _ _ => some 0) : Nat → Nat → Score) 0 i).isSome = true) →
      0 < ((List.range (3 + 1)).map (fun i =>
        soft_max_weight (fun _ => 1)
          (ggml_vec_max (3 + 1) (ggml_diag_mask_inf 3 (fun _ _ => some 0) 0))
          (ggml_diag_mask_inf 3 (fun _ _ => some 0) 0 i))).sum) :=
  calc_attn_scores_causal scenarioLayer 8 1 3 (fun _ => 1) (fun _ _ => some 0) 0 5
    (by decide) (by decide) (by decide) (by decide)

/-! ## Grouped-query attention in `GLM2SelfAttention::forward` -/

/-- C14: the grouped-query broadcast of `GLM2SelfAttention::forward`. With
`mqa_scale = num_attention_heads / num_kv_heads` the three tensors for `ggml_flash_attn`
are built, heads indexed by `(m, g)` with `m < mqa_scale` and `g < num_kv_heads`. The query
element `(i0, t, m, g)` is element `i0` of query head `g * mqa_scale + m` of token `t`;
the key element `(i0, p, m, g)` is element `(i0, p)` of kv head `g` of `k_cache`, and the
value element `(p, i0, m, g)` is element `(p, i0)` of kv head `g` of `v_cache`, for every
`m`: the stride along `m` is 0 and both are views of the cache buffers, so nothing is
duplicated. When `num_kv_heads` divides `num_attention_heads`, every query head is
`g * mqa_scale + m` for exactly its `g = h / mqa_scale` and `m = h % mqa_scale`. -/
theorem glm2_grouped_query_broadcast (self : GLM2SelfAttention) (qkv : Tensor)
    (hidden_size n_past qlen : Nat)
    (hH : 0 < self.num_attention_heads) (hK : 0 < self.num_kv_heads)
    (hk0 : self.k_cache.nb0 = 1) (hv0 : self.v_cache.nb0 = 1) :
    ∃ views, self.forward_views qkv hidden_size n_past qlen = some views ∧
      (views.query_layer.ne2 = self.num_attention_heads / self.num_kv_heads ∧
        views.query_layer.ne3 = self.num_kv_heads ∧
        views.key_layer.ne2 = self.num_attention_heads / self.num_kv_heads ∧
        views.key_layer.ne3 = self.num_kv_heads ∧
        views.value_layer.ne2 = self.num_attention_heads / self.num_kv_heads ∧
        views.value_layer.ne3 = self.num_kv_heads) ∧
      (∀ i0 t m g, views.query_layer.index i0 t m g =
        (self.query_view qkv (hidden_size / self.num_attention_heads) qlen).index i0
          (g * (self.num_attention_heads / self.num_kv_heads) + m) t 0) ∧
      (views.key_layer.nb2 = 0 ∧ views.key_layer.buf = self.k_cache.buf ∧
        ∀ i0 p m g, views.key_layer.index i0 p m g = self.k_cache.index i0 p g 0) ∧
      (views.value_layer.nb2 = 0 ∧ views.value_layer.buf = self.v_cache.buf ∧
        ∀ p i0 m g, views.value_layer.index p i0 m g = self.v_cache.index p i0 g 0) ∧
      (self.num_attention_heads % self.num_kv_heads = 0 →
        ∀ h, h < self.num_attention_heads →
          h / (self.num_attention_heads / self.num_kv_heads) < self.num_kv_heads ∧
          h % (self.num_attention_heads / self.num_kv_heads) <
            self.num_attention_heads / self.num_kv_heads ∧
          h = h / (self.num_attention_heads / self.num_kv_heads) *
              (self.num_attention_heads / self.num_kv_heads) +
            h % (self.num_attention_heads / self.num_kv_heads)) := by
  have hH0 : self.num_attention_heads ≠ 0 := by omega
  have hK0 : self.num_kv_heads ≠ 0 := by omega
  refine ⟨_, by simp [GLM2SelfAttention.forward_views, idiv, hH0, hK0]; rfl,
    ⟨rfl, rfl, rfl, rfl, rfl, rfl⟩, ?_, ⟨rfl, rfl, ?_⟩, ⟨rfl, rfl, ?_⟩, ?_⟩
  · intro i0 t m g
    simp only [Tensor.index, ggml_permute_0231, ggml_view_4d, GLM2SelfAttention.query_view,
      ggml_view_3d]
    ring
  · intro i0 p m g
    simp only [Tensor.index, ggml_view_4d, hk0]
    ring
  · intro p i0 m g
    simp only [Tensor.index, ggml_view_4d, hv0]
    ring
  · intro hdiv h hh
    obtain ⟨r, hr⟩ := Nat.dvd_of_mod_eq_zero hdiv
    have hrpos : 0 < r := Nat.pos_of_ne_zero (fun h0 => by subst h0; simp at hr; omega)
    have hq : self.num_attention_heads / self.num_kv_heads = r := by
      rw [hr, Nat.mul_div_cancel_left r hK]
    rw [hq]
    refine ⟨?_, Nat.mod_lt _ hrpos, ?_⟩
    · apply Nat.div_lt_of_lt_mul
      rw [Nat.mul_comm, ← hr]
      exact hh
    · have := Nat.div_add_mod h r
      have e : h / r * r = r * (h / r) := Nat.mul_comm _ _
      omega
/-- Instance on `glm2Scenario` (two query heads sharing one kv head), `qkv` of 16 features
for one token at `n_past = 3`. -/
theorem glm2_grouped_query_broadcast_witness :
    ∃ views, glm2Scenario.forward_views (ggml_new_tensor_2d BufId.k 16 1) 8 3 1 = some views ∧
      (views.query_layer.ne2 = 2 / 1 ∧ views.query_layer.ne3 = 1 ∧
        views.key_layer.ne2 = 2 / 1 ∧ views.key_layer.ne3 = 1 ∧
        views.value_layer.ne2 = 2 / 1 ∧ views.value_layer.ne3 = 1) ∧
      (∀ i0 t m g, views.query_layer.index i0 t m g =
        (glm2Scenario.query_view (ggml_new_tensor_2d BufId.k 16 1) (8 / 2) 1).index i0
          (g * (2 / 1) + m) t 0) ∧
      (views.key_layer.nb2 = 0 ∧ views.key_layer.buf = glm2Scenario.k_cache.buf ∧
        ∀ i0 p m g, views.key_layer.index i0 p m g = glm2Scenario.k_cache.index i0 p g 0) ∧
      (views.value_layer.nb2 = 0 ∧ views.value_layer.buf = glm2Scenario.v_cache.buf ∧
        ∀ p i0 m g, views.value_layer.index p i0 m g = glm2Scenario.v_cache.index p i0 g 0) ∧
      (2 % 1 = 0 →
        ∀ h, h < 2 →
          h / (2 / 1) < 1 ∧ h % (2 / 1) < 2 / 1 ∧ h = h / (2 / 1) * (2 / 1) + h % (2 / 1)) :=
  glm2_grouped_query_broadcast glm2Scenario (ggml_new_tensor_2d BufId.k 16 1) 8 3 1
    (by decide) (by decide) rfl rfl

/-! ## The first-pass mask of `GLMSelfAttention::forward` -/

/-- C18, as the code has it: the bulk fill of `GLMSelfAttention::forward` at `n_past == 0`.
For `attn_scores` of shape `[qlen, qlen, heads]` (key position `j`, query row `r`, head
`h`) the entries overwritten with `-INFINITY` are exactly those of the last key column,
`j = qlen - 1`, in the rows `r < qlen - 1`, in every head. -/
theorem glm_first_pass_mask (self : GLMSelfAttention) (attn_scores : Tensor)
    (qlen r j h : Nat) (hnb0 : attn_scores.nb0 = 1) (hnb1 : attn_scores.nb1 = qlen)
    (hnb2 : attn_scores.nb2 = qlen * qlen)
    (hr : r < qlen) (hj : j < qlen) (hh : h < self.num_attention_heads) :
    attn_scores.index j r h 0 ∈ (self.masked_attn_scores attn_scores qlen).addrs ↔
      (j = qlen - 1 ∧ r < qlen - 1) := by
  rw [Tensor.mem_addrs_3d _ rfl]
  simp only [GLMSelfAttention.masked_attn_scores, ggml_view_3d, Tensor.index, hnb0, hnb1, hnb2]
  constructor
  · rintro ⟨i0, i1, i2, h0, h1, h2, heq⟩
    have hi0 : i0 = 0 := by omega
    subst hi0
    have hA : r * qlen + j < qlen * qlen := mul_add_lt_mul hj hr
    have hB : i1 * qlen + (qlen - 1) < qlen * qlen :=
      mul_add_lt_mul (by omega) (by omega)
    have h3 : (r * qlen + j) + h * (qlen * qlen) =
        (i1 * qlen + (qlen - 1)) + i2 * (qlen * qlen) := by omega
    obtain ⟨h4, -⟩ := add_mul_inj hA hB h3
    have h5 : j + r * qlen = (qlen - 1) + i1 * qlen := by omega
    obtain ⟨h6, h7⟩ := add_mul_inj hj (by omega) h5
    exact ⟨h6, by omega⟩
  · rintro ⟨h1, h2⟩
    exact ⟨0, r, h, by omega, h2, hh, by subst h1; omega⟩

/-- Instance on `glmScenario` and `glmScores`: three tokens, row 0, key position 2. -/
theorem glm_first_pass_mask_witness :
    glmScores.index 2 0 1 0 ∈ (glmScenario.masked_attn_scores glmScores 3).addrs ↔
      (2 = 3 - 1 ∧ 0 < 3 - 1) :=
  glm_first_pass_mask glmScenario glmScores 3 0 2 1 rfl rfl rfl (by decide) (by decide)
    (by decide)

/-- Counterexample to C18 as stated: for three tokens the entry of row 0 and key position
1 has `j > r` and is not overwritten; only key position 2 is masked, in the rows 0
and 1. -/
theorem glm_first_pass_mask_counterexample :
    (0 < 1 ∧ glmScores.index 1 0 0 0 ∉ (glmScenario.masked_attn_scores glmScores 3).addrs) ∧
    (glmScenario.masked_attn_scores glmScores 3).addrs =
      [glmScores.index 2 0 0 0, glmScores.index 2 1 0 0,
        glmScores.index 2 0 1 0, glmScores.index 2 1 1 0] := by
  decide

/-! ## The NTK-mixed frequency table -/

/-- The loop from an even index `2 * j` appends the values at `2 * j, 2 * j + 2, ...`
below `dim`. -/
theorem ntk_mixed_loop_eq {F : Type} (v : Nat → F) (dim n j : Nat) (acc : List F)
    (hn : 2 * (j + n) = dim ∨ (2 * (j + n) = dim + 1 ∧ 0 < n) ∨ (n = 0 ∧ dim ≤ 2 * j)) :
    ntk_mixed_loop v dim (2 * j) acc =
      acc ++ (List.range n).map (fun t => v (2 * (j + t))) := by
  induction n generalizing j acc with
  | zero =>
    unfold ntk_mixed_loop
    have : ¬ 2 * j < dim := by omega
    simp [this]
  | succ n ih =>
    unfold ntk_mixed_loop
    have h1 : 2 * j < dim := by omega
    rw [if_pos h1]
    have e : 2 * j + 2 = 2 * (j + 1) := by ring
    rw [e, ih (j + 1) _ (by omega)]
    rw [List.range_succ_eq_map, List.map_cons, List.map_map, List.append_assoc]
    simp only [List.singleton_append, Nat.add_zero]
    congr 2
    apply List.map_congr_left
    intro t _
    simp only [Function.comp, Nat.succ_eq_add_one]
    congr 1
    omega
/-- C19: the NTK-mixed frequency table over real arithmetic. For every even `dim`,
`base`, `k` and `b`, `build_ntk_mixed_inv_freq` produces exactly `dim / 2` entries, and
the entry for dimension `i = 2 * j` (`j < dim / 2`) is
`1 / base ^ (i / dim) / exp (a * (i / 2 + 1) ^ b)` with `a = ln k / (dim / 2) ^ b`, which
for `base >= 0` is `base ^ (-i / dim) / exp (a * (i / 2 + 1) ^ b)`. -/
theorem ntk_mixed_inv_freq_table (dim max_position_embeddings : Nat) (base k b : ℝ)
    (heven : dim % 2 = 0) :
    (build_ntk_mixed_inv_freq Real.log Real.exp (fun x y => x ^ y) dim
      max_position_embeddings base k b).length = dim / 2 ∧
    ∀ j, j < dim / 2 →
      (build_ntk_mixed_inv_freq Real.log Real.exp (fun x y => x ^ y) dim
          max_position_embeddings base k b)[j]? =
        some (1 / base ^ (((2 * j : Nat) : ℝ) / (dim : ℝ)) /
          Real.exp (Real.log k / ((dim / 2 : Nat) : ℝ) ^ b *
            (((2 * j) / 2 + 1 : Nat) : ℝ) ^ b)) ∧
      (0 ≤ base →
        (build_ntk_mixed_inv_freq Real.log Real.exp (fun x y => x ^ y) dim
            max_position_embeddings base k b)[j]? =
          some (base ^ (-(((2 * j : Nat) : ℝ) / (dim : ℝ))) /
            Real.exp (Real.log k / ((dim / 2 : Nat) : ℝ) ^ b *
              (((2 * j) / 2 + 1 : Nat) : ℝ) ^ b))) := by
  have hloop := fun (v : Nat → ℝ) =>
    ntk_mixed_loop_eq v dim (dim / 2) 0 [] (Or.inl (by omega))
  have hmain : ∀ j, j < dim / 2 →
      (build_ntk_mixed_inv_freq Real.log Real.exp (fun x y => x ^ y) dim
          max_position_embeddings base k b)[j]? =
        some (1 / base ^ (((2 * j : Nat) : ℝ) / (dim : ℝ)) /
          Real.exp (Real.log k / ((dim / 2 : Nat) : ℝ) ^ b *
            (((2 * j) / 2 + 1 : Nat) : ℝ) ^ b)) := by
    intro j hj
    unfold build_ntk_mixed_inv_freq
    simp only [Nat.mul_zero] at hloop
    rw [hloop]
    simp [List.getElem?_map, List.getElem?_range, hj]
  refine ⟨?_, fun j hj => ⟨hmain j hj, fun hb => ?_⟩⟩
  · unfold build_ntk_mixed_inv_freq
    simp only [Nat.mul_zero] at hloop
    rw [hloop]
    simp
  · rw [hmain j hj, Real.rpow_neg hb, one_div]

/-- Instance for `dim = 4`, `base = 10000`, `k = 16`, `b = 0.3`: two entries. -/
theorem ntk_mixed_inv_freq_table_witness :
    (build_ntk_mixed_inv_freq Real.log Real.exp (fun x y => x ^ y) 4 2048
      (10000 : ℝ) 16 (3 / 10)).length = 4 / 2 ∧
    ∀ j, j < 4 / 2 →
      (build_ntk_mixed_inv_freq Real.log Real.exp (fun x y => x ^ y) 4 2048
          (10000 : ℝ) 16 (3 / 10))[j]? =
        some (1 / (10000 : ℝ) ^ (((2 * j : Nat) : ℝ) / ((4 : Nat) : ℝ)) /
          Real.exp (Real.log 16 / ((4 / 2 : Nat) : ℝ) ^ ((3 : ℝ) / 10) *
            (((2 * j) / 2 + 1 : Nat) : ℝ) ^ ((3 : ℝ) / 10))) ∧
      (0 ≤ (10000 : ℝ) →
        (build_ntk_mixed_inv_freq Real.log Real.exp (fun x y => x ^ y) 4 2048
            (10000 : ℝ) 16 (3 / 10))[j]? =
          some ((10000 : ℝ) ^ (-(((2 * j : Nat) : ℝ) / ((4 : Nat) : ℝ))) /
            Real.exp (Real.log 16 / ((4 / 2 : Nat) : ℝ) ^ ((3 : ℝ) / 10) *
              (((2 * j) / 2 + 1 : Nat) : ℝ) ^ ((3 : ℝ) / 10)))) :=
  ntk_mixed_inv_freq_table 4 2048 10000 16 (3 / 10) (by decide)
/-- C20, as the code has it: `build_inv_freq_if_needed(h)` rebuilds `inv_freq` exactly
when `h` differs from the cached hidden size, and then the table is the one
`build_ntk_mixed_inv_freq` gives for the current `rope_dim`, `freq_base`, scaling factor
and scaling power; it sets the cached size to `h`; a call with `h` equal to the cached
size changes nothing, so a repeated call with the same `h` leaves the instance, and with
it `inv_freq`, unchanged. -/
theorem build_inv_freq_if_needed_cached {F : Type} [One F] [Mul F] [Div F] [NatCast F]
    (ops : FloatOps F) (self : BlueLMSelfAttention F) (h : Int) :
    (self.build_inv_freq_if_needed ops h).cached_hiddle_size = h ∧
    (h ≠ self.cached_hiddle_size →
      (self.build_inv_freq_if_needed ops h).inv_freq = self.current_table ops ∧
      (self.build_inv_freq_if_needed ops h).inv_freq =
        (self.build_inv_freq_if_needed ops h).current_table ops) ∧
    (h = self.cached_hiddle_size → self.build_inv_freq_if_needed ops h = self) ∧
    (self.build_inv_freq_if_needed ops h).build_inv_freq_if_needed ops h =
      self.build_inv_freq_if_needed ops h := by
  unfold BlueLMSelfAttention.build_inv_freq_if_needed
  by_cases hc : self.cached_hiddle_size = h
  · simp [hc]
  · have hc2 : h ≠ self.cached_hiddle_size := fun e => hc e.symm
    simp [hc, hc2, BlueLMSelfAttention.current_table]

/-- Instance of C20 on `blueScenario` over real arithmetic: the first call for
`hidden_size = 8` differs from the cached size 0, so it rebuilds and the table is the one
for the current members; the cached size becomes 8. -/
theorem build_inv_freq_if_needed_cached_witness :
    (8 : Int) ≠ (blueScenario ℝ).cached_hiddle_size ∧
    ((blueScenario ℝ).build_inv_freq_if_needed
        ⟨Real.log, Real.exp, fun x y => x ^ y, fun x => ⌊x⌋₊⟩ 8).cached_hiddle_size = 8 ∧
    ((blueScenario ℝ).build_inv_freq_if_needed
        ⟨Real.log, Real.exp, fun x y => x ^ y, fun x => ⌊x⌋₊⟩ 8).inv_freq =
      (blueScenario ℝ).current_table
        ⟨Real.log, Real.exp, fun x y => x ^ y, fun x => ⌊x⌋₊⟩ :=
  ⟨by simp [blueScenario],
   (build_inv_freq_if_needed_cached
      ⟨Real.log, Real.exp, fun x y => x ^ y, fun x => ⌊x⌋₊⟩ (blueScenario ℝ) 8).1,
   ((build_inv_freq_if_needed_cached
      ⟨Real.log, Real.exp, fun x y => x ^ y, fun x => ⌊x⌋₊⟩ (blueScenario ℝ) 8).2.1
      (by simp [blueScenario])).1⟩

/-- The table for `dim = 2` has the one entry of dimension 0. -/
theorem build_ntk_mixed_inv_freq_two {F : Type} [One F] [Mul F] [Div F] [NatCast F]
    (log expf : F → F) (powf : F → F → F) (mp : Nat) (base k b : F) :
    build_ntk_mixed_inv_freq log expf powf 2 mp base k b =
      [1 / powf base (((0 : Nat) : F) / ((2 : Nat) : F)) /
        expf (log k / powf ((1 : Nat) : F) b * powf ((1 : Nat) : F) b)] := by
  unfold build_ntk_mixed_inv_freq
  have := ntk_mixed_loop_eq
    (fun i => 1 / powf base ((i : F) / ((2 : Nat) : F)) /
      expf (log k / powf ((2 / 2 : Nat) : F) b * powf ((i / 2 + 1 : Nat) : F) b))
    2 1 0 [] (Or.inl rfl)
  simp only [Nat.mul_zero] at this
  rw [this]
  have hr : List.range 1 = [0] := rfl
  simp [hr]

/-- Counterexample to C20 as stated: after the table was built for `hidden_size = 8` with
scaling factor 2, `config` changes the factor to 4 and `build_inv_freq_if_needed(8)` is
called again; the call keeps the table `[1 / 2]`, while `build_ntk_mixed_inv_freq` gives
`[1 / 4]` for the current members. -/
theorem build_inv_freq_if_needed_counterexample :
    (blueReconfigured (F := ℝ) ⟨Real.log, Real.exp, fun x y => x ^ y, fun x => ⌊x⌋₊⟩).inv_freq
      = [1 / 2] ∧
    (blueReconfigured (F := ℝ)
      ⟨Real.log, Real.exp, fun x y => x ^ y, fun x => ⌊x⌋₊⟩).current_table
      ⟨Real.log, Real.exp, fun x y => x ^ y, fun x => ⌊x⌋₊⟩ = [1 / 4] ∧
    (blueReconfigured (F := ℝ) ⟨Real.log, Real.exp, fun x y => x ^ y, fun x => ⌊x⌋₊⟩).inv_freq
      ≠ (blueReconfigured (F := ℝ)
        ⟨Real.log, Real.exp, fun x y => x ^ y, fun x => ⌊x⌋₊⟩).current_table
        ⟨Real.log, Real.exp, fun x y => x ^ y, fun x => ⌊x⌋₊⟩ := by
  have h1 : (blueReconfigured (F := ℝ)
      ⟨Real.log, Real.exp, fun x y => x ^ y, fun x => ⌊x⌋₊⟩).inv_freq = [1 / 2] := by
    simp [blueReconfigured, blueScenario, BlueLMSelfAttention.build_inv_freq_if_needed,
      BlueLMSelfAttention.config, BlueLMSelfAttention.current_table,
      build_ntk_mixed_inv_freq_two, Real.exp_log]
  have h2 : (blueReconfigured (F := ℝ)
      ⟨Real.log, Real.exp, fun x y => x ^ y, fun x => ⌊x⌋₊⟩).current_table
      ⟨Real.log, Real.exp, fun x y => x ^ y, fun x => ⌊x⌋₊⟩ = [1 / 4] := by
    simp [blueReconfigured, blueScenario, BlueLMSelfAttention.build_inv_freq_if_needed,
      BlueLMSelfAttention.config, BlueLMSelfAttention.current_table,
      build_ntk_mixed_inv_freq_two, Real.exp_log]
  refine ⟨h1, h2, ?_⟩
  rw [h1, h2]
  norm_num

/-! ## The position vector -/

/-- The positional methods of `BaichuanSelfAttention` agree with the operations
`BaichuanSelfAttention.hooks` lists for them. -/
theorem BaichuanSelfAttention.hooks_apply (self : BaichuanSelfAttention) (x past : Node)
    (hidden_size qlen : Nat) :
    (self.hooks.apply_pos_embedding_k hidden_size qlen).apply x past =
      self.apply_pos_embedding_k x hidden_size qlen past ∧
    (self.hooks.apply_pos_embedding_q hidden_size qlen).apply x past =
      self.apply_pos_embedding_q x hidden_size qlen past ∧
    (self.hooks.apply_pos_embedding_kq hidden_size qlen).apply x past =
      self.apply_pos_embedding_kq x hidden_size qlen past :=
  ⟨rfl, rfl, rfl⟩

/-- A projection depends on no positional operation. -/
theorem projection_countPositional (self : BaseSelfAttention) (l : Linear) :
    (self.projection l).countPositional = 0 := by
  rcases projection_cases self l with h | h <;> rw [h] <;>
  simp [Node.countPositional, Node.isPositional]

/-- C22: the positional methods of `BaichuanSelfAttention`. For every input,
`apply_pos_embedding_k` and `apply_pos_embedding_q` return their tensor unchanged and
`apply_pos_embedding_kq` returns `ggml_alibi` of the scores with `n_past = 0`,
`num_attention_heads` heads and maximal bias 8. In the graph of a layer `L` with these
methods, the key written to the cache, the encoded query and the score product depend on
no positional operation, and the scores entering the mask are the ALiBi bias applied to
the (scaled) score product: one positional operation, the score transform. -/
theorem baichuan_score_transform_only (self : BaichuanSelfAttention)
    (L : BaseSelfAttention) (hL : L.hooks = self.hooks)
    (x past : Node) (hidden_size qlen n_past hs kvh : Nat) :
    self.apply_pos_embedding_k x hidden_size qlen past = x ∧
    self.apply_pos_embedding_q x hidden_size qlen past = x ∧
    self.apply_pos_embedding_kq x hidden_size qlen past =
      Node.un (UnOp.alibi 0 self.num_attention_heads 8) x ∧
    (L.key_write hidden_size qlen n_past hs kvh).countPositional = 0 ∧
    (L.query_layer_encoded hidden_size qlen hs (L.projection L.q_proj)).countPositional = 0 ∧
    (L.score_product hidden_size qlen n_past hs kvh).countPositional = 0 ∧
    L.scores_to_mask hidden_size qlen n_past hs kvh =
      Node.un (UnOp.alibi 0 self.num_attention_heads 8)
        (if L.attn_scaling then
          Node.un (UnOp.scale_inplace (ScaleFactor.inv_sqrt hs))
            (L.score_product hidden_size qlen n_past hs kvh)
        else L.score_product hidden_size qlen n_past hs kvh) ∧
    (L.scores_to_mask hidden_size qlen n_past hs kvh).countPositional = 1 := by
  have hq := projection_countPositional L L.q_proj
  have hk := projection_countPositional L L.k_proj
  have hqe : (L.query_layer_encoded hidden_size qlen hs
      (L.projection L.q_proj)).countPositional = 0 := by
    unfold BaseSelfAttention.query_layer_encoded
    rw [hL]
    cases L.attn_scaling <;>
    simp [BaichuanSelfAttention.hooks, PosOp.apply, Node.countPositional, Node.isPositional, hq]
  have hsp : (L.score_product hidden_size qlen n_past hs kvh).countPositional = 0 := by
    rw [score_product_eq]
    simp [Node.countPositional, Node.isPositional, BaseSelfAttention.key_layer_read, hqe]
  refine ⟨rfl, rfl, rfl, ?_, hqe, hsp, ?_, ?_⟩
  · unfold BaseSelfAttention.key_write BaseSelfAttention.key_layer_saved
    rw [hL]
    simp [BaichuanSelfAttention.hooks, PosOp.apply, Node.countPositional, Node.isPositional,
      hk]
  · unfold BaseSelfAttention.scores_to_mask
    rw [hL]
    cases L.attn_scaling <;> simp [BaichuanSelfAttention.hooks, PosOp.apply]
  · unfold BaseSelfAttention.scores_to_mask
    rw [hL]
    cases L.attn_scaling <;>
    simp [BaichuanSelfAttention.hooks, PosOp.apply, Node.countPositional, Node.isPositional,
      hsp, hqe]

/-- Instance on `baichuanLayer` (two heads, head size 4): the scores entering the mask are
`ggml_alibi` of the scaled score product, and the key write has no positional
operation. -/
theorem baichuan_score_transform_only_witness :
    baichuanLayer.hooks = BaichuanSelfAttention.hooks ⟨2⟩ ∧
    (baichuanLayer.key_write 8 3 1 4 4).countPositional = 0 ∧
    baichuanLayer.scores_to_mask 8 3 1 4 4 =
      Node.un (UnOp.alibi 0 2 8)
        (if baichuanLayer.attn_scaling then
          Node.un (UnOp.scale_inplace (ScaleFactor.inv_sqrt 4))
            (baichuanLayer.score_product 8 3 1 4 4)
        else baichuanLayer.score_product 8 3 1 4 4) :=
  ⟨rfl,
   (baichuan_score_transform_only ⟨2⟩ baichuanLayer rfl (Node.leaf Leaf.hidden_states)
      (Node.leaf Leaf.pos) 8 3 1 4 4).2.2.2.1,
   (baichuan_score_transform_only ⟨2⟩ baichuanLayer rfl (Node.leaf Leaf.hidden_states)
      (Node.leaf Leaf.pos) 8 3 1 4 4).2.2.2.2.2.2.1⟩

/-! ## The key-value width -/

/-- The key view `cross_attention` reads through, for a configuration with `num_kv_heads`
dividing `num_attention_heads` dividing `hidden_size`. -/
theorem cross_attention_key_layer_eq (self : BaseAttention) (hidden_size n_past qlen : Nat)
    (hH : 0 < self.num_attention_heads) (hK : 0 < self.num_kv_heads)
    (h1 : self.num_attention_heads % self.num_kv_heads = 0)
    (h2 : hidden_size % self.num_attention_heads = 0) :
    self.cross_attention_key_layer hidden_size n_past qlen =
      some { buf := BufId.k_cache, ne0 := hidden_size / self.num_attention_heads,
             ne1 := n_past + qlen, ne2 := self.num_kv_heads, ne3 := 1, nb0 := 1,
             nb1 := hidden_size / self.num_attention_heads * self.num_kv_heads,
             nb2 := hidden_size / self.num_attention_heads,
             nb3 := hidden_size / self.num_attention_heads * self.num_kv_heads *
               (n_past + qlen),
             offs := 0 } := by
  have hkvh := kv_hidden_size_eq hH hK h1 h2
  have hH0 : self.num_attention_heads ≠ 0 := by omega
  have hK0 : self.num_kv_heads ≠ 0 := by omega
  have hrep : self.num_attention_heads / self.num_kv_heads ≠ 0 := by
    obtain ⟨r, hr⟩ := Nat.dvd_of_mod_eq_zero h1
    rw [hr, Nat.mul_div_cancel_left r hK]
    intro h; subst h; simp at hr; omega
  generalize hhs : hidden_size / self.num_attention_heads = hs at hkvh
  generalize hL : n_past + qlen = L
  have e : L * (hs * self.num_kv_heads) = hs * self.num_kv_heads * L := Nat.mul_comm _ _
  simp [BaseAttention.cross_attention_key_layer, idiv, hH0, hrep, hK0, hkvh, hhs, hL,
    ggml_reshape_3d, ggml_is_contiguous, ggml_view_1d, ggml_permute_0213, Tensor.nelements,
    k_cache, e]

/-- Every position below `L * (hs * K)` is read through the key view of shape
`[hs, L, K]` that `cross_attention` builds. -/
theorem key_read_addrs_of_lt (hs K L p : Nat) (hp : p < L * (hs * K)) :
    p ∈ ({ buf := BufId.k_cache, ne0 := hs, ne1 := L, ne2 := K, ne3 := 1, nb0 := 1,
           nb1 := hs * K, nb2 := hs, nb3 := hs * K * L, offs := 0 } : Tensor).addrs := by
  rw [Tensor.mem_addrs_3d _ rfl]
  simp only [Tensor.index]
  have hpos : 0 < hs * K := Nat.pos_of_ne_zero (fun h => by rw [h] at hp; simp at hp)
  have hhs0 : 0 < hs := Nat.pos_of_ne_zero (fun h => by rw [h] at hpos; simp at hpos)
  have hr : p % (hs * K) < hs * K := Nat.mod_lt _ hpos
  have e : L * (hs * K) = hs * K * L := Nat.mul_comm _ _
  refine ⟨p % (hs * K) % hs, p / (hs * K), p % (hs * K) / hs, Nat.mod_lt _ hhs0,
    Nat.div_lt_of_lt_mul (by omega), Nat.div_lt_of_lt_mul hr, ?_⟩
  have d1 := Nat.div_add_mod p (hs * K)
  have d2 := Nat.div_add_mod (p % (hs * K)) hs
  have c1 : p / (hs * K) * (hs * K) = hs * K * (p / (hs * K)) := Nat.mul_comm _ _
  have c2 : p % (hs * K) / hs * hs = hs * (p % (hs * K) / hs) := Nat.mul_comm _ _
  omega

/-- C27: with `num_kv_heads` dividing `num_attention_heads` dividing `hidden_size` (both
head counts positive), `kv_hidden_size = hidden_size / (num_attention_heads /
num_kv_heads)` equals `num_kv_heads * head_size`, and equals `hidden_size` when the two
head counts agree. The key view of `cross_attention` is then built (its reshape to
`[head_size, num_kv_heads, n_past + qlen]` keeps the element count), and element
`(i0, head h, row n_past + t)` of it is element `t * kv_hidden_size + h * head_size + i0` of
the flat view of `qlen * kv_hidden_size` elements that `save_to_cache` writes the keys
through; every position of the write view is a position of the read view. -/
theorem kv_hidden_size_layout (self : BaseAttention) (ctx : ForwardContext)
    (hidden_size n_past qlen : Nat) (k v : Tensor)
    (hH : 0 < self.num_attention_heads) (hK : 0 < self.num_kv_heads)
    (h1 : self.num_attention_heads % self.num_kv_heads = 0)
    (h2 : hidden_size % self.num_attention_heads = 0) :
    hidden_size / (self.num_attention_heads / self.num_kv_heads) =
      self.num_kv_heads * (hidden_size / self.num_attention_heads) ∧
    (self.num_kv_heads = self.num_attention_heads →
      hidden_size / (self.num_attention_heads / self.num_kv_heads) = hidden_size) ∧
    (self.save_to_cache ctx
        (hidden_size / (self.num_attention_heads / self.num_kv_heads)) n_past qlen k v).gf =
      ctx.gf ++
        [Op.cpy (ggml_view_1d k
            (qlen * (hidden_size / (self.num_attention_heads / self.num_kv_heads))) 0)
          (ggml_view_1d k_cache
            (qlen * (hidden_size / (self.num_attention_heads / self.num_kv_heads)))
            (hidden_size / (self.num_attention_heads / self.num_kv_heads) * n_past)),
         Op.cpy (ggml_transpose v)
          (ggml_view_2d v_cache qlen
            (hidden_size / (self.num_attention_heads / self.num_kv_heads))
            self.max_length n_past)] ∧
    ∃ key_layer,
      self.cross_attention_key_layer hidden_size n_past qlen = some key_layer ∧
      key_layer.buf = k_cache.buf ∧
      (∀ i0 h t, i0 < hidden_size / self.num_attention_heads → h < self.num_kv_heads →
        t < qlen →
        t * (hidden_size / (self.num_attention_heads / self.num_kv_heads)) +
            h * (hidden_size / self.num_attention_heads) + i0 <
          qlen * (hidden_size / (self.num_attention_heads / self.num_kv_heads)) ∧
        key_layer.index i0 (n_past + t) h 0 =
          (ggml_view_1d k_cache
            (qlen * (hidden_size / (self.num_attention_heads / self.num_kv_heads)))
            (hidden_size / (self.num_attention_heads / self.num_kv_heads) * n_past)).addr
            (t * (hidden_size / (self.num_attention_heads / self.num_kv_heads)) +
              h * (hidden_size / self.num_attention_heads) + i0)) ∧
      (∀ p, p ∈ (ggml_view_1d k_cache
            (qlen * (hidden_size / (self.num_attention_heads / self.num_kv_heads)))
            (hidden_size / (self.num_attention_heads / self.num_kv_heads) * n_past)).addrs →
        p ∈ key_layer.addrs) := by
  have hkvh := kv_hidden_size_eq hH hK h1 h2
  have hkl := cross_attention_key_layer_eq self hidden_size n_past qlen hH hK h1 h2
  have hgf := save_to_cache_gf self ctx
    (hidden_size / (self.num_attention_heads / self.num_kv_heads)) n_past qlen k v
  generalize hhs : hidden_size / self.num_attention_heads = hs at *
  generalize hkv : hidden_size / (self.num_attention_heads / self.num_kv_heads) = kvh at *
  refine ⟨by rw [hkvh, Nat.mul_comm], ?_, hgf, _, hkl, rfl, ?_, ?_⟩
  · intro hEq
    rw [hEq] at hkvh
    rw [hkvh, ← hhs]
    exact Nat.div_mul_cancel (Nat.dvd_of_mod_eq_zero h2)
  · intro i0 h t hi0 hh ht
    have hrow : h * hs + i0 < kvh := by
      have := @mul_add_lt_mul i0 h hs self.num_kv_heads hi0 hh
      omega
    have hlt : t * kvh + h * hs + i0 < qlen * kvh := by
      have := @row_lt kvh qlen t (h * hs + i0) ht hrow
      omega
    refine ⟨hlt, ?_⟩
    rw [addr_view_1d _ _ _ _ hlt]
    simp only [Tensor.index, k_cache]
    have e1 : (n_past + t) * (hs * self.num_kv_heads) = n_past * kvh + t * kvh := by
      rw [← hkvh]; ring
    have e2 : kvh * n_past = n_past * kvh := Nat.mul_comm _ _
    omega
  · intro p hp
    simp only [Tensor.addrs, List.mem_map, List.mem_range, nelements_view_1d] at hp
    obtain ⟨e, he, rfl⟩ := hp
    rw [addr_view_1d _ _ _ _ he]
    apply key_read_addrs_of_lt
    have e2 : kvh * n_past = n_past * kvh := Nat.mul_comm _ _
    have e3 : (n_past + qlen) * (hs * self.num_kv_heads) = n_past * kvh + qlen * kvh := by
      rw [← hkvh]; ring
    simp only [k_cache]
    omega

/-- Instance on the scenario (two heads, one kv head, `hidden_size = 8`): the width is
`1 * 4`, and three rows written at `n_past = 1` are read back through the key view. -/
theorem kv_hidden_size_layout_witness :
    (0 < scenario.num_attention_heads ∧ 0 < scenario.num_kv_heads ∧
      scenario.num_attention_heads % scenario.num_kv_heads = 0 ∧
      8 % scenario.num_attention_heads = 0) ∧
    8 / (scenario.num_attention_heads / scenario.num_kv_heads) =
      scenario.num_kv_heads * (8 / scenario.num_attention_heads) ∧
    (scenario.cross_attention_key_layer 8 1 3).map Tensor.addrs = some (List.range 16) ∧
    (ggml_view_1d k_cache (3 * 4) (4 * 1)).addrs = [4, 5, 6, 7, 8, 9, 10, 11, 12, 13, 14, 15] :=
  ⟨by decide,
   (kv_hidden_size_layout scenario ⟨[]⟩ 8 1 3 (ggml_new_tensor_2d BufId.k 4 3)
      (ggml_new_tensor_2d BufId.v 4 3) (by decide) (by decide) (by decide) (by decide)).1,
   by decide, by decide⟩

/-! ## The compaction stays inside the buffers -/

/-- The positions of a one dimensional view of `k_cache`: the range starting at its
offset. -/
theorem mem_addrs_view_1d (n off p : Nat) :
    p ∈ (ggml_view_1d k_cache n off).addrs ↔ off ≤ p ∧ p < off + n := by
  simp only [Tensor.addrs, List.mem_map, List.mem_range, nelements_view_1d]
  constructor
  · rintro ⟨e, he, rfl⟩
    rw [addr_view_1d _ _ _ _ he]
    simp only [k_cache]
    omega
  · rintro ⟨h1, h2⟩
    refine ⟨p - off, by omega, ?_⟩
    rw [addr_view_1d _ _ _ _ (by omega)]
    simp only [k_cache]
    omega

/-- The positions of a two dimensional view of `v_cache` with row stride `nb1`: the
columns `off .. off + ne0 - 1` of the rows `f < ne1`. -/
theorem mem_addrs_view_2d (ne0 ne1 nb1 off p : Nat) :
    p ∈ (ggml_view_2d v_cache ne0 ne1 nb1 off).addrs ↔
      ∃ f c, f < ne1 ∧ off ≤ c ∧ c < off + ne0 ∧ p = f * nb1 + c := by
  rw [Tensor.mem_addrs_3d _ rfl]
  simp only [ggml_view_2d, Tensor.index, v_cache]
  constructor
  · rintro ⟨i0, i1, i2, h0, h1, h2, rfl⟩
    have h20 : i2 = 0 := by omega
    subst h20
    exact ⟨i1, off + i0, h1, by omega, by omega, by omega⟩
  · rintro ⟨f, c, hf, hc1, hc2, rfl⟩
    exact ⟨c - off, f, 0, by omega, hf, by omega, by omega⟩

/-- C29: the compaction of `before_forward` stays inside the buffers. With the pending
shift `(s, total)` and `0 < s <= total <= max_length`, `before_forward` queues nothing when
`s = total` and otherwise one copy per cache; the key copy reads exactly the positions
`[s * kv_hidden_size, total * kv_hidden_size)` and writes exactly
`[0, (total - s) * kv_hidden_size)`, both inside the `max_length * kv_hidden_size`
elements of the key buffer; the value copy reads exactly the columns `[s, total)` and
writes exactly the columns `[0, total - s)` of every feature row `f < kv_hidden_size`,
rows lying `max_length` apart, all inside the `kv_hidden_size * max_length` elements of
the value buffer. -/
theorem before_forward_in_bounds (self : BaseAttention) (ctx : ForwardContext)
    (kv_hidden_size n_past qlen s total : Nat)
    (hsp : self.shift_pending = ⟨(s : Int), (total : Int)⟩)
    (hs : 0 < s) (hst : s ≤ total) (htot : total ≤ self.max_length) :
    (s = total → (self.before_forward ctx kv_hidden_size n_past qlen).2.gf = ctx.gf) ∧
    (s < total → (self.before_forward ctx kv_hidden_size n_past qlen).2.gf =
      ctx.gf ++
        [Op.cpy (ggml_view_1d k_cache ((total - s) * kv_hidden_size) (kv_hidden_size * s))
          (ggml_view_1d k_cache ((total - s) * kv_hidden_size) 0),
         Op.cpy (ggml_view_2d v_cache (total - s) kv_hidden_size self.max_length s)
          (ggml_view_2d v_cache (total - s) kv_hidden_size self.max_length 0)]) ∧
    (∀ p, p ∈ (ggml_view_1d k_cache ((total - s) * kv_hidden_size)
          (kv_hidden_size * s)).addrs ↔
        s * kv_hidden_size ≤ p ∧ p < total * kv_hidden_size) ∧
    (∀ p, p ∈ (ggml_view_1d k_cache ((total - s) * kv_hidden_size) 0).addrs ↔
        p < (total - s) * kv_hidden_size) ∧
    (total - s) * kv_hidden_size ≤ total * kv_hidden_size ∧
    total * kv_hidden_size ≤ self.max_length * kv_hidden_size ∧
    (∀ p, p ∈ (ggml_view_2d v_cache (total - s) kv_hidden_size self.max_length s).addrs ↔
        ∃ f c, f < kv_hidden_size ∧ s ≤ c ∧ c < total ∧ p = f * self.max_length + c) ∧
    (∀ p, p ∈ (ggml_view_2d v_cache (total - s) kv_hidden_size self.max_length 0).addrs ↔
        ∃ f c, f < kv_hidden_size ∧ c < total - s ∧ p = f * self.max_length + c) ∧
    (∀ f c, f < kv_hidden_size → c < total →
      c < self.max_length ∧ f * self.max_length + c < kv_hidden_size * self.max_length) := by
  have e1 : kv_hidden_size * s = s * kv_hidden_size := Nat.mul_comm _ _
  have e2 : s * kv_hidden_size + (total - s) * kv_hidden_size = total * kv_hidden_size := by
    rw [← Nat.add_mul]; congr 1; omega
  refine ⟨?_, ?_, ?_, ?_, ?_, ?_, ?_, ?_, ?_⟩
  · intro h
    subst h
    have h1 : (0 : Int) < (s : Int) := by omega
    simp [BaseAttention.before_forward, hsp, h1]
  · intro h
    exact before_forward_gf self ctx kv_hidden_size n_past qlen s total hsp hs h
  · intro p
    rw [mem_addrs_view_1d]
    omega
  · intro p
    rw [mem_addrs_view_1d]
    omega
  · exact Nat.mul_le_mul_right _ (Nat.sub_le _ _)
  · exact Nat.mul_le_mul_right _ htot
  · intro p
    rw [mem_addrs_view_2d]
    constructor
    · rintro ⟨f, c, hf, h1, h2, rfl⟩
      exact ⟨f, c, hf, h1, by omega, rfl⟩
    · rintro ⟨f, c, hf, h1, h2, rfl⟩
      exact ⟨f, c, hf, h1, by omega, rfl⟩
  · intro p
    rw [mem_addrs_view_2d]
    constructor
    · rintro ⟨f, c, hf, _, h2, rfl⟩
      exact ⟨f, c, hf, by omega, rfl⟩
    · rintro ⟨f, c, hf, h2, rfl⟩
      exact ⟨f, c, hf, by omega, by omega, rfl⟩
  · intro f c hf hc
    have hc2 : c < self.max_length := by omega
    exact ⟨hc2, mul_add_lt_mul hc2 hf |> fun h => by
      have e : self.max_length * kv_hidden_size = kv_hidden_size * self.max_length :=
        Nat.mul_comm _ _
      omega⟩

/-- Instance on the scenario (capacity 8, width 4) with the shift `(2, 5)` pending: the
key copy reads the positions 8 .. 19 and writes 0 .. 11, the value copy reads the columns
2 .. 4 and writes the columns 0 .. 2 of the four feature rows. -/
theorem before_forward_in_bounds_witness :
    (({ scenario with shift_pending := ⟨2, 5⟩ } : BaseAttention).shift_pending = ⟨2, 5⟩ ∧
      0 < 2 ∧ 2 ≤ 5 ∧ 5 ≤ ({ scenario with shift_pending := ⟨2, 5⟩ } : BaseAttention).max_length) ∧
    (∀ p, p ∈ (ggml_view_1d k_cache ((5 - 2) * 4) (4 * 2)).addrs ↔ 2 * 4 ≤ p ∧ p < 5 * 4) ∧
    (ggml_view_1d k_cache ((5 - 2) * 4) 0).addrs = List.range 12 ∧
    (ggml_view_2d v_cache (5 - 2) 4 8 2).addrs =
      [2, 3, 4, 10, 11, 12, 18, 19, 20, 26, 27, 28] ∧
    (ggml_view_2d v_cache (5 - 2) 4 8 0).addrs =
      [0, 1, 2, 8, 9, 10, 16, 17, 18, 24, 25, 26] :=
  ⟨by decide,
   (before_forward_in_bounds { scenario with shift_pending := ⟨2, 5⟩ } ⟨[]⟩ 4 3 2 2 5 rfl
      (by decide) (by decide) (by decide)).2.2.1,
   by decide, by decide, by decide⟩

/-! ## One scaling, before or after the product -/

/-- Scaling the second operand of a product scales the product. -/
theorem Val.mul_mat_scale (a b : Val ℝ) (s : ℝ) :
    a.mul_mat (b.scale s) = (a.mul_mat b).scale s := by
  ext i0 i1 i2 i3 <;> try rfl
  simp only [Val.mul_mat, Val.scale]
  rw [← List.sum_map_mul_right]
  congr 1
  apply List.map_congr_left
  intro k _
  ring

/-- A permutation of a scaled tensor is the scaled permutation. -/
theorem Val.permute_scale (a : Val ℝ) (s : ℝ) (axis0 axis1 axis2 axis3 : Nat) :
    (a.scale s).permute axis0 axis1 axis2 axis3 =
      (a.permute axis0 axis1 axis2 axis3).scale s := by
  ext i0 i1 i2 i3 <;> rfl

/-- The value of the result of a positional method depends on its operand through the
value of the operand only. -/
theorem PosOp.apply_eval (K : Kernels ℝ) (p : PosOp) (x y past : Node)
    (h : x.eval K = y.eval K) : (p.apply x past).eval K = (p.apply y past).eval K := by
  cases p <;> simp [PosOp.apply, Node.eval, h]
/-- A projection depends on no `ggml_scale`. -/
theorem projection_countScale (self : BaseSelfAttention) (l : Linear) :
    (self.projection l).countScale = 0 := by
  rcases projection_cases self l with h | h <;> rw [h] <;>
  simp [Node.countScale, Node.isScale]

/-- The scores that enter the mask, for each value of `attn_scaling`. -/
theorem scores_to_mask_cases (self : BaseSelfAttention) (hidden_size qlen n_past hs kvh : Nat) :
    (self.with_attn_scaling true).scores_to_mask hidden_size qlen n_past hs kvh =
      (self.hooks.apply_pos_embedding_kq hidden_size qlen).apply
        (Node.un (UnOp.scale_inplace (ScaleFactor.inv_sqrt hs))
          (Node.bin (BinOp.mul_mat self.prec) (self.key_layer_read n_past qlen hs kvh)
            (Node.un (UnOp.permute 0 2 1 3)
              ((self.hooks.apply_pos_embedding_q hidden_size qlen).apply
                (Node.un (UnOp.reshape_3d hs self.num_attention_heads qlen)
                  (self.projection self.q_proj))
                (Node.leaf Leaf.pos)))))
        (Node.leaf Leaf.pos) ∧
    (self.with_attn_scaling false).scores_to_mask hidden_size qlen n_past hs kvh =
      (self.hooks.apply_pos_embedding_kq hidden_size qlen).apply
        (Node.bin (BinOp.mul_mat self.prec) (self.key_layer_read n_past qlen hs kvh)
          (Node.un (UnOp.permute 0 2 1 3)
            (Node.un (UnOp.scale (ScaleFactor.inv_sqrt hs))
              ((self.hooks.apply_pos_embedding_q hidden_size qlen).apply
                (Node.un (UnOp.reshape_3d hs self.num_attention_heads qlen)
                  (self.projection self.q_proj))
                (Node.leaf Leaf.pos)))))
        (Node.leaf Leaf.pos) :=
  ⟨rfl, rfl⟩

/-- The scores that enter the mask depend on exactly one `ggml_scale`, whatever
`attn_scaling` is. -/
theorem scores_to_mask_countScale (self : BaseSelfAttention) (b : Bool)
    (hidden_size qlen n_past hs kvh : Nat) :
    ((self.with_attn_scaling b).scores_to_mask hidden_size qlen n_past hs kvh).countScale
      = 1 := by
  have hq := projection_countScale self self.q_proj
  cases b
  · rw [(scores_to_mask_cases self hidden_size qlen n_past hs kvh).2]
    generalize self.hooks.apply_pos_embedding_q hidden_size qlen = pq
    generalize self.hooks.apply_pos_embedding_kq hidden_size qlen = pkq
    cases pq <;> cases pkq <;>
    simp [PosOp.apply, Node.countScale, Node.isScale, BaseSelfAttention.key_layer_read, hq]
  · rw [(scores_to_mask_cases self hidden_size qlen n_past hs kvh).1]
    generalize self.hooks.apply_pos_embedding_q hidden_size qlen = pq
    generalize self.hooks.apply_pos_embedding_kq hidden_size qlen = pkq
    cases pq <;> cases pkq <;>
    simp [PosOp.apply, Node.countScale, Node.isScale, BaseSelfAttention.key_layer_read, hq]
/-- C26: one scaling, before or after the product. For both values of `attn_scaling`, in
the graph of a call (head counts positive, `num_kv_heads <= num_attention_heads`) the
masked tensor is the mask of `scores_to_mask`, which depends on exactly one `ggml_scale`:
on the scores after the product when `attn_scaling` is set, on the position-encoded query
before the product when it is not; the returned tensor depends on exactly that one scaling
and the two cache writes on none, and the key write is the same in both settings. Over
the reals, whatever the data of the leaves and the kernels of the other operations are, the
scores that enter the mask have the same value in both settings. -/
theorem scaling_once_either_way (self : BaseSelfAttention) (K : Kernels ℝ)
    (hidden_size qlen n_past : Nat)
    (hH : 0 < self.num_attention_heads) (hK : 0 < self.num_kv_heads)
    (hrep : self.num_kv_heads ≤ self.num_attention_heads) :
    (∀ b, ∃ gf, (self.with_attn_scaling b).forward_graph hidden_size qlen n_past = some gf ∧
      Node.un (UnOp.diag_mask_inf_inplace n_past)
        ((self.with_attn_scaling b).scores_to_mask hidden_size qlen n_past
          (hidden_size / self.num_attention_heads)
          (hidden_size / (self.num_attention_heads / self.num_kv_heads))) ∈ gf) ∧
    (∀ b hs kvh,
      ((self.with_attn_scaling b).scores_to_mask hidden_size qlen n_past hs kvh).countScale
        = 1 ∧
      ((self.with_attn_scaling b).attn_output hidden_size qlen n_past hs kvh).countScale
        = 1 ∧
      ((self.with_attn_scaling b).key_write hidden_size qlen n_past hs kvh).countScale = 0 ∧
      ((self.with_attn_scaling b).value_write qlen n_past kvh).countScale = 0) ∧
    (∀ hs kvh,
      (self.with_attn_scaling true).scores_to_mask hidden_size qlen n_past hs kvh =
        (self.hooks.apply_pos_embedding_kq hidden_size qlen).apply
          (Node.un (UnOp.scale_inplace (ScaleFactor.inv_sqrt hs))
            (Node.bin (BinOp.mul_mat self.prec) (self.key_layer_read n_past qlen hs kvh)
              (Node.un (UnOp.permute 0 2 1 3)
                ((self.hooks.apply_pos_embedding_q hidden_size qlen).apply
                  (Node.un (UnOp.reshape_3d hs self.num_attention_heads qlen)
                    (self.projection self.q_proj))
                  (Node.leaf Leaf.pos)))))
          (Node.leaf Leaf.pos) ∧
      (self.with_attn_scaling false).scores_to_mask hidden_size qlen n_past hs kvh =
        (self.hooks.apply_pos_embedding_kq hidden_size qlen).apply
          (Node.bin (BinOp.mul_mat self.prec) (self.key_layer_read n_past qlen hs kvh)
            (Node.un (UnOp.permute 0 2 1 3)
              (Node.un (UnOp.scale (ScaleFactor.inv_sqrt hs))
                ((self.hooks.apply_pos_embedding_q hidden_size qlen).apply
                  (Node.un (UnOp.reshape_3d hs self.num_attention_heads qlen)
                    (self.projection self.q_proj))
                  (Node.leaf Leaf.pos)))))
          (Node.leaf Leaf.pos) ∧
      (self.with_attn_scaling true).key_write hidden_size qlen n_past hs kvh =
        (self.with_attn_scaling false).key_write hidden_size qlen n_past hs kvh ∧
      ((self.with_attn_scaling true).scores_to_mask hidden_size qlen n_past hs kvh).eval K =
        ((self.with_attn_scaling false).scores_to_mask hidden_size qlen n_past hs kvh).eval
          K) := by
  refine ⟨fun b => ?_, fun b hs kvh => ⟨scores_to_mask_countScale self b _ _ _ _ _, ?_, ?_, ?_⟩,
    fun hs kvh => ⟨(scores_to_mask_cases self _ _ _ _ _).1,
      (scores_to_mask_cases self _ _ _ _ _).2, rfl, ?_⟩⟩
  · obtain ⟨gf, hgf, -, hm⟩ :=
      forward_graph_mask (self.with_attn_scaling b) hidden_size qlen n_past hH hK hrep
    exact ⟨gf, hgf, hm⟩
  · have h := scores_to_mask_countScale self b hidden_size qlen n_past hs kvh
    unfold BaseSelfAttention.attn_output BaseSelfAttention.weighted_sum_product
      Linear.forward
    cases (self.with_attn_scaling b).o_proj.has_bias <;>
    simp [Node.countScale, Node.isScale, Node.ggml_mul_mat, ggml_mul_mat_set_prec,
      BaseSelfAttention.value_layer_read, h]
  · have hk := projection_countScale (self.with_attn_scaling b)
      (self.with_attn_scaling b).k_proj
    unfold BaseSelfAttention.key_write BaseSelfAttention.key_layer_saved
    generalize (self.with_attn_scaling b).hooks.apply_pos_embedding_k hidden_size qlen = pk
    cases pk <;> simp [PosOp.apply, Node.countScale, Node.isScale, hk]
  · have hv := projection_countScale (self.with_attn_scaling b)
      (self.with_attn_scaling b).v_proj
    unfold BaseSelfAttention.value_write
    simp [Node.countScale, Node.isScale, hv]
  · rw [(scores_to_mask_cases self hidden_size qlen n_past hs kvh).1,
      (scores_to_mask_cases self hidden_size qlen n_past hs kvh).2]
    apply PosOp.apply_eval
    simp only [Node.eval]
    rw [Val.permute_scale, Val.mul_mat_scale]

/-- Instance on `scenarioLayer` (head size 4) with the real square root, leaves of one
element and the other kernels returning their first operand: the scores entering the mask
agree for the two settings, and each depends on one scaling. -/
theorem scaling_once_either_way_witness :
    (0 < scenarioLayer.num_attention_heads ∧ 0 < scenarioLayer.num_kv_heads ∧
      scenarioLayer.num_kv_heads ≤ scenarioLayer.num_attention_heads) ∧
    ((scenarioLayer.with_attn_scaling true).scores_to_mask 8 3 1 4 4).eval
        ⟨fun _ => ⟨1, 1, 1, 1, fun _ _ _ _ => (1 : ℝ)⟩, fun _ v => v, fun _ a _ => a,
          Real.sqrt⟩ =
      ((scenarioLayer.with_attn_scaling false).scores_to_mask 8 3 1 4 4).eval
        ⟨fun _ => ⟨1, 1, 1, 1, fun _ _ _ _ => (1 : ℝ)⟩, fun _ v => v, fun _ a _ => a,
          Real.sqrt⟩ ∧
    ((scenarioLayer.with_attn_scaling true).scores_to_mask 8 3 1 4 4).countScale = 1 ∧
    ((scenarioLayer.with_attn_scaling false).scores_to_mask 8 3 1 4 4).countScale = 1 :=
  ⟨by decide,
   ((scaling_once_either_way scenarioLayer
      ⟨fun _ => ⟨1, 1, 1, 1, fun _ _ _ _ => (1 : ℝ)⟩, fun _ v => v, fun _ a _ => a, Real.sqrt⟩
      8 3 1 (by decide) (by decide) (by decide)).2.2 4 4).2.2.2,
   by decide, by decide⟩

/-! ## The NTK-mixed rotary kernel -/

/-- The loop over `i1` runs the body on the rows of its group whose number lies in
`[ir0, ir1)`, in order, and hands the counter on. -/
theorem ntk_mix_rope_i1_eq {σ : Type} (row : Nat → σ → Option σ) (ne1 ir0 ir1 base : Nat) :
    ∀ n i1 ir s, i1 + n = ne1 → CounterAt ir0 ir1 ir (base + i1) →
      ∃ ir', CounterAt ir0 ir1 ir' (base + ne1) ∧
        ntk_mix_rope_i1 row ne1 ir0 ir1 i1 ir s =
          (((List.range' i1 n).filter
              (fun j => decide (ir0 ≤ base + j ∧ base + j < ir1))).foldlM
            (fun s j => row j s) s).map (fun s' => (ir', s')) := by
  intro n
  induction n with
  | zero =>
    intro i1 ir s hn hc
    have h0 : ¬ i1 < ne1 := by omega
    have e : i1 = ne1 := by omega
    subst e
    refine ⟨ir, hc, ?_⟩
    unfold ntk_mix_rope_i1
    simp [h0]
  | succ n ih =>
    intro i1 ir s hn hc
    have h0 : i1 < ne1 := by omega
    unfold ntk_mix_rope_i1
    rw [if_pos h0, List.range'_succ, List.filter_cons]
    by_cases h1 : ir < ir0
    · have hir : ir = base + i1 := by
        rcases hc with h | ⟨h, -, -⟩
        · exact h
        · omega
      have hcond : ¬ (ir0 ≤ base + i1 ∧ base + i1 < ir1) := by omega
      rw [if_pos h1, decide_eq_false hcond]
      exact ih (i1 + 1) (ir + 1) s (by omega) (Or.inl (by omega))
    · rw [if_neg h1]
      by_cases h2 : ir + 1 > ir1
      · rw [if_pos h2]
        have hall : ∀ j, i1 ≤ j → ¬ (ir0 ≤ base + j ∧ base + j < ir1) := by
          intro j hj
          rcases hc with h | ⟨-, -, h⟩ <;> omega
        have hnil : (List.range' (i1 + 1) n).filter
            (fun j => decide (ir0 ≤ base + j ∧ base + j < ir1)) = [] := by
          rw [List.filter_eq_nil_iff]
          intro j hj
          have := (List.mem_range'_1.1 hj).1
          simpa using hall j (by omega)
        rw [decide_eq_false (hall i1 (Nat.le_refl _)), hnil]
        refine ⟨ir + 1, Or.inr ⟨by omega, by omega, ?_⟩, by simp⟩
        rcases hc with h | ⟨-, -, h⟩ <;> omega
      · rw [if_neg h2]
        have hir : ir = base + i1 := by
          rcases hc with h | ⟨-, h, -⟩
          · exact h
          · omega
        have hcond : ir0 ≤ base + i1 ∧ base + i1 < ir1 := by omega
        rw [decide_eq_true hcond]
        simp only [if_true, List.foldlM_cons]
        cases hrow : row i1 s with
        | none => exact ⟨base + ne1, Or.inl rfl, by simp⟩
        | some s' =>
          obtain ⟨ir', hc', h'⟩ := ih (i1 + 1) (ir + 1) s' (by omega) (Or.inl (by omega))
          exact ⟨ir', hc', by simpa using h'⟩

/-- The loop over `i2` runs the body on the rows of its groups whose number lies in
`[ir0, ir1)`, in order, and hands the counter on; `B` is the number of groups before the
first one of the loop. -/
theorem ntk_mix_rope_i2_eq {σ : Type} (row : Nat → Nat → σ → Option σ)
    (ne1 ne2 ir0 ir1 B : Nat) :
    ∀ n i2 ir s, i2 + n = ne2 → CounterAt ir0 ir1 ir ((B + i2) * ne1) →
      ∃ ir', CounterAt ir0 ir1 ir' ((B + ne2) * ne1) ∧
        ntk_mix_rope_i2 row ne1 ne2 ir0 ir1 i2 ir s =
          (((List.range' i2 n).flatMap (fun j2 =>
              ((List.range' 0 ne1).filter (fun j1 =>
                decide (ir0 ≤ (B + j2) * ne1 + j1 ∧ (B + j2) * ne1 + j1 < ir1))).map
                (fun j1 => (j2, j1)))).foldlM
            (fun s r => row r.1 r.2 s) s).map (fun s' => (ir', s')) := by
  intro n
  induction n with
  | zero =>
    intro i2 ir s hn hc
    have h0 : ¬ i2 < ne2 := by omega
    have e : i2 = ne2 := by omega
    subst e
    refine ⟨ir, hc, ?_⟩
    unfold ntk_mix_rope_i2
    simp [h0]
  | succ n ih =>
    intro i2 ir s hn hc
    have h0 : i2 < ne2 := by omega
    unfold ntk_mix_rope_i2
    rw [if_pos h0, List.range'_succ, List.flatMap_cons, List.foldlM_append, List.foldlM_map]
    obtain ⟨ir1', hc1, h1⟩ := ntk_mix_rope_i1_eq (row i2) ne1 ir0 ir1 ((B + i2) * ne1)
      ne1 0 ir s (by omega) (by simpa using hc)
    rw [h1]
    cases hf : List.foldlM (fun s j => row i2 j s) s
        ((List.range' 0 ne1).filter (fun j1 =>
          decide (ir0 ≤ (B + i2) * ne1 + j1 ∧ (B + i2) * ne1 + j1 < ir1))) with
    | none => exact ⟨(B + ne2) * ne1, Or.inl rfl, by simp⟩
    | some s' =>
      have e : (B + i2) * ne1 + ne1 = (B + (i2 + 1)) * ne1 := by ring
      rw [e] at hc1
      obtain ⟨ir', hc', h'⟩ := ih (i2 + 1) ir1' s' (by omega) hc1
      exact ⟨ir', hc', by simpa using h'⟩

/-- The loop over `i3` runs the body on the rows whose number lies in `[ir0, ir1)`, in
order. -/
theorem ntk_mix_rope_i3_eq {σ : Type} (row : Nat → Nat → Nat → σ → Option σ)
    (ne1 ne2 ne3 ir0 ir1 : Nat) :
    ∀ n i3 ir s, i3 + n = ne3 → CounterAt ir0 ir1 ir (i3 * ne2 * ne1) →
      ∃ ir', CounterAt ir0 ir1 ir' (ne3 * ne2 * ne1) ∧
        ntk_mix_rope_i3 row ne1 ne2 ne3 ir0 ir1 i3 ir s =
          (((List.range' i3 n).flatMap (fun j3 =>
              (List.range' 0 ne2).flatMap (fun j2 =>
                ((List.range' 0 ne1).filter (fun j1 =>
                  decide (ir0 ≤ row_index ne1 ne2 j3 j2 j1 ∧
                    row_index ne1 ne2 j3 j2 j1 < ir1))).map
                  (fun j1 => (j3, j2, j1))))).foldlM
            (fun s r => row r.1 r.2.1 r.2.2 s) s).map (fun s' => (ir', s')) := by
  intro n
  induction n with
  | zero =>
    intro i3 ir s hn hc
    have h0 : ¬ i3 < ne3 := by omega
    have e : i3 = ne3 := by omega
    subst e
    refine ⟨ir, hc, ?_⟩
    unfold ntk_mix_rope_i3
    simp [h0]
  | succ n ih =>
    intro i3 ir s hn hc
    have h0 : i3 < ne3 := by omega
    unfold ntk_mix_rope_i3
    rw [if_pos h0, List.range'_succ, List.flatMap_cons, List.foldlM_append]
    obtain ⟨ir2', hc2, h2⟩ := ntk_mix_rope_i2_eq (row i3) ne1 ne2 ir0 ir1 (i3 * ne2)
      ne2 0 ir s (by omega) (by simpa using hc)
    rw [h2]
    have hl : (List.range' 0 ne2).flatMap (fun j2 =>
          ((List.range' 0 ne1).filter (fun j1 =>
            decide (ir0 ≤ row_index ne1 ne2 i3 j2 j1 ∧
              row_index ne1 ne2 i3 j2 j1 < ir1))).map (fun j1 => (i3, j2, j1))) =
        ((List.range' 0 ne2).flatMap (fun j2 =>
          ((List.range' 0 ne1).filter (fun j1 =>
            decide (ir0 ≤ (i3 * ne2 + j2) * ne1 + j1 ∧
              (i3 * ne2 + j2) * ne1 + j1 < ir1))).map (fun j1 => (j2, j1)))).map
          (fun r => (i3, r)) := by
      simp [List.map_flatMap, row_index, Function.comp_def]
    rw [hl, List.foldlM_map]
    cases hf : List.foldlM (fun s r => row i3 r.1 r.2 s) s
        ((List.range' 0 ne2).flatMap (fun j2 =>
          ((List.range' 0 ne1).filter (fun j1 =>
            decide (ir0 ≤ (i3 * ne2 + j2) * ne1 + j1 ∧
              (i3 * ne2 + j2) * ne1 + j1 < ir1))).map (fun j1 => (j2, j1)))) with
    | none => exact ⟨ne3 * ne2 * ne1, Or.inl rfl, by simp⟩
    | some s' =>
      have e : (i3 * ne2 + ne2) * ne1 = (i3 + 1) * ne2 * ne1 := by ring
      rw [e] at hc2
      obtain ⟨ir', hc', h'⟩ := ih (i3 + 1) ir2' s' (by omega) hc2
      exact ⟨ir', hc', by simpa using h'⟩

/-- The row loops of thread `ith` of `nth >= 1` threads run the body on the rows whose
number lies in `[ir0, ir1)`, in the order of the loops, whatever the body is. -/
theorem ntk_mix_rope_rows_eq {σ : Type} (row : Nat → Nat → Nat → σ → Option σ)
    (ne1 ne2 ne3 ith nth : Nat) (s : σ) (hnth : 0 < nth) :
    ntk_mix_rope_rows row ne1 ne2 ne3 ith nth s =
      (rows_between ne1 ne2 ne3 ((ne1 * ne2 * ne3 + nth - 1) / nth * ith)
        (min ((ne1 * ne2 * ne3 + nth - 1) / nth * ith + (ne1 * ne2 * ne3 + nth - 1) / nth)
          (ne1 * ne2 * ne3))).foldlM (fun s r => row r.1 r.2.1 r.2.2 s) s := by
  have h0 : nth ≠ 0 := by omega
  generalize hir0 : (ne1 * ne2 * ne3 + nth - 1) / nth * ith = ir0
  generalize hir1 : min (ir0 + (ne1 * ne2 * ne3 + nth - 1) / nth) (ne1 * ne2 * ne3) = ir1
  obtain ⟨ir', -, h⟩ := ntk_mix_rope_i3_eq row ne1 ne2 ne3 ir0 ir1 ne3 0 0 s (by omega)
    (Or.inl (by simp))
  simp only [ntk_mix_rope_rows, ntk_mix_rope_range, idiv, h0, if_false, Option.bind_eq_bind,
    Option.some_bind, Option.pure_def, hir0, hir1, h, rows_between, List.range_eq_range']
  cases List.foldlM (fun s r => row r.1 r.2.1 r.2.2 s) s
      ((List.range' 0 ne3).flatMap (fun j3 =>
        (List.range' 0 ne2).flatMap (fun j2 =>
          ((List.range' 0 ne1).filter (fun j1 =>
            decide (ir0 ≤ row_index ne1 ne2 j3 j2 j1 ∧
              row_index ne1 ne2 j3 j2 j1 < ir1))).map (fun j1 => (j3, j2, j1))))) <;> rfl

/-- Recording the rows of a list gives the list. -/
theorem foldlM_record (l acc : List (Nat × Nat × Nat)) :
    l.foldlM (fun acc r => some (acc ++ [(r.1, r.2.1, r.2.2)])) acc = some (acc ++ l) := by
  induction l generalizing acc with
  | nil => simp
  | cons r l ih =>
    rw [List.foldlM_cons]
    simp only [Option.bind_eq_bind, Option.some_bind]
    rw [ih]
    simp

/-- The rows with numbers in `[ir0, ir1)`. -/
theorem mem_rows_between (ne1 ne2 ne3 ir0 ir1 i3 i2 i1 : Nat) :
    (i3, i2, i1) ∈ rows_between ne1 ne2 ne3 ir0 ir1 ↔
      i3 < ne3 ∧ i2 < ne2 ∧ i1 < ne1 ∧ ir0 ≤ row_index ne1 ne2 i3 i2 i1 ∧
        row_index ne1 ne2 i3 i2 i1 < ir1 := by
  simp only [rows_between, List.mem_flatMap, List.mem_range, List.mem_map, List.mem_filter,
    decide_eq_true_eq, Prod.mk.injEq]
  constructor
  · rintro ⟨a, ha, b, hb, c, ⟨hc, h1, h2⟩, rfl, rfl, rfl⟩
    exact ⟨ha, hb, hc, h1, h2⟩
  · rintro ⟨ha, hb, hc, h1, h2⟩
    exact ⟨i3, ha, i2, hb, i1, ⟨hc, h1, h2⟩, rfl, rfl, rfl⟩

/-- No row occurs twice among the rows with numbers in `[ir0, ir1)`. -/
theorem nodup_rows_between (ne1 ne2 ne3 ir0 ir1 : Nat) :
    (rows_between ne1 ne2 ne3 ir0 ir1).Nodup := by
  unfold rows_between
  rw [List.nodup_flatMap]
  constructor
  · intro i3 _
    rw [List.nodup_flatMap]
    constructor
    · intro i2 _
      apply List.Nodup.map
      · intro x y h
        simpa using h
      · exact (List.nodup_range ne1).filter _
    · apply (List.nodup_range ne2).pairwise_of_forall_ne
      intro a _ b _ hab
      simp only [Function.onFun]
      intro x hx hy
      simp only [List.mem_map, List.mem_filter] at hx hy
      obtain ⟨_, _, rfl⟩ := hx
      obtain ⟨_, _, h⟩ := hy
      simp at h
      omega
  · apply (List.nodup_range ne3).pairwise_of_forall_ne
    intro a _ b _ hab
    simp only [Function.onFun]
    intro x hx hy
    simp only [List.mem_flatMap, List.mem_map, List.mem_filter] at hx hy
    obtain ⟨_, _, _, _, rfl⟩ := hx
    obtain ⟨_, _, _, _, h⟩ := hy
    simp at h
    omega

/-- Rows of a tensor have distinct numbers below the row count. -/
theorem row_index_lt {ne1 ne2 ne3 i3 i2 i1 : Nat} (h3 : i3 < ne3) (h2 : i2 < ne2)
    (h1 : i1 < ne1) : row_index ne1 ne2 i3 i2 i1 < ne1 * ne2 * ne3 := by
  unfold row_index
  have ha := @mul_add_lt_mul i2 i3 ne2 ne3 h2 h3
  have hb := @mul_add_lt_mul i1 (i3 * ne2 + i2) ne1 (ne2 * ne3) h1 ha
  have e : ne1 * (ne2 * ne3) = ne1 * ne2 * ne3 := by ring
  omega

/-- With `dr = ceil(nr / nth)`, every row number below `nr` lies in the range of exactly
one thread. -/
theorem thread_of_row (nr nth r : Nat) (hnth : 0 < nth) (hr : r < nr) :
    ∃! ith, ith < nth ∧ (nr + nth - 1) / nth * ith ≤ r ∧
      r < min ((nr + nth - 1) / nth * ith + (nr + nth - 1) / nth) nr := by
  have hd := Nat.div_add_mod (nr + nth - 1) nth
  have hm := Nat.mod_lt (nr + nth - 1) hnth
  generalize (nr + nth - 1) / nth = dr at *
  have hdr : 0 < dr := by
    rcases Nat.eq_zero_or_pos dr with h | h
    · subst h; simp at hd; omega
    · exact h
  have hcov : nr ≤ dr * nth := by
    have e : nth * dr = dr * nth := Nat.mul_comm _ _
    omega
  have hdm := Nat.div_add_mod r dr
  have hmm := Nat.mod_lt r hdr
  refine ⟨r / dr, ⟨?_, ?_, ?_⟩, ?_⟩
  · apply Nat.div_lt_of_lt_mul
    omega
  · omega
  · rw [Nat.lt_min]
    exact ⟨by omega, hr⟩
  · rintro i ⟨-, h1, h2⟩
    rw [Nat.lt_min] at h2
    have h3 : r < dr * (i + 1) := by
      have : dr * (i + 1) = dr * i + dr := by ring
      omega
    have e : dr * i = i * dr := Nat.mul_comm _ _
    symm
    apply Nat.div_eq_of_lt_le
    · omega
    · have : (i + 1) * dr = dr * (i + 1) := Nat.mul_comm _ _
      omega

/-- Rows with the same number are the same row. -/
theorem row_index_inj {ne1 ne2 i3 i2 i1 j3 j2 j1 : Nat} (h2 : i2 < ne2) (h1 : i1 < ne1)
    (k2 : j2 < ne2) (k1 : j1 < ne1)
    (h : row_index ne1 ne2 i3 i2 i1 = row_index ne1 ne2 j3 j2 j1) :
    i3 = j3 ∧ i2 = j2 ∧ i1 = j1 := by
  unfold row_index at h
  have ha := @add_mul_inj ne1 i1 (i3 * ne2 + i2) j1 (j3 * ne2 + j2) h1 k1 (by omega)
  have hb := @add_mul_inj ne2 i2 i3 j2 j3 h2 k2 (by omega)
  exact ⟨hb.2, hb.1, ha.1⟩

/-- C28: the row partition of the NTK-mixed rotary kernel. For a tensor of `nr = ne1 * ne2
* ne3` rows and `nth >= 1` threads, with `dr = (nr + nth - 1) / nth`: the rows thread `ith`
takes are exactly the rows whose number `r` in loop order `(i3, i2, i1)` satisfies
`dr * ith <= r < min(dr * ith + dr, nr)`, each once and in loop order; rows have distinct
numbers below `nr`, and every row is taken by exactly one thread `ith < nth`. Both kernels
run their row body on exactly the rows of the thread, in that order. -/
theorem ntk_mix_rope_row_partition (ne1 ne2 ne3 nth : Nat) (hnth : 1 ≤ nth) :
    (∀ ith,
      ntk_mix_rope_trace ne1 ne2 ne3 ith nth =
        some (rows_between ne1 ne2 ne3 ((ne1 * ne2 * ne3 + nth - 1) / nth * ith)
          (min ((ne1 * ne2 * ne3 + nth - 1) / nth * ith + (ne1 * ne2 * ne3 + nth - 1) / nth)
            (ne1 * ne2 * ne3))) ∧
      (rows_between ne1 ne2 ne3 ((ne1 * ne2 * ne3 + nth - 1) / nth * ith)
          (min ((ne1 * ne2 * ne3 + nth - 1) / nth * ith + (ne1 * ne2 * ne3 + nth - 1) / nth)
            (ne1 * ne2 * ne3))).Nodup ∧
      ∀ i3 i2 i1,
        (i3, i2, i1) ∈ rows_between ne1 ne2 ne3 ((ne1 * ne2 * ne3 + nth - 1) / nth * ith)
          (min ((ne1 * ne2 * ne3 + nth - 1) / nth * ith + (ne1 * ne2 * ne3 + nth - 1) / nth)
            (ne1 * ne2 * ne3)) ↔
          i3 < ne3 ∧ i2 < ne2 ∧ i1 < ne1 ∧
            (ne1 * ne2 * ne3 + nth - 1) / nth * ith ≤ row_index ne1 ne2 i3 i2 i1 ∧
            row_index ne1 ne2 i3 i2 i1 <
              min ((ne1 * ne2 * ne3 + nth - 1) / nth * ith +
                (ne1 * ne2 * ne3 + nth - 1) / nth) (ne1 * ne2 * ne3)) ∧
    (∀ i3 i2 i1, i3 < ne3 → i2 < ne2 → i1 < ne1 →
      row_index ne1 ne2 i3 i2 i1 < ne1 * ne2 * ne3 ∧
      (∀ j3 j2 j1, j2 < ne2 → j1 < ne1 →
        row_index ne1 ne2 i3 i2 i1 = row_index ne1 ne2 j3 j2 j1 →
        i3 = j3 ∧ i2 = j2 ∧ i1 = j1) ∧
      ∃! ith, ith < nth ∧ ∃ rows, ntk_mix_rope_trace ne1 ne2 ne3 ith nth = some rows ∧
        (i3, i2, i1) ∈ rows) ∧
    (∀ (ops : RopeOps ℝ) (data : BlueLMSelfAttention ℝ) (dst a : Val ℝ) (b : PosTensor)
        (ith : Nat),
      data.rope_dim ≤ dst.ne0 → data.rope_dim % 2 = 0 →
      dst.ne1 = ne1 → dst.ne2 = ne2 → dst.ne3 = ne3 →
      ∃ rows, ntk_mix_rope_trace ne1 ne2 ne3 ith nth = some rows ∧
        ggml_compute_forward_ntk_mix_rope_f32 ops data dst a b ith nth =
          rows.foldlM (fun dst r =>
            ntk_mix_rope_i0 ops data.inv_freq (ops.ofInt (b.data r.2.1)) a r.1 r.2.1 r.2.2
              dst.ne0 0 dst) dst) ∧
    (∀ (H : Type) (ops : RopeOps ℝ) (half : HalfOps H ℝ) (data : BlueLMSelfAttention ℝ)
        (dst a : Val H) (b : PosTensor) (ith : Nat),
      data.rope_dim ≤ dst.ne0 → data.rope_dim % 2 = 0 →
      dst.ne1 = ne1 → dst.ne2 = ne2 → dst.ne3 = ne3 →
      ∃ rows, ntk_mix_rope_trace ne1 ne2 ne3 ith nth = some rows ∧
        ggml_compute_forward_ntk_mix_rope_f16 ops half data dst a b ith nth =
          rows.foldlM (fun dst r =>
            ntk_mix_rope_i0_f16 ops half data.inv_freq (ops.ofInt (b.data r.2.1)) a r.1 r.2.1
              r.2.2 dst.ne0 0 dst) dst) := by
  have hpos : 0 < nth := by omega
  have htrace : ∀ ith, ntk_mix_rope_trace ne1 ne2 ne3 ith nth =
      some (rows_between ne1 ne2 ne3 ((ne1 * ne2 * ne3 + nth - 1) / nth * ith)
        (min ((ne1 * ne2 * ne3 + nth - 1) / nth * ith + (ne1 * ne2 * ne3 + nth - 1) / nth)
          (ne1 * ne2 * ne3))) := by
    intro ith
    unfold ntk_mix_rope_trace
    rw [ntk_mix_rope_rows_eq _ _ _ _ _ _ _ hpos, foldlM_record]
    simp
  refine ⟨fun ith => ⟨htrace ith, nodup_rows_between _ _ _ _ _, fun i3 i2 i1 =>
    mem_rows_between _ _ _ _ _ _ _ _⟩, ?_, ?_, ?_⟩
  · intro i3 i2 i1 h3 h2 h1
    have hlt := row_index_lt h3 h2 h1
    refine ⟨hlt, fun j3 j2 j1 k2 k1 h => row_index_inj h2 h1 k2 k1 h, ?_⟩
    obtain ⟨ith, ⟨hi, hlo, hhi⟩, huniq⟩ :=
      thread_of_row (ne1 * ne2 * ne3) nth (row_index ne1 ne2 i3 i2 i1) hpos hlt
    refine ⟨ith, ⟨hi, _, htrace ith, ?_⟩, ?_⟩
    · rw [mem_rows_between]
      exact ⟨h3, h2, h1, hlo, hhi⟩
    · rintro j ⟨hj, rows, hrows, hmem⟩
      rw [htrace j] at hrows
      cases hrows
      rw [mem_rows_between] at hmem
      exact huniq j ⟨hj, hmem.2.2.2.1, hmem.2.2.2.2⟩
  · intro ops data dst a b ith hd1 hd2 e1 e2 e3
    refine ⟨_, htrace ith, ?_⟩
    unfold ggml_compute_forward_ntk_mix_rope_f32
    have hd2' : ¬ data.rope_dim % 2 ≠ 0 := by omega
    simp only [not_not.2 hd1, hd2', if_false, e1, e2, e3]
    exact ntk_mix_rope_rows_eq _ _ _ _ _ _ _ hpos
  · intro H ops half data dst a b ith hd1 hd2 e1 e2 e3
    refine ⟨_, htrace ith, ?_⟩
    unfold ggml_compute_forward_ntk_mix_rope_f16
    have hd2' : ¬ data.rope_dim % 2 ≠ 0 := by omega
    simp only [not_not.2 hd1, hd2', if_false, e1, e2, e3]
    exact ntk_mix_rope_rows_eq _ _ _ _ _ _ _ hpos

/-- Instance: six rows (`ne1 = 2`, `ne2 = 3`) and two threads; thread 0 takes the rows 0, 1
and 2 and thread 1 the rows 3, 4 and 5. -/
theorem ntk_mix_rope_row_partition_witness :
    1 ≤ 2 ∧
    ntk_mix_rope_trace 2 3 1 0 2 = some [(0, 0, 0), (0, 0, 1), (0, 1, 0)] ∧
    ntk_mix_rope_trace 2 3 1 1 2 = some [(0, 1, 1), (0, 2, 0), (0, 2, 1)] :=
  ⟨by decide,
   ((ntk_mix_rope_row_partition 2 3 1 2 (by decide)).1 0).1.trans (by decide),
   ((ntk_mix_rope_row_partition 2 3 1 2 (by decide)).1 1).1.trans (by decide)⟩

/-- The innermost loop on a row of `2 * n` elements, started at the pair `m`: it succeeds
when the rows of `src0` and `dst` hold the `2 * n` elements and `inv_freq` has `n` entries,
stores the rotation of every pair `j` with `m <= j < n`, and leaves everything else. -/
theorem ntk_mix_rope_i0_spec {F : Type} [Mul F] [Add F] [Sub F] (ops : RopeOps F)
    (inv_freq : List F) (p : F) (src0 : Val F) (i3 i2 i1 n : Nat)
    (hsrc : 2 * n ≤ src0.ne0) (hfreq : n ≤ inv_freq.length) :
    ∀ k m (dst : Val F), m + k = n → 2 * n ≤ dst.ne0 →
      ∃ dst', ntk_mix_rope_i0 ops inv_freq p src0 i3 i2 i1 (2 * n) (2 * m) dst = some dst' ∧
        (dst'.ne0 = dst.ne0 ∧ dst'.ne1 = dst.ne1 ∧ dst'.ne2 = dst.ne2 ∧ dst'.ne3 = dst.ne3) ∧
        (∀ j0 j1 j2 j3, ¬ (j1 = i1 ∧ j2 = i2 ∧ j3 = i3 ∧ 2 * m ≤ j0 ∧ j0 < 2 * n) →
          dst'.data j0 j1 j2 j3 = dst.data j0 j1 j2 j3) ∧
        (∀ j f, m ≤ j → j < n → inv_freq[j]? = some f →
          dst'.data (2 * j) i1 i2 i3 =
            src0.data (2 * j) i1 i2 i3 * ops.cosf (p * f) -
              src0.data (2 * j + 1) i1 i2 i3 * ops.sinf (p * f) ∧
          dst'.data (2 * j + 1) i1 i2 i3 =
            src0.data (2 * j) i1 i2 i3 * ops.sinf (p * f) +
              src0.data (2 * j + 1) i1 i2 i3 * ops.cosf (p * f)) := by
  intro k
  induction k with
  | zero =>
    intro m dst hm _
    have e : m = n := by omega
    subst e
    refine ⟨dst, ?_, ⟨rfl, rfl, rfl, rfl⟩, fun _ _ _ _ _ => rfl, ?_⟩
    · unfold ntk_mix_rope_i0
      simp
    · intro j f h1 h2
      omega
  | succ k ih =>
    intro m dst hm hdst
    have hlt : 2 * m < 2 * n := by omega
    have hdiv : 2 * m / 2 = m := by omega
    obtain ⟨f0, hf0⟩ : ∃ f0, inv_freq[m]? = some f0 :=
      ⟨inv_freq[m], List.getElem?_eq_getElem (by omega)⟩
    have hin : 2 * m + 1 < src0.ne0 ∧ 2 * m + 1 < dst.ne0 := ⟨by omega, by omega⟩
    unfold ntk_mix_rope_i0
    rw [if_pos hlt, hdiv, hf0]
    simp only [hin, and_self, if_true]
    have e2 : 2 * m + 2 = 2 * (m + 1) := by ring
    rw [e2]
    obtain ⟨dst', hrun, hshape, hframe, hval⟩ := ih (m + 1)
      ((dst.set (2 * m) i1 i2 i3
          (src0.data (2 * m) i1 i2 i3 * ops.cosf (p * f0) -
            src0.data (2 * m + 1) i1 i2 i3 * ops.sinf (p * f0))).set (2 * m + 1) i1 i2 i3
        (src0.data (2 * m) i1 i2 i3 * ops.sinf (p * f0) +
          src0.data (2 * m + 1) i1 i2 i3 * ops.cosf (p * f0)))
      (by omega) hdst
    refine ⟨dst', hrun, hshape, ?_, ?_⟩
    · intro j0 j1 j2 j3 hn
      rw [hframe j0 j1 j2 j3 (by omega)]
      simp only [Val.set]
      have h1 : ¬ (j0 = 2 * m + 1 ∧ j1 = i1 ∧ j2 = i2 ∧ j3 = i3) := by omega
      have h2 : ¬ (j0 = 2 * m ∧ j1 = i1 ∧ j2 = i2 ∧ j3 = i3) := by omega
      rw [if_neg h1, if_neg h2]
    · intro j f h1 h2 hf
      by_cases hj : j = m
      · subst hj
        rw [hf0] at hf
        cases hf
        rw [hframe (2 * j) i1 i2 i3 (by omega), hframe (2 * j + 1) i1 i2 i3 (by omega)]
        simp [Val.set]
      · exact hval j f (by omega) h2 hf

/-- Running the innermost loop on the rows of a list: it succeeds, stores the rotation of
every pair of every listed row, and leaves everything else. -/
theorem ntk_mix_rope_fold_spec {F : Type} [Mul F] [Add F] [Sub F] (ops : RopeOps F)
    (inv_freq : List F) (pos : Nat → F) (src0 : Val F) (n : Nat)
    (hsrc : 2 * n ≤ src0.ne0) (hfreq : n ≤ inv_freq.length) :
    ∀ (rows : List (Nat × Nat × Nat)) (dst : Val F), dst.ne0 = 2 * n →
      ∃ dst', rows.foldlM (fun dst r =>
          ntk_mix_rope_i0 ops inv_freq (pos r.2.1) src0 r.1 r.2.1 r.2.2 dst.ne0 0 dst) dst =
          some dst' ∧
        (dst'.ne0 = dst.ne0 ∧ dst'.ne1 = dst.ne1 ∧ dst'.ne2 = dst.ne2 ∧ dst'.ne3 = dst.ne3) ∧
        (∀ j0 j1 j2 j3, ¬ ((j3, j2, j1) ∈ rows ∧ j0 < 2 * n) →
          dst'.data j0 j1 j2 j3 = dst.data j0 j1 j2 j3) ∧
        (∀ i3 i2 i1 j f, (i3, i2, i1) ∈ rows → j < n → inv_freq[j]? = some f →
          dst'.data (2 * j) i1 i2 i3 =
            src0.data (2 * j) i1 i2 i3 * ops.cosf (pos i2 * f) -
              src0.data (2 * j + 1) i1 i2 i3 * ops.sinf (pos i2 * f) ∧
          dst'.data (2 * j + 1) i1 i2 i3 =
            src0.data (2 * j) i1 i2 i3 * ops.sinf (pos i2 * f) +
              src0.data (2 * j + 1) i1 i2 i3 * ops.cosf (pos i2 * f)) := by
  intro rows
  induction rows with
  | nil =>
    intro dst _
    exact ⟨dst, by simp, ⟨rfl, rfl, rfl, rfl⟩, fun _ _ _ _ _ => rfl,
      fun _ _ _ _ _ h => by simp at h⟩
  | cons r rows ih =>
    intro dst hdst
    obtain ⟨r3, r2, r1⟩ := r
    obtain ⟨d1, hrun1, hshape1, hframe1, hval1⟩ :=
      ntk_mix_rope_i0_spec ops inv_freq (pos r2) src0 r3 r2 r1 n hsrc hfreq n 0 dst
        (by omega) (by omega)
    obtain ⟨dst', hrun, hshape, hframe, hval⟩ := ih d1 (by rw [hshape1.1, hdst])
    refine ⟨dst', ?_, ?_, ?_, ?_⟩
    · rw [List.foldlM_cons]
      simp only [hdst, Nat.mul_zero] at hrun1 ⊢
      rw [hrun1]
      exact hrun
    · exact ⟨hshape.1.trans hshape1.1, hshape.2.1.trans hshape1.2.1,
        hshape.2.2.1.trans hshape1.2.2.1, hshape.2.2.2.trans hshape1.2.2.2⟩
    · intro j0 j1 j2 j3 hn
      rw [hframe j0 j1 j2 j3 (fun h => hn ⟨List.mem_cons_of_mem _ h.1, h.2⟩)]
      apply hframe1
      rintro ⟨rfl, rfl, rfl, -, h⟩
      exact hn ⟨List.mem_cons_self _ _, h⟩
    · intro i3 i2 i1 j f hmem hj hf
      by_cases hin : (i3, i2, i1) ∈ rows
      · exact hval i3 i2 i1 j f hin hj hf
      · have hr : (i3, i2, i1) = (r3, r2, r1) := by
          rcases List.mem_cons.1 hmem with h | h
          · exact h
          · exact absurd h hin
        simp only [Prod.mk.injEq] at hr
        obtain ⟨e3, e2, e1⟩ := hr
        subst e3 e2 e1
        rw [hframe (2 * j) i1 i2 i3 (fun h => hin h.1),
          hframe (2 * j + 1) i1 i2 i3 (fun h => hin h.1)]
        exact hval1 j f (by omega) hj hf

/-- What one thread of the `f32` kernel computes, for a row length `ne0 = 2 * n` and a
table with at least `n` entries: the call succeeds, the rotation of every pair of every row
of the thread is stored, and the rest of `dst` is left as it was. -/
theorem ntk_mix_rope_f32_spec {F : Type} [Mul F] [Add F] [Sub F] (ops : RopeOps F)
    (data : BlueLMSelfAttention F) (dst a : Val F) (b : PosTensor) (ith nth n : Nat)
    (hnth : 0 < nth) (hd1 : data.rope_dim ≤ dst.ne0) (hd2 : data.rope_dim % 2 = 0)
    (hdst : dst.ne0 = 2 * n) (hsrc : 2 * n ≤ a.ne0) (hfreq : n ≤ data.inv_freq.length) :
    ∃ dst', ggml_compute_forward_ntk_mix_rope_f32 ops data dst a b ith nth = some dst' ∧
      (dst'.ne0 = dst.ne0 ∧ dst'.ne1 = dst.ne1 ∧ dst'.ne2 = dst.ne2 ∧ dst'.ne3 = dst.ne3) ∧
      (∀ j0 j1 j2 j3,
        ¬ ((j3, j2, j1) ∈ rows_between dst.ne1 dst.ne2 dst.ne3
            ((dst.ne1 * dst.ne2 * dst.ne3 + nth - 1) / nth * ith)
            (min ((dst.ne1 * dst.ne2 * dst.ne3 + nth - 1) / nth * ith +
              (dst.ne1 * dst.ne2 * dst.ne3 + nth - 1) / nth) (dst.ne1 * dst.ne2 * dst.ne3)) ∧
          j0 < 2 * n) →
        dst'.data j0 j1 j2 j3 = dst.data j0 j1 j2 j3) ∧
      (∀ i3 i2 i1 j f,
        (i3, i2, i1) ∈ rows_between dst.ne1 dst.ne2 dst.ne3
            ((dst.ne1 * dst.ne2 * dst.ne3 + nth - 1) / nth * ith)
            (min ((dst.ne1 * dst.ne2 * dst.ne3 + nth - 1) / nth * ith +
              (dst.ne1 * dst.ne2 * dst.ne3 + nth - 1) / nth) (dst.ne1 * dst.ne2 * dst.ne3)) →
        j < n → data.inv_freq[j]? = some f →
        dst'.data (2 * j) i1 i2 i3 =
          a.data (2 * j) i1 i2 i3 * ops.cosf (ops.ofInt (b.data i2) * f) -
            a.data (2 * j + 1) i1 i2 i3 * ops.sinf (ops.ofInt (b.data i2) * f) ∧
        dst'.data (2 * j + 1) i1 i2 i3 =
          a.data (2 * j) i1 i2 i3 * ops.sinf (ops.ofInt (b.data i2) * f) +
            a.data (2 * j + 1) i1 i2 i3 * ops.cosf (ops.ofInt (b.data i2) * f)) := by
  unfold ggml_compute_forward_ntk_mix_rope_f32
  have hd2' : ¬ data.rope_dim % 2 ≠ 0 := by omega
  simp only [not_not.2 hd1, hd2', if_false]
  rw [ntk_mix_rope_rows_eq _ _ _ _ _ _ _ hnth]
  exact ntk_mix_rope_fold_spec ops data.inv_freq (fun i2 => ops.ofInt (b.data i2)) a n hsrc
    hfreq _ dst hdst

/-- C30: the NTK-mixed rotary kernel is a plane rotation on each adjacent pair. Over the
reals (`cosf`, `sinf` the real functions), for a row length `ne0 = 2 * n` and a table with
at least `n` entries, one thread of the kernel succeeds, and for every row it takes, at
position `p = pos[i2]`, and every pair `j < n` with input `(x0, x1)` the stored pair is
`(x0 * cos t - x1 * sin t, x0 * sin t + x1 * cos t)` with `t = p * inv_freq[j]`; it has the
squared norm `x0^2 + x1^2` of the input, and at `p = 0` it equals the input. -/
theorem ntk_mix_rope_plane_rotation (data : BlueLMSelfAttention ℝ) (dst a : Val ℝ)
    (b : PosTensor) (ith nth n : Nat)
    (hnth : 0 < nth) (hd1 : data.rope_dim ≤ dst.ne0) (hd2 : data.rope_dim % 2 = 0)
    (hdst : dst.ne0 = 2 * n) (hsrc : 2 * n ≤ a.ne0) (hfreq : n ≤ data.inv_freq.length) :
    ∃ dst',
      ggml_compute_forward_ntk_mix_rope_f32 ⟨Real.cos, Real.sin, fun z => (z : ℝ)⟩
        data dst a b ith nth = some dst' ∧
      ∀ i3 i2 i1 j f,
        (i3, i2, i1) ∈ rows_between dst.ne1 dst.ne2 dst.ne3
            ((dst.ne1 * dst.ne2 * dst.ne3 + nth - 1) / nth * ith)
            (min ((dst.ne1 * dst.ne2 * dst.ne3 + nth - 1) / nth * ith +
              (dst.ne1 * dst.ne2 * dst.ne3 + nth - 1) / nth) (dst.ne1 * dst.ne2 * dst.ne3)) →
        j < n → data.inv_freq[j]? = some f →
        dst'.data (2 * j) i1 i2 i3 =
          a.data (2 * j) i1 i2 i3 * Real.cos ((b.data i2 : ℝ) * f) -
            a.data (2 * j + 1) i1 i2 i3 * Real.sin ((b.data i2 : ℝ) * f) ∧
        dst'.data (2 * j + 1) i1 i2 i3 =
          a.data (2 * j) i1 i2 i3 * Real.sin ((b.data i2 : ℝ) * f) +
            a.data (2 * j + 1) i1 i2 i3 * Real.cos ((b.data i2 : ℝ) * f) ∧
        dst'.data (2 * j) i1 i2 i3 ^ 2 + dst'.data (2 * j + 1) i1 i2 i3 ^ 2 =
          a.data (2 * j) i1 i2 i3 ^ 2 + a.data (2 * j + 1) i1 i2 i3 ^ 2 ∧
        (b.data i2 = 0 →
          dst'.data (2 * j) i1 i2 i3 = a.data (2 * j) i1 i2 i3 ∧
          dst'.data (2 * j + 1) i1 i2 i3 = a.data (2 * j + 1) i1 i2 i3) := by
  obtain ⟨dst', hrun, -, -, hval⟩ :=
    ntk_mix_rope_f32_spec ⟨Real.cos, Real.sin, fun z => (z : ℝ)⟩ data dst a b ith nth n
      hnth hd1 hd2 hdst hsrc hfreq
  refine ⟨dst', hrun, fun i3 i2 i1 j f hmem hj hf => ?_⟩
  obtain ⟨h0, h1⟩ := hval i3 i2 i1 j f hmem hj hf
  simp only at h0 h1
  refine ⟨h0, h1, ?_, ?_⟩
  · rw [h0, h1]
    have h := Real.sin_sq_add_cos_sq ((b.data i2 : ℝ) * f)
    linear_combination (a.data (2 * j) i1 i2 i3 ^ 2 + a.data (2 * j + 1) i1 i2 i3 ^ 2) * h
  · intro hp
    rw [h0, h1, hp]
    simp

/-- Instance: the row `(1, 0, 1, 0)` at position 1 with the table `[1, 1]`; the first
stored pair has the squared norm `1^2 + 0^2` of the input pair. -/
theorem ntk_mix_rope_plane_rotation_witness :
    (0 < 1 ∧ (blueWithTable [(1 : ℝ), 1]).rope_dim ≤ (ropeOutput ℝ).ne0 ∧
      (blueWithTable [(1 : ℝ), 1]).rope_dim % 2 = 0 ∧ (ropeOutput ℝ).ne0 = 2 * 2 ∧
      2 * 2 ≤ (ropeInput ℝ).ne0 ∧ 2 ≤ (blueWithTable [(1 : ℝ), 1]).inv_freq.length) ∧
    ∃ dst',
      ggml_compute_forward_ntk_mix_rope_f32 ⟨Real.cos, Real.sin, fun z => (z : ℝ)⟩
        (blueWithTable [(1 : ℝ), 1]) (ropeOutput ℝ) (ropeInput ℝ) ropePos 0 1 = some dst' ∧
      dst'.data (2 * 0) 0 0 0 ^ 2 + dst'.data (2 * 0 + 1) 0 0 0 ^ 2 =
        (ropeInput ℝ).data (2 * 0) 0 0 0 ^ 2 + (ropeInput ℝ).data (2 * 0 + 1) 0 0 0 ^ 2 := by
  have hyp : 0 < 1 ∧ (blueWithTable [(1 : ℝ), 1]).rope_dim ≤ (ropeOutput ℝ).ne0 ∧
      (blueWithTable [(1 : ℝ), 1]).rope_dim % 2 = 0 ∧ (ropeOutput ℝ).ne0 = 2 * 2 ∧
      2 * 2 ≤ (ropeInput ℝ).ne0 ∧ 2 ≤ (blueWithTable [(1 : ℝ), 1]).inv_freq.length := by
    simp [blueWithTable, blueScenario, ropeOutput, ropeInput]
  obtain ⟨dst', hrun, h⟩ := ntk_mix_rope_plane_rotation (blueWithTable [(1 : ℝ), 1])
    (ropeOutput ℝ) (ropeInput ℝ) ropePos 0 1 2 hyp.1 hyp.2.1 hyp.2.2.1 hyp.2.2.2.1
    hyp.2.2.2.2.1 hyp.2.2.2.2.2
  exact ⟨hyp, dst', hrun, (h 0 0 0 0 1 (by decide) (by decide) rfl).2.2.1⟩

/-- C21, as the code has it: the kernel rotates the whole row. For every `rope_dim`
accepted by the assertions (even, `rope_dim <= ne0`), a row length `ne0 = 2 * n` and a
table with at least `n` entries, one thread of the kernel succeeds and, in every row it
takes, stores the rotation of every pair `j < n`, the pairs at index `>= rope_dim`
included; everything outside the rows it takes is left as it was. The rotated pairs are
those below `rope_dim` when `rope_dim = ne0`, and then no element at an index
`>= rope_dim` is written. -/
theorem ntk_mix_rope_whole_row {F : Type} [Mul F] [Add F] [Sub F] (ops : RopeOps F)
    (data : BlueLMSelfAttention F) (dst a : Val F) (b : PosTensor) (ith nth n : Nat)
    (hnth : 0 < nth) (hd1 : data.rope_dim ≤ dst.ne0) (hd2 : data.rope_dim % 2 = 0)
    (hdst : dst.ne0 = 2 * n) (hsrc : 2 * n ≤ a.ne0) (hfreq : n ≤ data.inv_freq.length) :
    ∃ dst', ggml_compute_forward_ntk_mix_rope_f32 ops data dst a b ith nth = some dst' ∧
      (∀ i3 i2 i1 j,
        (i3, i2, i1) ∈ rows_between dst.ne1 dst.ne2 dst.ne3
            ((dst.ne1 * dst.ne2 * dst.ne3 + nth - 1) / nth * ith)
            (min ((dst.ne1 * dst.ne2 * dst.ne3 + nth - 1) / nth * ith +
              (dst.ne1 * dst.ne2 * dst.ne3 + nth - 1) / nth) (dst.ne1 * dst.ne2 * dst.ne3)) →
        j < n →
        ∃ f, data.inv_freq[j]? = some f ∧
          dst'.data (2 * j) i1 i2 i3 =
            a.data (2 * j) i1 i2 i3 * ops.cosf (ops.ofInt (b.data i2) * f) -
              a.data (2 * j + 1) i1 i2 i3 * ops.sinf (ops.ofInt (b.data i2) * f) ∧
          dst'.data (2 * j + 1) i1 i2 i3 =
            a.data (2 * j) i1 i2 i3 * ops.sinf (ops.ofInt (b.data i2) * f) +
              a.data (2 * j + 1) i1 i2 i3 * ops.cosf (ops.ofInt (b.data i2) * f)) ∧
      (∀ j0 j1 j2 j3,
        (j3, j2, j1) ∉ rows_between dst.ne1 dst.ne2 dst.ne3
            ((dst.ne1 * dst.ne2 * dst.ne3 + nth - 1) / nth * ith)
            (min ((dst.ne1 * dst.ne2 * dst.ne3 + nth - 1) / nth * ith +
              (dst.ne1 * dst.ne2 * dst.ne3 + nth - 1) / nth) (dst.ne1 * dst.ne2 * dst.ne3)) →
        dst'.data j0 j1 j2 j3 = dst.data j0 j1 j2 j3) ∧
      (data.rope_dim = dst.ne0 → ∀ j0 j1 j2 j3, data.rope_dim ≤ j0 →
        dst'.data j0 j1 j2 j3 = dst.data j0 j1 j2 j3) := by
  obtain ⟨dst', hrun, -, hframe, hval⟩ :=
    ntk_mix_rope_f32_spec ops data dst a b ith nth n hnth hd1 hd2 hdst hsrc hfreq
  refine ⟨dst', hrun, ?_, ?_, ?_⟩
  · intro i3 i2 i1 j hmem hj
    have hf : data.inv_freq[j]? = some data.inv_freq[j] :=
      List.getElem?_eq_getElem (by omega)
    exact ⟨_, hf, hval i3 i2 i1 j _ hmem hj hf⟩
  · intro j0 j1 j2 j3 hn
    exact hframe j0 j1 j2 j3 (fun h => hn h.1)
  · intro he j0 j1 j2 j3 hj
    exact hframe j0 j1 j2 j3 (fun h => by omega)

/-- Instance on `ropeInput` with the table `[1, 1]` and `rope_dim = 2`: both pairs of the
row are rotated. -/
theorem ntk_mix_rope_whole_row_witness :
    (0 < 1 ∧ (blueWithTable [(1 : ℝ), 1]).rope_dim ≤ (ropeOutput ℝ).ne0 ∧
      (blueWithTable [(1 : ℝ), 1]).rope_dim % 2 = 0 ∧ (ropeOutput ℝ).ne0 = 2 * 2 ∧
      2 * 2 ≤ (ropeInput ℝ).ne0 ∧ 2 ≤ (blueWithTable [(1 : ℝ), 1]).inv_freq.length) ∧
    ∃ dst',
      ggml_compute_forward_ntk_mix_rope_f32 ⟨Real.cos, Real.sin, fun z => (z : ℝ)⟩
        (blueWithTable [(1 : ℝ), 1]) (ropeOutput ℝ) (ropeInput ℝ) ropePos 0 1 = some dst' ∧
      ∃ f, (blueWithTable [(1 : ℝ), 1]).inv_freq[1]? = some f ∧
        dst'.data (2 * 1) 0 0 0 =
          (ropeInput ℝ).data (2 * 1) 0 0 0 * Real.cos (((ropePos.data 0 : Int) : ℝ) * f) -
            (ropeInput ℝ).data (2 * 1 + 1) 0 0 0 *
              Real.sin (((ropePos.data 0 : Int) : ℝ) * f) := by
  have hyp : 0 < 1 ∧ (blueWithTable [(1 : ℝ), 1]).rope_dim ≤ (ropeOutput ℝ).ne0 ∧
      (blueWithTable [(1 : ℝ), 1]).rope_dim % 2 = 0 ∧ (ropeOutput ℝ).ne0 = 2 * 2 ∧
      2 * 2 ≤ (ropeInput ℝ).ne0 ∧ 2 ≤ (blueWithTable [(1 : ℝ), 1]).inv_freq.length := by
    simp [blueWithTable, blueScenario, ropeOutput, ropeInput]
  obtain ⟨dst', hrun, h, -, -⟩ := ntk_mix_rope_whole_row
    ⟨Real.cos, Real.sin, fun z => (z : ℝ)⟩ (blueWithTable [(1 : ℝ), 1])
    (ropeOutput ℝ) (ropeInput ℝ) ropePos 0 1 2 hyp.1 hyp.2.1 hyp.2.2.1 hyp.2.2.2.1
    hyp.2.2.2.2.1 hyp.2.2.2.2.2
  obtain ⟨f, hf, h0, -⟩ := h 0 0 0 1 (by decide) (by decide)
  exact ⟨hyp, dst', hrun, f, hf, h0⟩

/-- Counterexample to C21 as stated, on the row `(1, 0, 1, 0)` at position 1 with
`rope_dim = 2 <= ne0 = 4`, which the assertions accept. With a table of `rope_dim / 2 = 1`
entry the kernel reads `inv_freq[1]` beyond the table and yields no result; with the table
`[0, pi]` it stores `-1` at index 2, where the input holds `1`: the element at an index
`>= rope_dim` is not left equal to the input. -/
theorem ntk_mix_rope_partial_counterexample :
    ((blueWithTable [(1 : ℝ)]).rope_dim = 2 ∧ (ropeOutput ℝ).ne0 = 4 ∧
      (blueWithTable [(1 : ℝ)]).rope_dim ≤ (ropeOutput ℝ).ne0 ∧
      (blueWithTable [(1 : ℝ)]).rope_dim % 2 = 0) ∧
    ggml_compute_forward_ntk_mix_rope_f32 ⟨Real.cos, Real.sin, fun z => (z : ℝ)⟩
      (blueWithTable [(1 : ℝ)]) (ropeOutput ℝ) (ropeInput ℝ) ropePos 0 1 = none ∧
    ∃ dst',
      ggml_compute_forward_ntk_mix_rope_f32 ⟨Real.cos, Real.sin, fun z => (z : ℝ)⟩
        (blueWithTable [0, Real.pi]) (ropeOutput ℝ) (ropeInput ℝ) ropePos 0 1 = some dst' ∧
      dst'.data 2 0 0 0 = -1 ∧ (ropeInput ℝ).data 2 0 0 0 = 1 ∧
      dst'.data 2 0 0 0 ≠ (ropeInput ℝ).data 2 0 0 0 := by
  refine ⟨by simp [blueWithTable, blueScenario, ropeOutput], ?_, ?_⟩
  · unfold ggml_compute_forward_ntk_mix_rope_f32
    have hrows : rows_between 1 1 1 ((1 * 1 * 1 + 1 - 1) / 1 * 0)
        (min ((1 * 1 * 1 + 1 - 1) / 1 * 0 + (1 * 1 * 1 + 1 - 1) / 1) (1 * 1 * 1)) =
        [(0, 0, 0)] := by decide
    simp only [blueWithTable, blueScenario, ropeOutput]
    rw [ntk_mix_rope_rows_eq _ _ _ _ _ _ _ (by decide), hrows]
    simp only [List.foldlM_cons, List.foldlM_nil]
    unfold ntk_mix_rope_i0
    simp only [ropeInput]
    unfold ntk_mix_rope_i0
    simp [Val.set]
  · have hyp : 0 < 1 ∧ (blueWithTable [0, Real.pi]).rope_dim ≤ (ropeOutput ℝ).ne0 ∧
        (blueWithTable [0, Real.pi]).rope_dim % 2 = 0 ∧ (ropeOutput ℝ).ne0 = 2 * 2 ∧
        2 * 2 ≤ (ropeInput ℝ).ne0 ∧ 2 ≤ (blueWithTable [0, Real.pi]).inv_freq.length := by
      simp [blueWithTable, blueScenario, ropeOutput, ropeInput]
    obtain ⟨dst', hrun, -, -, hval⟩ := ntk_mix_rope_f32_spec
      ⟨Real.cos, Real.sin, fun z => (z : ℝ)⟩ (blueWithTable [0, Real.pi])
      (ropeOutput ℝ) (ropeInput ℝ) ropePos 0 1 2 hyp.1 hyp.2.1 hyp.2.2.1 hyp.2.2.2.1
      hyp.2.2.2.2.1 hyp.2.2.2.2.2
    have h := (hval 0 0 0 1 Real.pi (by decide) (by decide) rfl).1
    have e1 : dst'.data 2 0 0 0 = -1 := by
      have h' : dst'.data (2 * 1) 0 0 0 = -1 := by
        rw [h]
        simp [ropeInput, ropePos]
      simpa using h'
    have e2 : (ropeInput ℝ).data 2 0 0 0 = 1 := by simp [ropeInput]
    refine ⟨dst', hrun, e1, e2, ?_⟩
    rw [e1, e2]
    norm_num

/-! ## Reading the input: `get_utf8_line` -/

/-- Appending the character `'\n'` is appending the string of that character. -/
theorem push_newline (s : String) : s.push '\n' = s ++ "\n" := by
  apply String.ext
  simp [String.push, String.append]

/-- In multi-line mode, once `line` is not empty every further line before the marker is
appended after a `'\n'`. -/
theorem get_utf8_line_nonempty (post : List String) :
    ∀ (pre : List String) (line : String), 0 < line.length → MULTI_LINE_END_MARKER ∉ pre →
      get_utf8_line line true (pre ++ MULTI_LINE_END_MARKER :: post) =
        some (true, String.intercalate.go line "\n" pre, post) := by
  intro pre
  induction pre with
  | nil =>
    intro line _ _
    simp [get_utf8_line, String.intercalate.go]
  | cons p pre ih =>
    intro line hl hm
    have hp : p ≠ MULTI_LINE_END_MARKER := fun h => hm (by simp [h])
    have hm' : MULTI_LINE_END_MARKER ∉ pre := fun h => hm (by simp [h])
    simp only [List.cons_append, get_utf8_line, if_true, hp, if_false, gt_iff_lt, hl]
    have h1 : 0 < (line.push '\n' ++ p).length := by
      rw [String.length_append, String.length_push]
      omega
    have h2 := ih _ h1 hm'
    rw [push_newline] at h2
    rw [push_newline]
    exact h2

/-- A string that is not empty has a positive length. -/
theorem length_pos_of_ne_empty (s : String) (h : s ≠ "") : 0 < s.length := by
  rcases Nat.eq_zero_or_pos s.length with h0 | h0
  · exact absurd (String.ext (List.length_eq_zero.1 h0)) h
  · exact h0

/-- C25, as the code has it: in multi-line mode `get_utf8_line` ends the input at the first
line equal to the marker. For every input whose lines `pre` before the first marker are
followed by the marker and the lines `post`, called with an empty `line` it returns true
with `line` equal to the lines of `pre` joined by `'\n'` after the empty lines at the start
of `pre` are dropped, and leaves `post` unread; called with a `line` that is not empty, the
lines of `pre` are appended to it, each after a `'\n'`. -/
theorem get_utf8_line_multi (line : String) (pre post : List String)
    (hm : MULTI_LINE_END_MARKER ∉ pre) :
    (line = "" →
      get_utf8_line line true (pre ++ MULTI_LINE_END_MARKER :: post) =
        some (true, String.intercalate "\n" (pre.dropWhile (fun l => l == "")), post)) ∧
    (line ≠ "" →
      get_utf8_line line true (pre ++ MULTI_LINE_END_MARKER :: post) =
        some (true, String.intercalate "\n" (line :: pre), post)) := by
  constructor
  · intro hl
    subst hl
    induction pre with
    | nil => simp [get_utf8_line, String.intercalate]
    | cons p pre ih =>
      have hp : p ≠ MULTI_LINE_END_MARKER := fun h => hm (by simp [h])
      have hm' : MULTI_LINE_END_MARKER ∉ pre := fun h => hm (by simp [h])
      have h0 : ¬ 0 < "".length := by decide
      have he : "" ++ p = p := by
        apply String.ext
        simp [String.append]
      simp only [List.cons_append, get_utf8_line, if_true, hp, if_false, gt_iff_lt, h0]
      by_cases hpe : p = ""
      · subst hpe
        have := ih hm'
        simpa [List.dropWhile] using this
      · have h1 := get_utf8_line_nonempty post pre p (length_pos_of_ne_empty p hpe) hm'
        rw [he]
        have hb : (p == "") = false := by simpa using hpe
        simp only [List.dropWhile, hb]
        exact h1
  · intro hl
    exact get_utf8_line_nonempty post pre line (length_pos_of_ne_empty line hl) hm

/-- Instance: the lines `a`, an empty line and `b` before the marker, and a line `c` after
it. -/
theorem get_utf8_line_multi_witness :
    MULTI_LINE_END_MARKER ∉ ["a", "", "b"] ∧
    get_utf8_line "" true (["a", "", "b"] ++ MULTI_LINE_END_MARKER :: ["c"]) =
      some (true, "a\n\nb", ["c"]) :=
  ⟨by decide,
   ((get_utf8_line_multi "" ["a", "", "b"] ["c"] (by decide)).1 rfl).trans (by decide)⟩

/-- Counterexample to C25 as stated: for the input lines "", `a` and the marker the
function returns `a`, while the lines before the marker joined by `'\n'` are a `'\n'`
followed by `a`. -/
theorem get_utf8_line_counterexample :
    MULTI_LINE_END_MARKER ∈ ["", "a", MULTI_LINE_END_MARKER] ∧
    get_utf8_line "" true ["", "a", MULTI_LINE_END_MARKER] = some (true, "a", []) ∧
    String.intercalate "\n" ["", "a"] = "\na" ∧
    get_utf8_line "" true ["", "a", MULTI_LINE_END_MARKER] ≠
      some (true, String.intercalate "\n" ["", "a"], []) := by
  decide

/-! ## Command line arguments: the pairs after `--kv` -/

/-- After `insert_or_assign(key, value)` the map holds `value` for `key` and what it held
before for every other key. -/
theorem map_find_insert_or_assign (m : List (String × String)) (key value k : String) :
    map_find (insert_or_assign m key value) k =
      if k = key then some value else map_find m k := by
  induction m with
  | nil =>
    by_cases h : k = key
    · simp [insert_or_assign, map_find, h]
    · have h' : ¬ key = k := fun e => h e.symm
      simp [insert_or_assign, map_find, h, h']
  | cons p rest ih =>
    obtain ⟨a, b⟩ := p
    by_cases h1 : a = key
    · subst h1
      by_cases h2 : k = a
      · simp [insert_or_assign, map_find, h2]
      · have h2' : ¬ a = k := fun e => h2 e.symm
        simp [insert_or_assign, map_find, h2, h2']
    · by_cases h2 : a = k
      · subst h2
        simp [insert_or_assign, map_find, h1]
      · simp [insert_or_assign, map_find, h1, h2, ih]

/-- The pairs after position `c`: the first one, then the pairs after position `c + 2`. -/
theorem kv_pairs_succ (argv : List String) (c k : Nat) :
    kv_pairs argv c (k + 1) =
      (argv.getD (c + 1) "", argv.getD (c + 2) "") :: kv_pairs argv (c + 2) k := by
  simp only [kv_pairs, List.range_succ_eq_map, List.map_cons, List.map_map]
  congr 1
  apply List.map_congr_left
  intro i _
  simp only [Function.comp, Nat.succ_eq_add_one]
  congr 2 <;> omega

/-- The loop of the branch for `--kv` takes the arguments after position `c` two at a
time, `k` pairs when `2 * k` or `2 * k + 1` arguments follow, and stops at `c + 2 * k`. -/
theorem parse_kv_eq (argv : List String) :
    ∀ k c (additional : List (String × String)),
      c + 2 * k < argv.length → argv.length ≤ c + 2 * k + 2 →
      parse_kv argv c additional =
        (c + 2 * k,
          (kv_pairs argv c k).foldl (fun m p => insert_or_assign m p.1 p.2) additional) := by
  intro k
  induction k with
  | zero =>
    intro c additional _ h2
    unfold parse_kv
    have : ¬ c + 2 < argv.length := by omega
    simp [this, kv_pairs]
  | succ k ih =>
    intro c additional h1 h2
    unfold parse_kv
    have : c + 2 < argv.length := by omega
    rw [if_pos this, ih (c + 2) _ (by omega) (by omega), kv_pairs_succ]
    simp only [List.foldl_cons]
    congr 1
    omega

/-- One pass of the loop of `parse_args` at an argument `--kv` followed by `2 * k` or
`2 * k + 1` arguments: `k` pairs are stored and the loop goes on behind them. -/
theorem parse_loop_kv {DS : Type} (env : ParseEnv DS) (argv : List String) (c k : Nat)
    (args : Args DS) (h1 : c + 2 * k < argv.length) (h2 : argv.length ≤ c + 2 * k + 2)
    (harg : argv[c]? = some "--kv") :
    parse_loop env argv c args =
      parse_loop env argv (c + 2 * k + 1)
        { args with additional :=
            ((kv_pairs argv c k).foldl (fun m p => insert_or_assign m p.1 p.2)
              args.additional) } := by
  have hc : c < argv.length := by omega
  have hget : argv[c] = "--kv" := by
    rw [List.getElem?_eq_getElem hc] at harg
    exact Option.some.inj harg
  rw [parse_loop, dif_pos hc, hget]
  have hstep : parse_arg env argv c "--kv" args =
      Step.next ((parse_kv argv c args.additional).1 - c)
        { args with additional := (parse_kv argv c args.additional).2 } := by
    simp [parse_arg]
  rw [hstep, parse_kv_eq argv k c args.additional h1 h2]
  simp only
  congr 1
  omega

/-- The loop of `parse_args` ends with the members it has when no argument is left. -/
theorem parse_loop_end {DS : Type} (env : ParseEnv DS) (argv : List String) (c : Nat)
    (args : Args DS) (h : argv.length ≤ c) : parse_loop env argv c args = ParseResult.ok args := by
  rw [parse_loop, dif_neg (by omega)]

/-- C24, as the code has it: when the loop of `parse_args` reaches an argument `--kv`, the
arguments that follow are taken two at a time as (key, value) pairs and stored in
`args.additional` by `insert_or_assign`, so that a later pair with the same key overrides
an earlier one, and the loop goes on behind the last complete pair; when the number of
arguments that follow is even, none of them is interpreted as an option: `parse_args`
returns, all other members being as they were when `--kv` was reached. -/
theorem parse_args_kv_pairs {DS : Type} (env : ParseEnv DS) (argv : List String) (c : Nat)
    (args : Args DS) (hc : c < argv.length) (harg : argv[c]? = some "--kv") :
    parse_loop env argv c args =
      parse_loop env argv (c + 2 * ((argv.length - c - 1) / 2) + 1)
        { args with additional :=
            ((kv_pairs argv c ((argv.length - c - 1) / 2)).foldl
              (fun m p => insert_or_assign m p.1 p.2) args.additional) } ∧
    ((argv.length - c - 1) % 2 = 0 →
      parse_loop env argv c args =
        ParseResult.ok
          { args with additional :=
              ((kv_pairs argv c ((argv.length - c - 1) / 2)).foldl
                (fun m p => insert_or_assign m p.1 p.2) args.additional) }) ∧
    (∀ (m : List (String × String)) (key value k : String),
      map_find (insert_or_assign m key value) k =
        if k = key then some value else map_find m k) := by
  have hstep := parse_loop_kv env argv c ((argv.length - c - 1) / 2) args (by omega)
    (by omega) harg
  refine ⟨hstep, fun heven => ?_, map_find_insert_or_assign⟩
  rw [hstep]
  exact parse_loop_end env argv _ _ (by omega)

/-- Instance: `-i --kv a 1 b 2 a 3`; the three pairs are stored, the second value of `a`
overriding the first. -/
theorem parse_args_kv_pairs_witness :
    (2 < ["main", "-i", "--kv", "a", "1", "b", "2", "a", "3"].length ∧
      ["main", "-i", "--kv", "a", "1", "b", "2", "a", "3"][2]? = some "--kv" ∧
      (["main", "-i", "--kv", "a", "1", "b", "2", "a", "3"].length - 2 - 1) % 2 = 0) ∧
    ∃ additional,
      parse_loop exampleEnv ["main", "-i", "--kv", "a", "1", "b", "2", "a", "3"] 2
          { Args.init exampleEnv 0 with interactive := true } =
        ParseResult.ok
          { Args.init exampleEnv 0 with interactive := true, additional := additional } ∧
      additional = [("a", "3"), ("b", "2")] :=
  ⟨by decide, _,
   ((parse_args_kv_pairs exampleEnv ["main", "-i", "--kv", "a", "1", "b", "2", "a", "3"] 2
      { Args.init exampleEnv 0 with interactive := true } (by decide) (by decide)).2.1
      (by decide)),
   by decide⟩

/-- Counterexample to C24 as stated. In `--kv a b --multi` the argument `--multi` follows
`--kv` and is interpreted as an option: `multi_line` is set. In `-p --kv a b` the argument
`--kv` is the value of `-p`, and the arguments that follow it are not stored as a pair: the
call ends with the unknown arguments `a b`. -/
theorem parse_args_kv_counterexample :
    parse_args exampleEnv 0 ["main", "--kv", "a", "b", "--multi"] =
      ParseResult.ok
        { Args.init exampleEnv 0 with additional := [("a", "b")], multi_line := true } ∧
    parse_args exampleEnv 0 ["main", "-p", "--kv", "a", "b"] =
      ParseResult.exit_failure ["a", "b"] := by
  constructor
  · unfold parse_args
    rw [parse_loop_kv exampleEnv _ 1 1 _ (by decide) (by decide) (by decide)]
    rw [parse_loop]
    simp only [List.length_cons, List.length_nil]
    rw [dif_pos (by decide)]
    simp only [parse_arg]
    simp
    rw [parse_loop_end _ _ _ _ (by decide)]
    simp [kv_pairs, insert_or_assign, Args.init, show List.range 1 = [0] from rfl]
  · unfold parse_args
    rw [parse_loop]
    simp only [List.length_cons, List.length_nil]
    rw [dif_pos (by decide)]
    simp [parse_arg, handle_param]
    rw [parse_loop]
    simp [parse_arg]

end chatllm
